import Mathlib

/-!
# TritonHTTP: a shallow embedding of the protocol engine

The development models the three source files of the server

* `tritonhttp/request.go`  (ReadLine, ParseInitialRequestLine, ParseHeaderLine, ReadRequest),
* `tritonhttp/response.go` (WriteToResponse),
* `tritonhttp/server.go`   (HandleConnection, HandleGoodRequest, HandleOk, HandleNotFound,
  HandleBadRequest)

as executable Lean functions and proves properties of them.

Conventions.

* A Go `string` is a sequence of bytes: `Str = List Nat` (every element of a real string is
  below 256; no theorem needs that bound).
* A Go run-time panic is an explicit outcome (`Run.panic`), as is the exhaustion of the fuel
  that drives a `for` loop of the source (`Run.fuel`); the theorems `ReadLine_cases`,
  `ReadRequest_total` and `HandleConnection_total` show that the fuel handed out by the
  top-level functions is always enough.
* The operating system (socket, file system, clock) is an explicit argument.
* The helpers `CanonicalHeaderKey`, `FormatTime` and `MIMETypeByExtension` are called by the
  three files but defined elsewhere; they are taken as parameters (`Util`).
-/

namespace TritonHTTP

/-! ## Strings -/

/-- A Go string: a sequence of bytes. -/
abbrev Str := List Nat

/-- The bytes of an ASCII literal. -/
def bytes (s : String) : Str := s.data.map Char.toNat

/-- The line terminator "\r\n". -/
def CRLF : Str := [13, 10]

/-- Go `strings.HasSuffix`. -/
def HasSuffix (s suffix : Str) : Bool :=
  decide (suffix.length ≤ s.length) && (s.drop (s.length - suffix.length) == suffix)

/-- UTF-8 encodings of the code points for which Go `unicode.IsSpace` holds:
tab, LF, VT, FF, CR, space, U+0085, U+00A0, U+1680, U+2000..U+200A, U+2028, U+2029, U+202F,
U+205F, U+3000. -/
def spaceEncodings : List Str :=
  [[9], [10], [11], [12], [13], [32], [0xC2, 0x85], [0xC2, 0xA0], [0xE1, 0x9A, 0x80],
   [0xE2, 0x80, 0x80], [0xE2, 0x80, 0x81], [0xE2, 0x80, 0x82], [0xE2, 0x80, 0x83],
   [0xE2, 0x80, 0x84], [0xE2, 0x80, 0x85], [0xE2, 0x80, 0x86], [0xE2, 0x80, 0x87],
   [0xE2, 0x80, 0x88], [0xE2, 0x80, 0x89], [0xE2, 0x80, 0x8A], [0xE2, 0x80, 0xA8],
   [0xE2, 0x80, 0xA9], [0xE2, 0x80, 0xAF], [0xE2, 0x81, 0x9F], [0xE3, 0x80, 0x80]]

/-- Remove one leading white-space code point (given the encodings to look for), if any. -/
def dropSpace (encs : List Str) (s : Str) : Option Str :=
  (encs.find? (fun e => e.isPrefixOf s)).map (fun e => s.drop e.length)

/-- Remove leading white space; every step removes at least one byte, so `s.length` steps are
enough. -/
def trimLeading (encs : List Str) : Nat → Str → Str
  | 0, s => s
  | n + 1, s =>
    match dropSpace encs s with
    | some t => trimLeading encs n t
    | none => s

/-- Go `strings.TrimSpace`: leading and trailing Unicode white space removed. The trailing
pass runs over the reversed string with the reversed encodings. -/
def TrimSpace (s : Str) : Str :=
  let l := trimLeading spaceEncodings s.length s
  (trimLeading (spaceEncodings.map List.reverse) l.length l.reverse).reverse

/-- Split `s` at the first occurrence of the byte `sep`: the text before it and the text
after it. -/
def cut (sep : Nat) : Str → Option (Str × Str)
  | [] => none
  | c :: t =>
    if c = sep then some ([], t)
    else match cut sep t with
      | some (a, b) => some (c :: a, b)
      | none => none

/-- Go `strings.SplitN(s, sep, n)` for a one-byte separator (all three call sites pass one):
at most `n` pieces, the last one being the unsplit remainder. -/
def SplitN (s : Str) (sep : Nat) : Nat → List Str
  | 0 => []
  | 1 => [s]
  | n + 2 =>
    match cut sep s with
    | some (a, b) => a :: SplitN b sep (n + 1)
    | none => [s]

/-- Decimal digits of `n`, most significant first, accumulated in front of `acc`. -/
def digits : Nat → Nat → Str → Str
  | 0, _, acc => acc
  | fuel + 1, n, acc =>
    if n < 10 then (48 + n) :: acc else digits fuel (n / 10) ((48 + n % 10) :: acc)

/-- Go `strconv.Itoa` on a non-negative number. -/
def Itoa (n : Nat) : Str := digits (n + 1) n []

/-- The verb `%v` of `fmt.Sprintf` applied to an `int`. -/
def fmtInt : Int → Str
  | Int.ofNat n => Itoa n
  | Int.negSucc n => 45 :: Itoa (n + 1)

/-! ## Go `path.Clean` and `filepath.Ext` -/

/-- The inner loop of the `..` case of `path.Clean`,
`out.w--; for out.w > dotdot && out.index(out.w) != '/' { out.w-- }`,
on the reversed buffer: bytes are popped until the popped byte is a slash or the buffer is
down to `dotdot` bytes. -/
def backtrackRev (dotdot : Nat) : Str → Str
  | [] => []
  | c :: t => if dotdot < t.length ∧ c ≠ 47 then backtrackRev dotdot t else t

/-- The `..` backtracking of `path.Clean` on the buffer. -/
def backtrack (dotdot : Nat) (out : Str) : Str :=
  (backtrackRev dotdot out.reverse).reverse

/-- The main loop `for r < n { switch ... }` of Go `path.Clean`. `rest` is `path[r:]`, `out`
the bytes written so far (`out.w = out.length`), 47 is the slash and 46 the dot. Every
iteration consumes at least one byte of `rest`. -/
def cleanLoop (rooted : Bool) : Nat → Str → Str → Nat → Str
  | 0, _, out, _ => out
  | fuel + 1, rest, out, dotdot =>
    if rest = [] then out
    else if rest[0]? = some 47 then
      -- empty path element
      cleanLoop rooted fuel (rest.drop 1) out dotdot
    else if rest[0]? = some 46 ∧ (rest.length = 1 ∨ rest[1]? = some 47) then
      -- . element
      cleanLoop rooted fuel (rest.drop 1) out dotdot
    else if rest[0]? = some 46 ∧ rest[1]? = some 46 ∧ (rest.length = 2 ∨ rest[2]? = some 47) then
      -- .. element: remove to last /
      if dotdot < out.length then
        cleanLoop rooted fuel (rest.drop 2) (backtrack dotdot out) dotdot
      else if rooted = false then
        let out1 := (if 0 < out.length then out ++ [47] else out) ++ [46, 46]
        cleanLoop rooted fuel (rest.drop 2) out1 out1.length
      else
        cleanLoop rooted fuel (rest.drop 2) out dotdot
    else
      -- real path element: add slash if needed, copy element
      let out1 :=
        if (rooted = true ∧ out.length ≠ 1) ∨ (rooted = false ∧ out.length ≠ 0) then out ++ [47]
        else out
      cleanLoop rooted fuel (rest.dropWhile (fun c => c ≠ 47))
        (out1 ++ rest.takeWhile (fun c => c ≠ 47)) dotdot

/-- Go `path.Clean`. -/
def Clean (path : Str) : Str :=
  if path = [] then [46]
  else
    let rooted : Bool := path[0]? = some 47
    let out :=
      if rooted then cleanLoop rooted path.length (path.drop 1) [47] 1
      else cleanLoop rooted path.length path [] 0
    if out.length = 0 then [46] else out

/-- The backwards scan of `filepath.Ext` over the reversed path; `acc` is `path[i+1:]`. -/
def extScan : Str → Str → Str
  | [], _ => []
  | c :: t, acc => if c = 47 then [] else if c = 46 then c :: acc else extScan t (c :: acc)

/-- Go `filepath.Ext` (Unix): the suffix beginning at the final dot of the final element. -/
def Ext (path : Str) : Str := extScan path.reverse []

/-! ## Go maps with string keys and `sort.Strings` -/

/-- A Go `map[string]string`: pairs in insertion order, keys pairwise distinct. The order of
the pairs stands for the unspecified iteration order of the map. -/
abbrev GoMap := List (Str × Str)

/-- The two-result lookup `v, ok := m[k]`. -/
def GoMap.get : GoMap → Str → Option Str
  | [], _ => none
  | (k, v) :: m, key => if k = key then some v else GoMap.get m key

/-- The lookup `m[k]`: the empty string when the key is absent. -/
def GoMap.getD (m : GoMap) (key : Str) : Str := (m.get key).getD []

/-- The assignment `m[k] = v`. -/
def GoMap.set : GoMap → Str → Str → GoMap
  | [], key, val => [(key, val)]
  | (k, v) :: m, key, val => if k = key then (k, val) :: m else (k, v) :: GoMap.set m key val

/-- The keys collected by `for key := range m`. -/
def GoMap.keys (m : GoMap) : List Str := m.map Prod.fst

/-- Bytewise lexicographic order, the order `<=` of Go strings. -/
def strLe : Str → Str → Bool
  | [], _ => true
  | _ :: _, [] => false
  | a :: s, b :: t => decide (a < b) || (a == b && strLe s t)

/-- Go `sort.Strings`: the strings in ascending order. -/
def sortStrings (l : List Str) : List Str := l.insertionSort (fun a b => strLe a b = true)

/-! ## Outcomes, errors and the collaborators outside the three files -/

/-- Go `error` values that reach the protocol engine. -/
inductive GoError where
  /-- The value `io.EOF`: the peer closed the connection. -/
  | EOF
  /-- A `net.Error` whose `Timeout()` is true: the read deadline passed. -/
  | timeout
  /-- An error for which `os.IsNotExist` holds. -/
  | notExist
  /-- Any other error of the operating system, by number. -/
  | io (code : Nat)
  /-- The value `io.ErrNoProgress`: many reads in a row delivered neither data nor an error. -/
  | noProgress
  /-- The error "parse Request Line failed" with the pieces found. -/
  | parseRequestLine (pieces : List Str)
  /-- The error "invalid Method Found". -/
  | invalidMethod (method : Str)
  /-- The error "invalid URL". -/
  | invalidURL (url : Str)
  /-- The error "invalid proto". -/
  | invalidProto (proto : Str)
  /-- The error "parse header Line failed(no colon)" with the pieces found. -/
  | headerNoColon (pieces : List Str)
  /-- The error "<key> cannot be empty". -/
  | headerEmptyKey
  deriving DecidableEq, Repr

/-- Go run-time panics. -/
inductive Panic where
  /-- A slice expression out of range, as `s[:1]` on the empty string. -/
  | sliceBounds
  /-- An index expression out of range. -/
  | indexRange
  /-- A method call or field access through a nil pointer or nil interface. -/
  | nilDereference
  deriving DecidableEq, Repr

/-- The outcome of running a piece of Go code. -/
inductive Run (α : Type) where
  /-- The code returned. -/
  | ret (a : α)
  /-- The code panicked. -/
  | panic (p : Panic)
  /-- The fuel of the model ran out before the code returned. -/
  | fuel
  deriving DecidableEq, Repr

deriving instance DecidableEq for Except

/-- Sequencing of outcomes. -/
def Run.bind {α β : Type} (x : Run α) (f : α → Run β) : Run β :=
  match x with
  | .ret a => f a
  | .panic p => .panic p
  | .fuel => .fuel

instance : Monad Run where
  pure := Run.ret
  bind := Run.bind

/-- The index expression `l[i]`. -/
def idx (l : List Str) (i : Nat) : Run Str :=
  match l[i]? with
  | some s => .ret s
  | none => .panic .indexRange

/-- The helpers that the three files call but do not define. `FormatTime` takes an instant,
given as a number. -/
structure Util where
  /-- The canonical form of a header key. -/
  CanonicalHeaderKey : Str → Str
  /-- The textual form of an instant. -/
  FormatTime : Nat → Str
  /-- The media type registered for a file extension. -/
  MIMETypeByExtension : Str → Str

/-- The constant `RESPONSE_PROTO`. -/
def RESPONSE_PROTO : Str := bytes "HTTP/1.1"

/-! ## request.go -/

/-- The inbound side of a connection behind a `bufio.Reader`: the bytes already buffered, the
chunks that the following calls of `conn.Read` deliver (an empty chunk is a read that returns
no data and no error), and the error that `conn.Read` returns once the chunks are used up
(`io.EOF` when the peer has closed, a timeout when the deadline passes first, or another
error). -/
structure Reader where
  /-- Bytes read from the connection and not yet consumed. -/
  buf : Str
  /-- The data of the coming reads, in order. -/
  chunks : List Str
  /-- The error that ends the stream. -/
  err : GoError
  deriving DecidableEq, Repr

/-- All bytes that the reader will still deliver. -/
def Reader.pending (r : Reader) : Str := r.buf ++ r.chunks.flatten

/-- Split `s` after the first occurrence of the byte `delim`. -/
def cutAfter (delim : Nat) : Str → Option (Str × Str)
  | [] => none
  | c :: t =>
    if c = delim then some ([c], t)
    else match cutAfter delim t with
      | some (a, b) => some (c :: a, b)
      | none => none

/-- The constant `maxConsecutiveEmptyReads` of package bufio. -/
def maxConsecutiveEmptyReads : Nat := 100

/-- The work of `bufio.Reader.ReadString`: look for the delimiter in what is buffered; when it
is not there, fill the buffer and look again; give up with the error of the stream when no
chunk is left. Filling (`bufio.Reader.fill`) reads until a read delivers data or an error, at
most `maxConsecutiveEmptyReads` times: `tries` is the number of reads that the running fill
may still make, and when the last of them delivers nothing the call gives up with
`io.ErrNoProgress`, returning what is buffered. A read that delivers nothing leaves the buffer
as it was, so that looking again after it finds nothing. -/
def readStringFrom (delim : Nat) (err : GoError) :
    Nat → Str → List Str → (Str × Option GoError) × Reader
  | _, buf, [] =>
    match cutAfter delim buf with
    | some (a, b) => ((a, none), ⟨b, [], err⟩)
    | none => ((buf, some err), ⟨[], [], err⟩)
  | tries, buf, c :: cs =>
    match cutAfter delim buf with
    | some (a, b) => ((a, none), ⟨b, c :: cs, err⟩)
    | none =>
      if c = [] then
        if tries ≤ 1 then ((buf, some .noProgress), ⟨[], cs, err⟩)
        else readStringFrom delim err (tries - 1) buf cs
      else readStringFrom delim err maxConsecutiveEmptyReads (buf ++ c) cs

/-- Go `bufio.Reader.ReadString(delim)`: the bytes up to and including the first delimiter,
or everything that could be read together with the error that stopped the read. -/
def ReadString (r : Reader) (delim : Nat) : (Str × Option GoError) × Reader :=
  readStringFrom delim r.err maxConsecutiveEmptyReads r.buf r.chunks

/-- The loop of `ReadLine`; `line` is the text accumulated so far. -/
def readLineLoop : Nat → Reader → Str → Run ((Str × Option GoError) × Reader)
  | 0, _, _ => .fuel
  | fuel + 1, bufferR, line =>
    match ReadString bufferR 10 with
    | ((str, err), bufferR1) =>
      let line := line ++ str
      match err with
      | some e => .ret ((line, some e), bufferR1)
      | none =>
        if HasSuffix line CRLF then .ret ((line.take (line.length - 2), none), bufferR1)
        else readLineLoop fuel bufferR1 line

/-- The function `ReadLine` of request.go. -/
def ReadLine (bufferR : Reader) : Run ((Str × Option GoError) × Reader) :=
  readLineLoop (bufferR.pending.length + 1) bufferR []

/-- The type `Request` of request.go. -/
structure Request where
  Method : Str
  URL : Str
  Proto : Str
  Headers : GoMap
  Host : Str
  Close : Bool
  deriving DecidableEq, Repr

/-- The function `ParseHeaderLine` of request.go. -/
def ParseHeaderLine (u : Util) (line : Str) : Except GoError (List Str) :=
  match SplitN line 58 2 with
  | [key, value] =>
    if key = [] then .error .headerEmptyKey
    else .ok [u.CanonicalHeaderKey (TrimSpace key), TrimSpace value]
  | splitLine => .error (.headerNoColon splitLine)

/-- The function `ValidateMethodField` of request.go. -/
def ValidateMethodField (field : Str) : Bool := field == bytes "GET"

/-- The function `ValidateURL` of request.go; the slice expression `URL[:1]` panics on the
empty string. -/
def ValidateURL (URL : Str) : Run Bool :=
  if URL.length < 1 then .panic .sliceBounds else .ret (URL.take 1 == bytes "/")

/-- The function `ValidateProto` of request.go. -/
def ValidateProto (proto : Str) : Bool := proto == RESPONSE_PROTO

/-- The function `ParseInitialRequestLine` of request.go. -/
def ParseInitialRequestLine (line : Str) : Except GoError (List Str) :=
  match SplitN line 32 3 with
  | [a, b, c] => .ok [TrimSpace a, TrimSpace b, TrimSpace c]
  | splitLine => .error (.parseRequestLine splitLine)

/-- The statements of the header loop of `ReadRequest` that act on the request, for one
header line with the given key and value. -/
def headerStep (request : Request) (key value : Str) : Request :=
  let request := if key = bytes "Host" then { request with Host := value } else request
  let request :=
    if key = bytes "Connection" then
      if value = bytes "close" then { request with Close := true } else request
    else request
  { request with Headers := request.Headers.set key value }

/-- The header loop of `ReadRequest`. -/
def readHeaders (u : Util) : Nat → Reader → Request → Run (Except GoError Request × Reader)
  | 0, _, _ => .fuel
  | fuel + 1, bufferR, request => do
    let ((line, err), bufferR) ← ReadLine bufferR
    match err with
    | some e => return (.error e, bufferR)
    | none =>
      -- end of request
      if line = [] then return (.ok request, bufferR)
      else
        match ParseHeaderLine u line with
        | .error e => return (.error e, bufferR)
        | .ok header =>
          let key ← idx header 0
          let value ← idx header 1
          readHeaders u fuel bufferR (headerStep request key value)

/-- The method `ReadRequest` of request.go: the request or the error, and the reader after
the call. -/
def ReadRequest (u : Util) (bufferR : Reader) : Run (Except GoError Request × Reader) := do
  let request : Request := ⟨[], [], [], [], [], false⟩
  -- read initial request line
  let ((line, err), bufferR) ← ReadLine bufferR
  match err with
  | some e => return (.error e, bufferR)
  | none =>
    match ParseInitialRequestLine line with
    | .error e => return (.error e, bufferR)
    | .ok initialRequest =>
      let method ← idx initialRequest 0
      if ValidateMethodField method = false then return (.error (.invalidMethod method), bufferR)
      else
        let url ← idx initialRequest 1
        if (← ValidateURL url) = false then return (.error (.invalidURL url), bufferR)
        else
          let proto ← idx initialRequest 2
          if ValidateProto proto = false then return (.error (.invalidProto proto), bufferR)
          else
            let request := { request with Method := method, URL := url, Proto := RESPONSE_PROTO }
            -- read more header lines (key-value pairs)
            readHeaders u (bufferR.pending.length + 1) bufferR request

/-- The header lines in front of the reader, up to the blank line: key and value of each,
in order, as `ReadLine` and `ParseHeaderLine` deliver them. -/
def headerPairs (u : Util) : Nat → Reader → List (Str × Str)
  | 0, _ => []
  | fuel + 1, bufferR =>
    match ReadLine bufferR with
    | .ret ((line, none), bufferR) =>
      if line = [] then []
      else
        match ParseHeaderLine u line with
        | .ok [key, value] => (key, value) :: headerPairs u fuel bufferR
        | _ => []
    | _ => []

/-- The header lines of the request in front of the reader: those that follow the request
line. -/
def headerLines (u : Util) (bufferR : Reader) : List (Str × Str) :=
  match ReadLine bufferR with
  | .ret ((_, none), bufferR) => headerPairs u (bufferR.pending.length + 1) bufferR
  | _ => []

/-! ## response.go -/

/-- The type `Response` of response.go. `Request` is the request that the Go pointer refers
to, in the state it has when the response is returned. -/
structure Response where
  Proto : Str
  StatusCode : Int
  StatusText : Str
  Headers : GoMap
  Request : Option Request
  FilePath : Str
  deriving DecidableEq, Repr

/-- What `os.Stat` reports about an existing path. -/
structure FileInfo where
  /-- The result of `IsDir()`. -/
  isDir : Bool
  /-- The result of `Size()`. -/
  size : Nat
  /-- The result of `ModTime()`, an instant. -/
  modTime : Nat
  deriving DecidableEq, Repr

/-- The file system: `os.Stat`, and `os.Open` followed by `ioutil.ReadAll`. -/
structure FS where
  /-- The call `os.Stat(path)`: the file information, or the error (and then no file
  information). -/
  stat : Str → Except GoError FileInfo
  /-- The calls `os.Open(path)` and `ioutil.ReadAll(file)`: the contents, or the error. -/
  readFile : Str → Except GoError Str

/-- The outbound side of a connection. A step `WriteString; Flush` of the serializer either
delivers its bytes or fails and delivers nothing. -/
structure Sink where
  /-- The bytes delivered so far. -/
  written : Str
  /-- When `some n`: the next `n` writes succeed and every later one fails. When `none`: no
  write fails. -/
  budget : Option Nat
  /-- The error of a failing write. -/
  err : GoError
  deriving DecidableEq, Repr

/-- One step `bufferW.WriteString(data); bufferW.Flush()`. Nothing is handed to the
connection when there are no bytes. -/
def Sink.write (w : Sink) (data : Str) : Option GoError × Sink :=
  if data = [] then (none, w)
  else
    match w.budget with
    | none => (none, { w with written := w.written ++ data })
    | some 0 => (some w.err, w)
    | some (n + 1) => (none, { w with written := w.written ++ data, budget := some n })

/-- The loop over the sorted keys in `WriteToResponse`. -/
def writeHeaders (headers : GoMap) : List Str → Sink → Option GoError × Sink
  | [], w => (none, w)
  | key :: keys, w =>
    match w.write (key ++ bytes ": " ++ headers.getD key ++ CRLF) with
    | (some e, w) => (some e, w)
    | (none, w) => writeHeaders headers keys w

/-- The method `WriteToResponse` of response.go: the error returned (if any) and the sink
after the call. -/
def WriteToResponse (response : Response) (fs : FS) (writer : Sink) : Option GoError × Sink :=
  -- write initial Response Line
  let initialResponseLine :=
    response.Proto ++ bytes " " ++ fmtInt response.StatusCode ++ bytes " " ++ response.StatusText
      ++ CRLF
  match writer.write initialResponseLine with
  | (some e, w) => (some e, w)
  | (none, w) =>
    let keys := sortStrings response.Headers.keys
    -- write Response headers if there is any
    match writeHeaders response.Headers keys w with
    | (some e, w) => (some e, w)
    | (none, w) =>
      match w.write CRLF with
      | (some e, w) => (some e, w)
      | (none, w) =>
        -- write message body if status OK (200)
        if response.StatusCode = 200 then
          match fs.readFile response.FilePath with
          | .error e => (some e, w)
          | .ok buffer => w.write buffer
        else (none, w)

/-! ## server.go -/

/-- The constant `STATUS_OK`. -/
def STATUS_OK : Int := 200
/-- The constant `STATUS_BAD_REQUEST`. -/
def STATUS_BAD_REQUEST : Int := 400
/-- The constant `STATUS_NOT_FOUND`. -/
def STATUS_NOT_FOUND : Int := 404

/-- The type `Server` of server.go. -/
structure Server where
  Addr : Str
  VirtualHosts : GoMap
  deriving DecidableEq, Repr

/-- The lookup `statusText[code]` in the table of server.go (the empty string for a code
that is not in the table). -/
def statusText (code : Int) : Str :=
  if code = STATUS_OK then bytes "OK"
  else if code = STATUS_BAD_REQUEST then bytes "Bad Request"
  else if code = STATUS_NOT_FOUND then bytes "Not Found"
  else []

/-- The method `HandleBadRequest` of server.go; `now` is the value of `time.Now()`. -/
def HandleBadRequest (u : Util) (now : Nat) (response : Response) : Response :=
  let response :=
    { response with
      Proto := RESPONSE_PROTO, StatusCode := STATUS_BAD_REQUEST,
      StatusText := statusText STATUS_BAD_REQUEST, Request := none, FilePath := [] }
  let response := { response with Headers := response.Headers.set (bytes "Connection") (bytes "close") }
  { response with Headers := response.Headers.set (bytes "Date") (u.FormatTime now) }

/-- The method `HandleNotFound` of server.go; reading `response.Request.Close` panics when
there is no request. -/
def HandleNotFound (u : Util) (now : Nat) (response : Response) : Run Response :=
  let response :=
    { response with
      Proto := RESPONSE_PROTO, StatusCode := STATUS_NOT_FOUND,
      StatusText := statusText STATUS_NOT_FOUND }
  match response.Request with
  | none => .panic .nilDereference
  | some request =>
    let response :=
      if request.Close then
        { response with Headers := response.Headers.set (bytes "Connection") (bytes "close") }
      else response
    .ret { response with Headers := response.Headers.set (bytes "Date") (u.FormatTime now) }

/-- The method `HandleOk` of server.go. -/
def HandleOk (u : Util) (now : Nat) (response : Response) : Run Response :=
  let response :=
    { response with
      Proto := RESPONSE_PROTO, StatusCode := STATUS_OK, StatusText := statusText STATUS_OK }
  match response.Request with
  | none => .panic .nilDereference
  | some request =>
    let response :=
      if request.Close then
        { response with Headers := response.Headers.set (bytes "Connection") (bytes "close") }
      else response
    .ret { response with Headers := response.Headers.set (bytes "Date") (u.FormatTime now) }

/-- The not-found exit of `HandleGoodRequest`: file path and request are stored, then
`HandleNotFound` fills in the rest. -/
def notFoundExit (u : Util) (now : Nat) (response : Response) (filePath : Str)
    (request : Request) : Run Response :=
  HandleNotFound u now { response with FilePath := filePath, Request := some request }

/-- The success exit of `HandleGoodRequest` (step 2b); `fileInfo` is `none` when the
preceding `os.Stat` returned an error, and then `fileInfo.ModTime()` panics. -/
def okExit (u : Util) (now : Nat) (response : Response) (absoluteURL : Str)
    (request : Request) (fileInfo : Option FileInfo) : Run Response :=
  match fileInfo with
  | none => .panic .nilDereference
  | some info => do
    let response := { response with FilePath := absoluteURL, Request := some request }
    let response :=
      { response with Headers := response.Headers.set (bytes "Last-Modified") (u.FormatTime info.modTime) }
    let response :=
      { response with Headers := response.Headers.set (bytes "Content-Length") (Itoa info.size) }
    let fileExt := Ext absoluteURL
    let contentType ← idx (SplitN (u.MIMETypeByExtension fileExt) 59 2) 0
    let response :=
      { response with Headers := response.Headers.set (bytes "Content-Type") contentType }
    HandleOk u now response

/-- Steps 2, 2a and 2b of `HandleGoodRequest`, for a request whose host is known: the target
is translated to a file name, `os.Stat` is called on it, and once more on its index file when
it is a directory. The result is the list of the paths handed to `os.Stat`, in order, and the
outcome. -/
def statAndServe (s : Server) (u : Util) (fs : FS) (now : Nat) (response : Response)
    (host : Str) (request : Request) : List Str × Run Response :=
  let absoluteURL := s.VirtualHosts.getD host ++ Clean request.URL
  match fs.stat absoluteURL with
  | .error .notExist => ([absoluteURL], notFoundExit u now response absoluteURL request)
  | .error _ =>
    -- `fileInfo` is nil and `fileInfo.IsDir()` is called
    ([absoluteURL], .panic .nilDereference)
  | .ok fileInfo =>
    -- 2a. If it is a directory, add '/index.html' to the end and serve that out
    if fileInfo.isDir then
      let request := { request with URL := Clean (request.URL ++ bytes "/index.html") }
      let absoluteURL2 := s.VirtualHosts.getD host ++ Clean request.URL
      match fs.stat absoluteURL2 with
      | .error .notExist =>
        ([absoluteURL, absoluteURL2], notFoundExit u now response absoluteURL2 request)
      | .error _ => ([absoluteURL, absoluteURL2], okExit u now response absoluteURL2 request none)
      | .ok fileInfo2 =>
        ([absoluteURL, absoluteURL2], okExit u now response absoluteURL2 request (some fileInfo2))
    else ([absoluteURL], okExit u now response absoluteURL request (some fileInfo))

/-- The method `HandleGoodRequest` of server.go. The result is the list of the paths handed
to `os.Stat`, in order, and the outcome: the response (whose `Request` carries the request
as the method leaves it) or a panic. -/
def HandleGoodRequest (s : Server) (u : Util) (fs : FS) (now : Nat) (request : Request) :
    List Str × Run Response :=
  let response : Response := ⟨[], 0, [], [], none, []⟩
  let host := request.Host
  match s.VirtualHosts.get host with
  | none => ([], notFoundExit u now response request.URL request)
  | some _ =>
    -- 1. if path end with '/', map '/' to /index.html
    match request.URL.getLast? with
    | none => ([], .panic .indexRange)
    | some last =>
      statAndServe s u fs now response host
        (if last = 47 then { request with URL := Clean (request.URL ++ bytes "index.html") }
          else request)

/-- The fields of a response that `WriteToResponse` sends or uses: everything but the
request. -/
def Response.sent (r : Response) : Str × Int × Str × GoMap × Str :=
  (r.Proto, r.StatusCode, r.StatusText, r.Headers, r.FilePath)

/-- What `HandleConnection` does to a connection, as far as an observer of the socket can
tell. -/
inductive Event where
  /-- The call `conn.SetReadDeadline`. -/
  | setReadDeadline
  /-- A call of `ReadRequest`, with its result. -/
  | readRequest (result : Except GoError Request)
  /-- A call of `WriteToResponse` with this response, and the error it returned. -/
  | writeResponse (response : Response) (err : Option GoError)
  /-- The call `conn.Close()`. -/
  | close
  deriving DecidableEq, Repr

/-- A connection handed to `HandleConnection`. -/
structure Conn where
  /-- The inbound side, behind `bufio.NewReader(conn)`. -/
  reader : Reader
  /-- The outbound side. -/
  sink : Sink
  /-- The result of `conn.SetReadDeadline`. -/
  deadlineErr : Option GoError
  /-- What has been done to the connection, oldest first. -/
  log : List Event
  deriving DecidableEq, Repr

/-- The loop of `HandleConnection`; `k` counts the iterations and `clock k` is the value of
`time.Now()` while the response of iteration `k` is built. -/
def handleLoop (s : Server) (u : Util) (fs : FS) (clock : Nat → Nat) :
    Nat → Nat → Conn → Run Conn
  | 0, _, _ => .fuel
  | fuel + 1, k, conn =>
    -- set timeout for 5 seconds
    let conn := { conn with log := conn.log ++ [Event.setReadDeadline] }
    if conn.deadlineErr = some .EOF then .ret { conn with log := conn.log ++ [Event.close] }
    else
      -- read request
      match ReadRequest u conn.reader with
      | .panic p => .panic p
      | .fuel => .fuel
      | .ret (result, bufferR) =>
        let conn := { conn with reader := bufferR, log := conn.log ++ [Event.readRequest result] }
        match result with
        | .error .EOF =>
          -- 1. client has closed the connection
          .ret { conn with log := conn.log ++ [Event.close] }
        | .error .timeout =>
          -- 2. server is timeout
          .ret { conn with log := conn.log ++ [Event.close] }
        | .error _ =>
          -- 3. invalid/malformed request
          let response := HandleBadRequest u (clock k) ⟨[], 0, [], [], none, []⟩
          match WriteToResponse response fs conn.sink with
          | (err, w) =>
            .ret { conn with sink := w, log := conn.log ++ [Event.writeResponse response err, Event.close] }
        | .ok request =>
          -- handle valid request
          match (HandleGoodRequest s u fs (clock k) request).2 with
          | .panic p => .panic p
          | .fuel => .fuel
          | .ret response =>
            match WriteToResponse response fs conn.sink with
            | (err, w) =>
              handleLoop s u fs clock fuel (k + 1)
                { conn with sink := w, log := conn.log ++ [Event.writeResponse response err] }

/-- The method `HandleConnection` of server.go, run on a connection until it returns. -/
def HandleConnection (s : Server) (u : Util) (fs : FS) (clock : Nat → Nat) (conn : Conn) :
    Run Conn :=
  handleLoop s u fs clock (conn.reader.pending.length + 1) 0 conn

/-! ## A description of `path.Clean` on rooted paths, used to state and prove its properties -/

/-- The non-empty elements of a path: the pieces between slashes. -/
def elems (path : Str) : List Str := (path.splitOn 47).filter (fun e => e ≠ [])

/-- A path element that `path.Clean` keeps: not empty, free of slashes, neither `.` nor
`..`. -/
def RealElem (e : Str) : Prop := e ≠ [] ∧ 47 ∉ e ∧ e ≠ [46] ∧ e ≠ [46, 46]

/-- The rooted path with the given elements: `/` alone, or `/e1/e2/.../en`. -/
def render (segs : List Str) : Str :=
  if segs = [] then [47] else (segs.map (fun e => 47 :: e)).flatten

/-- What one element of the input does to the elements written so far, in a rooted path:
`.` nothing, `..` removes the last one (if any), every other element is added. -/
def segStep (segs : List Str) (e : Str) : List Str :=
  if e = [46] then segs else if e = [46, 46] then segs.dropLast else segs ++ [e]

/-! ## A concrete world for evaluating the code -/

/-- Upper-case form of an ASCII letter. -/
def upper (c : Nat) : Nat := if 97 ≤ c ∧ c ≤ 122 then c - 32 else c

/-- Lower-case form of an ASCII letter. -/
def lower (c : Nat) : Nat := if 65 ≤ c ∧ c ≤ 90 then c + 32 else c

/-- Title case with hyphens; `up` tells whether the next letter starts a word. -/
def titleCase : Bool → Str → Str
  | _, [] => []
  | up, c :: t => (if up then upper c else lower c) :: titleCase (decide (c = 45)) t

/-- Modelled from the spec: the helper `CanonicalHeaderKey`, whose definition is not in the
three files. The spec says that header names are "case-normalized to a canonical form, e.g.
title-case-with-hyphens". -/
def canonicalKey (s : Str) : Str := titleCase true s

/-- Modelled from the spec: the helper `MIMETypeByExtension`, whose definition is not in the
three files: a table from the extension of a file to a media type, possibly with a parameter
suffix. Two entries stand for the table. -/
def mimeSample (ext : Str) : Str :=
  if ext = bytes ".html" then bytes "text/html; charset=utf-8"
  else if ext = bytes ".png" then bytes "image/png"
  else []

/-- Modelled from the spec: the helper `FormatTime`, whose definition is not in the three
files. The spec fixes no format; the sample writes the instant as a decimal number of
seconds. -/
def formatSample (t : Nat) : Str := Itoa t ++ bytes " s"

/-- A sample of the helpers, for evaluating the code on concrete inputs. -/
def sampleUtil : Util := ⟨canonicalKey, formatSample, mimeSample⟩

/-- A sample file system: the document root `/srv/a` holds `index.html` (12 bytes), the
directory `docs` without an index file, the directory `sub` with `sub/index.html`, and the
directory `secret`, whose contents the server may not look at (error 13, EACCES). A path
below the regular file `index.html` gives error 20 (ENOTDIR). -/
def sampleFS : FS where
  stat := fun path =>
    if path = bytes "/srv/a/index.html" then .ok ⟨false, 12, 1000⟩
    else if path = bytes "/srv/a" then .ok ⟨true, 4096, 900⟩
    else if path = bytes "/srv/a/docs" then .ok ⟨true, 4096, 900⟩
    else if path = bytes "/srv/a/sub" then .ok ⟨true, 4096, 900⟩
    else if path = bytes "/srv/a/sub/index.html" then .ok ⟨false, 3, 1001⟩
    else if path = bytes "/srv/a/secret" then .ok ⟨true, 4096, 900⟩
    else if path = bytes "/srv/a/secret/index.html" then .error (.io 13)
    else if path = bytes "/srv/a/index.html/x" then .error (.io 20)
    else .error .notExist
  readFile := fun path =>
    if path = bytes "/srv/a/index.html" then .ok (bytes "<html></html")
    else if path = bytes "/srv/a/sub/index.html" then .ok (bytes "sub")
    else .error .notExist

/-- A sample server: the host `a.com` is served from `/srv/a`. -/
def sampleServer : Server := ⟨bytes ":8080", [(bytes "a.com", bytes "/srv/a")]⟩

/-- A sink that never fails and has received nothing yet. -/
def freshSink : Sink := ⟨[], none, .io 32⟩

/-- A connection on which the peer sends `chunks` and then closes. -/
def connOf (chunks : List Str) : Conn := ⟨⟨[], chunks, .EOF⟩, freshSink, none, []⟩

/-- A short form of an event: what was read or written, without the full values. -/
inductive Step where
  /-- The read deadline was armed. -/
  | armed
  /-- A request was read: its target and its `Close` flag. -/
  | read (url : Str) (close : Bool)
  /-- Reading a request failed. -/
  | readFailed (e : GoError)
  /-- A response was written: its status code and its `Connection` header. -/
  | wrote (code : Int) (connection : Option Str)
  /-- The connection was closed. -/
  | closed
  deriving DecidableEq, Repr

/-- The short form of an event. -/
def Event.step : Event → Step
  | .setReadDeadline => .armed
  | .readRequest (.ok request) => .read request.URL request.Close
  | .readRequest (.error e) => .readFailed e
  | .writeResponse response _ => .wrote response.StatusCode (response.Headers.get (bytes "Connection"))
  | .close => .closed

/-- The result of a run, seen through `f`. -/
def Run.map {α β : Type} (f : α → β) (x : Run α) : Run β := x.bind (fun a => .ret (f a))

/-- The error that an event carries: the error of a failed read, or the error that
`WriteToResponse` returned. -/
def Event.failure : Event → Option GoError
  | .readRequest (.error e) => some e
  | .writeResponse _ err => err
  | _ => none

/-- A connection on which the peer sends `chunks` and then closes, and whose outbound side
accepts `n` writes and fails from then on with error 32 (EPIPE). -/
def failingConn (chunks : List Str) (n : Nat) : Conn :=
  ⟨⟨[], chunks, .EOF⟩, ⟨[], some n, .io 32⟩, none, []⟩

/-- The sample file system with the index file of the root made unreadable: `os.Stat` still
succeeds on `/srv/a/index.html`, `os.Open` fails with error 13 (EACCES). -/
def lockedFS : FS where
  stat := sampleFS.stat
  readFile := fun path =>
    if path = bytes "/srv/a/index.html" then .error (.io 13) else sampleFS.readFile path

/-- The number that a string of decimal digits denotes. -/
def decimalValue (s : Str) : Nat := s.foldl (fun acc c => 10 * acc + (c - 48)) 0

/-! ## The models of the library functions on sample inputs -/

/-- The bytes of a request line. -/
theorem bytes_sample :
    bytes "GET / HTTP/1.1\r\n" = [71,69,84,32,47,32,72,84,84,80,47,49,46,49,13,10] := by decide

/-- `strings.TrimSpace` on ASCII white space, on U+2000 and U+00A0, and on bytes that are not
valid UTF-8. -/
theorem TrimSpace_samples :
    TrimSpace (bytes " \t GET\r ") = bytes "GET"
    ∧ TrimSpace [0xE2, 0x80, 0x80, 65, 32, 66, 0xC2, 0xA0] = bytes "A B"
    ∧ TrimSpace [0x80, 0x80] = [0x80, 0x80] := by decide

/-- `strings.SplitN` with a limit of three pieces. -/
theorem SplitN_samples :
    SplitN (bytes "GET / HTTP/1.1 ") 32 3 = [bytes "GET", bytes "/", bytes "HTTP/1.1 "]
    ∧ SplitN (bytes "GET  HTTP/1.1") 32 3 = [bytes "GET", [], bytes "HTTP/1.1"]
    ∧ SplitN (bytes "aaa") 32 3 = [bytes "aaa"] := by decide

/-- Decimal numerals. -/
theorem Itoa_samples :
    Itoa 0 = bytes "0" ∧ Itoa 1234 = bytes "1234" ∧ fmtInt (-40) = bytes "-40" := by decide

/-- `path.Clean` on rooted and unrooted paths. -/
theorem Clean_samples :
    Clean (bytes "/a/../../b/./c//d/") = bytes "/b/c/d"
    ∧ Clean (bytes "/../..") = bytes "/" ∧ Clean (bytes "a/../..") = bytes ".."
    ∧ Clean (bytes "/a/b/../index.html") = bytes "/a/index.html"
    ∧ Clean [] = bytes "." ∧ Clean (bytes "abc/..") = bytes "."
    ∧ Clean (bytes "../../a/..") = bytes "../.." ∧ Clean (bytes "/..a/...") = bytes "/..a/..." := by
  decide

/-- `filepath.Ext`, `sort.Strings`, map assignment and `strings.HasSuffix`. -/
theorem library_samples :
    Ext (bytes "/srv/a.b/index.html") = bytes ".html" ∧ Ext (bytes "/srv/a.b/index") = []
    ∧ sortStrings [bytes "Date", bytes "Connection", bytes "Content-Type", bytes "Content-Length"]
      = [bytes "Connection", bytes "Content-Length", bytes "Content-Type", bytes "Date"]
    ∧ (GoMap.set (GoMap.set (GoMap.set [] [1] [2]) [3] [4]) [1] [5]) = [([1], [5]), ([3], [4])]
    ∧ HasSuffix (bytes "ab\r\n") CRLF = true ∧ HasSuffix (bytes "\n") CRLF = false := by
  decide

/-- The sample scenario 1 of the specification, end to end: one request for `/` on a
connection, answered with the index file. -/
theorem scenario_index_file :
    (HandleConnection sampleServer sampleUtil sampleFS (fun k => k)
        (connOf [bytes "GET / HTTP/1.1\r\nhost: a.com\r\n\r\n"])).map (fun conn => conn.sink.written)
      = .ret (bytes "HTTP/1.1 200 OK\r\nContent-Length: 12\r\nContent-Type: text/html\r\nDate: 0 s\r\nLast-Modified: 1000 s\r\n\r\n<html></html") := by
  decide

/-! ## Lemmas on outcomes and splitting -/

@[simp] theorem Run.ret_bind {α β : Type} (a : α) (f : α → Run β) : (Run.ret a >>= f) = f a := rfl

@[simp] theorem Run.panic_bind {α β : Type} (p : Panic) (f : α → Run β) :
    ((Run.panic p : Run α) >>= f) = Run.panic p := rfl

@[simp] theorem Run.fuel_bind {α β : Type} (f : α → Run β) :
    ((Run.fuel : Run α) >>= f) = Run.fuel := rfl

@[simp] theorem Run.pure_eq {α : Type} (a : α) : (pure a : Run α) = Run.ret a := rfl

theorem cut_append (sep : Nat) (a t : Str) (h : sep ∉ a) : cut sep (a ++ sep :: t) = some (a, t) := by
  induction a with
  | nil => simp [cut]
  | cons c a ih =>
    have hc : c ≠ sep := fun e => h (by simp [e])
    have ha : sep ∉ a := fun e => h (by simp [e])
    simp [cut, hc, ih ha]

theorem cut_some {sep : Nat} {s a b : Str} (h : cut sep s = some (a, b)) :
    s = a ++ sep :: b ∧ sep ∉ a := by
  induction s generalizing a with
  | nil => simp [cut] at h
  | cons c t ih =>
    unfold cut at h
    by_cases hc : c = sep
    · simp only [hc, if_true, Option.some.injEq, Prod.mk.injEq] at h
      obtain ⟨rfl, rfl⟩ := h
      simp [hc]
    · simp only [hc, if_false] at h
      cases hcut : cut sep t with
      | none => simp [hcut] at h
      | some p =>
        obtain ⟨a1, b1⟩ := p
        simp only [hcut, Option.some.injEq, Prod.mk.injEq] at h
        obtain ⟨rfl, rfl⟩ := h
        obtain ⟨h1, h2⟩ := ih hcut
        refine ⟨by rw [h1]; simp, ?_⟩
        simp only [List.mem_cons, not_or]
        exact ⟨fun e => hc e.symm, h2⟩

theorem cut_none {sep : Nat} {s : Str} (h : cut sep s = none) : sep ∉ s := by
  induction s with
  | nil => simp
  | cons c t ih =>
    unfold cut at h
    by_cases hc : c = sep
    · simp [hc] at h
    · simp only [hc, if_false] at h
      cases hcut : cut sep t with
      | none =>
        simp only [List.mem_cons, not_or]
        exact ⟨fun e => hc e.symm, ih hcut⟩
      | some p => obtain ⟨a1, b1⟩ := p; simp [hcut] at h

/-- The three pieces of a line with at least two separators. -/
theorem SplitN_three (sep : Nat) (a b c : Str) (ha : sep ∉ a) (hb : sep ∉ b) :
    SplitN (a ++ sep :: (b ++ sep :: c)) sep 3 = [a, b, c] := by
  simp only [SplitN, cut_append sep a _ ha, cut_append sep b _ hb]

/-- A line that splits into three pieces has at least two separators. -/
theorem SplitN_three_count {sep : Nat} {s a b c : Str} (h : SplitN s sep 3 = [a, b, c]) :
    2 ≤ s.count sep := by
  simp only [SplitN] at h
  cases h1 : cut sep s with
  | none => simp [h1] at h
  | some p =>
    obtain ⟨a1, t⟩ := p
    simp only [h1] at h
    cases h2 : cut sep t with
    | none => simp [h2] at h
    | some q =>
      obtain ⟨b1, c1⟩ := q
      obtain ⟨e1, _⟩ := cut_some h1
      obtain ⟨e2, _⟩ := cut_some h2
      rw [e1, e2]
      simp only [List.count_append, List.count_cons_self]
      omega

/-- `ReadRequest` on a reader whose first line is `line`, up to the checks of the request
line. -/
theorem ReadRequest_of_line (u : Util) (r r1 : Reader) (line : Str)
    (h : ReadLine r = .ret ((line, none), r1)) :
    ReadRequest u r =
      (match ParseInitialRequestLine line with
      | .error e => .ret (.error e, r1)
      | .ok initialRequest => do
        let method ← idx initialRequest 0
        if ValidateMethodField method = false then return (.error (.invalidMethod method), r1)
        else
          let url ← idx initialRequest 1
          if (← ValidateURL url) = false then return (.error (.invalidURL url), r1)
          else
            let proto ← idx initialRequest 2
            if ValidateProto proto = false then return (.error (.invalidProto proto), r1)
            else
              readHeaders u (r1.pending.length + 1) r1
                ⟨method, url, RESPONSE_PROTO, [], [], false⟩) := by
  simp only [ReadRequest, h, Run.ret_bind]
  cases ParseInitialRequestLine line <;> rfl

/-! ## Connection handling after `Connection: close` -/

/-- C1, evaluation at the failing input. The peer sends a request with `Connection: close`
followed by a second request. `HandleConnection` answers the first request with
`Connection: close` and then, instead of closing, arms the deadline again, reads the second
request and answers it as well; it closes only when the peer has gone. -/
theorem close_request_keeps_connection_open :
    (HandleConnection sampleServer sampleUtil sampleFS (fun k => k)
        (connOf [bytes "GET / HTTP/1.1\r\nHost: a.com\r\nConnection: close\r\n\r\nGET /sub/ HTTP/1.1\r\nHost: a.com\r\n\r\n"])).map
      (fun conn => conn.log.map Event.step)
    = .ret [.armed, .read (bytes "/") true, .wrote 200 (some (bytes "close")),
        .armed, .read (bytes "/sub/") false, .wrote 200 none,
        .armed, .readFailed .EOF, .closed] := by
  decide

/-! ## The request line -/

/-- C2, evaluation at the failing input. On the empty target `ValidateURL` panics with a
slice expression out of range, and so does `ReadRequest` on the request line
"GET  HTTP/1.1", whose target is empty; no invalid-target error is returned. -/
theorem empty_target_panics :
    ValidateURL [] = .panic .sliceBounds
    ∧ ParseInitialRequestLine (bytes "GET  HTTP/1.1") = .ok [bytes "GET", [], bytes "HTTP/1.1"]
    ∧ ∀ u : Util, ReadRequest u ⟨[], [bytes "GET  HTTP/1.1\r\nHost: a.com\r\n\r\n"], .EOF⟩
        = .panic .sliceBounds := by
  refine ⟨by decide, by decide, fun u => ?_⟩
  rfl

/-! ## File-system errors in `HandleGoodRequest` -/

/-- C3, evaluation at the failing inputs. When `os.Stat` fails with an error other than
not-found, `HandleGoodRequest` calls a method of the missing file information and panics:
at the first stage for a path below a regular file (ENOTDIR), at the second stage for the
index file of a directory that may not be searched (EACCES). -/
theorem stat_error_panics :
    (HandleGoodRequest sampleServer sampleUtil sampleFS 0
        ⟨bytes "GET", bytes "/index.html/x", bytes "HTTP/1.1", [(bytes "Host", bytes "a.com")],
          bytes "a.com", false⟩)
      = ([bytes "/srv/a/index.html/x"], .panic .nilDereference)
    ∧ (HandleGoodRequest sampleServer sampleUtil sampleFS 0
        ⟨bytes "GET", bytes "/secret", bytes "HTTP/1.1", [(bytes "Host", bytes "a.com")],
          bytes "a.com", false⟩)
      = ([bytes "/srv/a/secret", bytes "/srv/a/secret/index.html"], .panic .nilDereference) := by
  decide

/-! ## Header lines -/

/-- C4, evaluation at the failing input. The line " : value" has a colon and a key that is
empty after trimming, and `ParseHeaderLine` returns no error for it: the key is compared
with the empty string before it is trimmed. -/
theorem blank_key_accepted (u : Util) :
    TrimSpace (bytes " ") = []
    ∧ ParseHeaderLine u (bytes " : value") = .ok [u.CanonicalHeaderKey [], bytes "value"] := by
  refine ⟨by decide, ?_⟩
  rfl

/-! ## The number of tokens of the request line -/

/-- C5, counterexample. The line "GET / HTTP/1.1 " with a trailing space has three spaces,
that is four space-separated tokens, and `ReadRequest` returns a Request for it. -/
theorem trailing_space_accepted :
    (bytes "GET / HTTP/1.1 ").count 32 + 1 = 4
    ∧ ReadRequest sampleUtil ⟨[], [bytes "GET / HTTP/1.1 \r\nHost: a.com\r\n\r\n"], .EOF⟩
      = .ret (.ok ⟨bytes "GET", bytes "/", bytes "HTTP/1.1", [(bytes "Host", bytes "a.com")],
          bytes "a.com", false⟩, ⟨[], [], .EOF⟩) := by
  decide

/-- C5, amended. `ReadRequest` returns an error and no Request for every request line with
fewer than three space-separated tokens (fewer than two spaces), and for every line
`a b c` (with `a` and `b` free of spaces, `c` the text after the second space, spaces
included) whose target `b` is not empty after trimming and whose `c` is not "HTTP/1.1" after
trimming; this covers the lines with an extra token after the version. -/
theorem request_line_token_count (u : Util) (r r1 : Reader) (line : Str)
    (h : ReadLine r = .ret ((line, none), r1)) :
    (line.count 32 < 2 → ∃ e, ReadRequest u r = .ret (.error e, r1))
    ∧ (∀ a b c : Str, line = a ++ 32 :: (b ++ 32 :: c) → 32 ∉ a → 32 ∉ b →
        TrimSpace b ≠ [] → TrimSpace c ≠ bytes "HTTP/1.1" →
        ∃ e, ReadRequest u r = .ret (.error e, r1)) := by
  rw [ReadRequest_of_line u r r1 line h]
  constructor
  · intro hcount
    have hp : ∃ e, ParseInitialRequestLine line = .error e := by
      unfold ParseInitialRequestLine
      split
      · rename_i a b c hs
        have := SplitN_three_count hs
        omega
      · exact ⟨_, rfl⟩
    obtain ⟨e, he⟩ := hp
    rw [he]
    exact ⟨e, rfl⟩
  · intro a b c hline ha hb hb1 hc1
    have hs : SplitN line 32 3 = [a, b, c] := by
      rw [hline]
      exact SplitN_three 32 a b c ha hb
    have hp : ParseInitialRequestLine line = .ok [TrimSpace a, TrimSpace b, TrimSpace c] := by
      unfold ParseInitialRequestLine
      rw [hs]
    rw [hp]
    simp only [idx, List.getElem?_cons_zero, List.getElem?_cons_succ, Run.ret_bind]
    by_cases hm : ValidateMethodField (TrimSpace a) = false
    · exact ⟨.invalidMethod (TrimSpace a), by simp [hm]⟩
    · have hu : ValidateURL (TrimSpace b) = .ret ((TrimSpace b).take 1 == bytes "/") := by
        unfold ValidateURL
        have : ¬ (TrimSpace b).length < 1 := by
          cases hb2 : TrimSpace b with
          | nil => exact absurd hb2 hb1
          | cons x xs => simp
        simp [this]
      simp only [hm, hu, Run.ret_bind]
      by_cases hv : ((TrimSpace b).take 1 == bytes "/") = false
      · exact ⟨.invalidURL (TrimSpace b), by simp [hv]⟩
      · have hp : ValidateProto (TrimSpace c) = false := by
          unfold ValidateProto RESPONSE_PROTO
          simpa using hc1
        exact ⟨.invalidProto (TrimSpace c), by simp [hv, hp]⟩

/-- C5, the amended statement at concrete inputs: the one-token line "GET" and the
five-token line "GET / HTTP/1.1 x y". -/
theorem request_line_token_count_witness :
    (∃ e, ReadRequest sampleUtil ⟨[], [bytes "GET\r\n\r\n"], .EOF⟩
        = .ret (.error e, ⟨bytes "\r\n", [], .EOF⟩))
    ∧ (∃ e, ReadRequest sampleUtil ⟨[], [bytes "GET / HTTP/1.1 x y\r\n\r\n"], .EOF⟩
        = .ret (.error e, ⟨bytes "\r\n", [], .EOF⟩)) :=
  ⟨(request_line_token_count sampleUtil ⟨[], [bytes "GET\r\n\r\n"], .EOF⟩ ⟨bytes "\r\n", [], .EOF⟩
      (bytes "GET") (by decide)).1 (by decide),
   (request_line_token_count sampleUtil ⟨[], [bytes "GET / HTTP/1.1 x y\r\n\r\n"], .EOF⟩
      ⟨bytes "\r\n", [], .EOF⟩ (bytes "GET / HTTP/1.1 x y") (by decide)).2
      (bytes "GET") (bytes "/") (bytes "HTTP/1.1 x y") (by decide) (by decide) (by decide)
      (by decide) (by decide)⟩

/-! ## Host and Close against the header mapping -/

theorem GoMap.get_set (m : GoMap) (k v key : Str) :
    (GoMap.set m k v).get key = if k = key then some v else m.get key := by
  induction m with
  | nil => simp [GoMap.set, GoMap.get]
  | cons p m ih =>
    obtain ⟨k1, v1⟩ := p
    by_cases h1 : k1 = k
    · subst h1
      by_cases h2 : k1 = key <;> simp [GoMap.set, GoMap.get, h2]
    · by_cases h2 : k1 = key
      · have h3 : ¬ k = key := fun e => h1 (h2.trans e.symm)
        have h4 : ¬ key = k := fun e => h3 e.symm
        subst h2
        simp [GoMap.set, GoMap.get, h3, h4]
      · simp [GoMap.set, GoMap.get, h1, h2, ih]

theorem GoMap.get_append (a b : GoMap) (key : Str) :
    GoMap.get (a ++ b) key = (match GoMap.get a key with
      | some v => some v
      | none => GoMap.get b key) := by
  induction a with
  | nil => simp [GoMap.get]
  | cons p a ih =>
    obtain ⟨k1, v1⟩ := p
    by_cases h : k1 = key <;> simp [GoMap.get, h, ih]

theorem ParseHeaderLine_ok {u : Util} {line : Str} {header : List Str}
    (h : ParseHeaderLine u line = .ok header) : ∃ k v, header = [k, v] := by
  unfold ParseHeaderLine at h
  split at h
  · split at h
    · cases h
    · injection h with h
      exact ⟨_, _, h.symm⟩
  · cases h

/-- The request that the header loop returns is the request it started from after the
header steps of the header lines, in order. -/
theorem readHeaders_fold (u : Util) (fuel : Nat) (r : Reader) (req req1 : Request) (r1 : Reader)
    (h : readHeaders u fuel r req = .ret (.ok req1, r1)) :
    req1 = (headerPairs u fuel r).foldl (fun q p => headerStep q p.1 p.2) req := by
  induction fuel generalizing r req with
  | zero => simp [readHeaders] at h
  | succ fuel ih =>
    unfold readHeaders at h
    unfold headerPairs
    cases hRL : ReadLine r with
    | panic p => simp [hRL] at h
    | fuel => simp [hRL] at h
    | ret x =>
      obtain ⟨⟨line, err⟩, r2⟩ := x
      simp only [hRL, Run.ret_bind] at h
      cases err with
      | some e => simp at h
      | none =>
        simp only at h
        by_cases hl : line = []
        · simp only [hl, if_true, Run.pure_eq, Run.ret.injEq, Prod.mk.injEq, Except.ok.injEq] at h
          simp [hl, h.1]
        · simp only [hl, if_false] at h
          cases hP : ParseHeaderLine u line with
          | error e => simp [hP] at h
          | ok header =>
            obtain ⟨k, v, rfl⟩ := ParseHeaderLine_ok hP
            simp only [hP, idx, List.getElem?_cons_zero, List.getElem?_cons_succ,
              Run.ret_bind] at h
            simp only [hl, if_false, hP, List.foldl_cons]
            exact ih r2 _ h

theorem headerStep_Headers (req : Request) (k v : Str) :
    (headerStep req k v).Headers = req.Headers.set k v := by
  unfold headerStep
  split_ifs <;> rfl

theorem headerStep_Host (req : Request) (k v : Str) :
    (headerStep req k v).Host = if k = bytes "Host" then v else req.Host := by
  unfold headerStep
  split_ifs <;> rfl

theorem headerStep_Close (req : Request) (k v : Str) :
    (headerStep req k v).Close = true
      ↔ req.Close = true ∨ (k = bytes "Connection" ∧ v = bytes "close") := by
  unfold headerStep
  split_ifs <;> simp_all

theorem headerStep_line (req : Request) (k v : Str) :
    (headerStep req k v).Method = req.Method ∧ (headerStep req k v).URL = req.URL
      ∧ (headerStep req k v).Proto = req.Proto := by
  unfold headerStep
  split_ifs <;> exact ⟨rfl, rfl, rfl⟩

/-- What the header steps of a list of header lines do to a request. -/
theorem headerStep_fold (hs : List (Str × Str)) (req : Request) (key : Str) :
    ((hs.foldl (fun q p => headerStep q p.1 p.2) req).Headers.get key
        = (match GoMap.get hs.reverse key with
          | some v => some v
          | none => req.Headers.get key))
    ∧ ((hs.foldl (fun q p => headerStep q p.1 p.2) req).Host
        = (match GoMap.get hs.reverse (bytes "Host") with
          | some v => v
          | none => req.Host))
    ∧ ((hs.foldl (fun q p => headerStep q p.1 p.2) req).Close = true
        ↔ req.Close = true ∨ (bytes "Connection", bytes "close") ∈ hs)
    ∧ (hs.foldl (fun q p => headerStep q p.1 p.2) req).Method = req.Method
    ∧ (hs.foldl (fun q p => headerStep q p.1 p.2) req).URL = req.URL
    ∧ (hs.foldl (fun q p => headerStep q p.1 p.2) req).Proto = req.Proto := by
  induction hs generalizing req with
  | nil => simp [GoMap.get]
  | cons p hs ih =>
    obtain ⟨k, v⟩ := p
    obtain ⟨h1, h2, h3, h4, h5, h6⟩ := ih (headerStep req k v)
    obtain ⟨l1, l2, l3⟩ := headerStep_line req k v
    simp only [List.foldl_cons, List.reverse_cons, GoMap.get_append]
    refine ⟨?_, ?_, ?_, h4.trans l1, h5.trans l2, h6.trans l3⟩
    · rw [h1]
      cases GoMap.get hs.reverse key with
      | some x => rfl
      | none =>
        simp only [headerStep_Headers, GoMap.get_set, GoMap.get]
        by_cases hkey : k = key <;> simp [hkey]
    · rw [h2]
      cases GoMap.get hs.reverse (bytes "Host") with
      | some x => rfl
      | none =>
        simp only [headerStep_Host, GoMap.get]
        by_cases hk : k = bytes "Host" <;> simp [hk]
    · rw [h3, headerStep_Close]
      simp only [List.mem_cons, Prod.mk.injEq]
      constructor
      · rintro ((h | ⟨h, h'⟩) | h)
        · exact Or.inl h
        · exact Or.inr (Or.inl ⟨h.symm, h'.symm⟩)
        · exact Or.inr (Or.inr h)
      · rintro (h | ⟨h, h'⟩ | h)
        · exact Or.inl (Or.inl h)
        · exact Or.inl (Or.inr ⟨h.symm, h'.symm⟩)
        · exact Or.inr h

/-- A request returned by `ReadRequest` is the empty request with the request line filled
in, after the header steps of the header lines. -/
theorem ReadRequest_ok (u : Util) (r r1 : Reader) (request : Request)
    (h : ReadRequest u r = .ret (.ok request, r1)) :
    ∃ method url : Str, request = (headerLines u r).foldl (fun q p => headerStep q p.1 p.2)
      ⟨method, url, RESPONSE_PROTO, [], [], false⟩ := by
  cases hRL : ReadLine r with
  | panic p => simp [ReadRequest, hRL] at h
  | fuel => simp [ReadRequest, hRL] at h
  | ret x =>
    obtain ⟨⟨line, err⟩, r2⟩ := x
    cases err with
    | some e => simp [ReadRequest, hRL] at h
    | none =>
      rw [ReadRequest_of_line u r r2 line hRL] at h
      simp only [headerLines, hRL]
      cases hP : ParseInitialRequestLine line with
      | error e => simp [hP] at h
      | ok initialRequest =>
        simp only [hP] at h
        cases h0 : idx initialRequest 0 with
        | panic p => simp [h0] at h
        | fuel => simp [h0] at h
        | ret method =>
          simp only [h0, Run.ret_bind] at h
          by_cases hm : ValidateMethodField method = false
          · simp [hm] at h
          · simp only [hm, if_false] at h
            cases h1 : idx initialRequest 1 with
            | panic p => simp [h1] at h
            | fuel => simp [h1] at h
            | ret url =>
              simp only [h1, Run.ret_bind] at h
              cases hv : ValidateURL url with
              | panic p => simp [hv] at h
              | fuel => simp [hv] at h
              | ret ok =>
                simp only [hv, Run.ret_bind] at h
                by_cases hok : ok = false
                · simp [hok] at h
                · simp only [hok, if_false] at h
                  cases h2 : idx initialRequest 2 with
                  | panic p => simp [h2] at h
                  | fuel => simp [h2] at h
                  | ret proto =>
                    simp only [h2, Run.ret_bind] at h
                    by_cases hp : ValidateProto proto = false
                    · simp [hp] at h
                    · simp only [hp, if_false] at h
                      exact ⟨method, url, readHeaders_fold u _ r2 _ request r1 h⟩

/-- C6, counterexample. For a request with the header lines `Connection: close` and then
`Connection: keep-alive`, `ReadRequest` returns a Request whose `Close` flag is true although
`Headers["Connection"]` is "keep-alive", not "close". -/
theorem close_flag_disagrees_with_map :
    ReadRequest sampleUtil
        ⟨[], [bytes "GET / HTTP/1.1\r\nConnection: close\r\nConnection: keep-alive\r\n\r\n"], .EOF⟩
      = .ret (.ok ⟨bytes "GET", bytes "/", bytes "HTTP/1.1",
          [(bytes "Connection", bytes "keep-alive")], [], true⟩, ⟨[], [], .EOF⟩)
    ∧ GoMap.getD [(bytes "Connection", bytes "keep-alive")] (bytes "Connection") ≠ bytes "close" := by
  decide

/-- C6, amended. For every Request returned by `ReadRequest`: the header mapping holds, for
each key, the value of the last header line with that key; `Host` equals `Headers["Host"]`
(empty when no Host header was sent); `Headers["Connection"]` being "close" implies `Close`;
and `Close` is true if and only if some header line of the request is `Connection` with the
value "close". -/
theorem host_and_close_fields (u : Util) (r r1 : Reader) (request : Request)
    (h : ReadRequest u r = .ret (.ok request, r1)) :
    (∀ key, request.Headers.get key = GoMap.get (headerLines u r).reverse key)
    ∧ request.Host = request.Headers.getD (bytes "Host")
    ∧ (request.Headers.getD (bytes "Connection") = bytes "close" → request.Close = true)
    ∧ (request.Close = true ↔ (bytes "Connection", bytes "close") ∈ headerLines u r) := by
  obtain ⟨method, url, hreq⟩ := ReadRequest_ok u r r1 request h
  have hget : ∀ key, request.Headers.get key = GoMap.get (headerLines u r).reverse key := by
    intro key
    have := (headerStep_fold (headerLines u r) ⟨method, url, RESPONSE_PROTO, [], [], false⟩ key).1
    rw [← hreq] at this
    rw [this]
    cases GoMap.get (headerLines u r).reverse key <;> simp [GoMap.get]
  have hclose : request.Close = true ↔ (bytes "Connection", bytes "close") ∈ headerLines u r := by
    have := (headerStep_fold (headerLines u r) ⟨method, url, RESPONSE_PROTO, [], [], false⟩ []).2.2.1
    rw [← hreq] at this
    simpa using this
  refine ⟨hget, ?_, ?_, hclose⟩
  · have := (headerStep_fold (headerLines u r) ⟨method, url, RESPONSE_PROTO, [], [], false⟩ []).2.1
    rw [← hreq] at this
    rw [this, GoMap.getD, hget]
    cases GoMap.get (headerLines u r).reverse (bytes "Host") <;> simp
  · intro hc
    rw [hclose]
    rw [GoMap.getD, hget] at hc
    cases hg : GoMap.get (headerLines u r).reverse (bytes "Connection") with
    | none =>
      rw [hg] at hc
      exact absurd hc (by decide)
    | some v =>
      rw [hg] at hc
      simp only [Option.getD_some] at hc
      subst hc
      have hmem : ∀ (m : GoMap) (k v : Str), m.get k = some v → (k, v) ∈ m := by
        intro m k v
        induction m with
        | nil => simp [GoMap.get]
        | cons p m ih =>
          obtain ⟨k1, v1⟩ := p
          by_cases hk : k1 = k
          · simp only [GoMap.get, hk, if_true, Option.some.injEq]
            intro e
            simp [e]
          · simp only [GoMap.get, hk, if_false]
            intro e
            exact List.mem_cons_of_mem _ (ih e)
      exact List.mem_reverse.mp (hmem _ _ _ hg)

/-- C6, the amended statement at a concrete input: two Host lines and two Connection lines,
the first of which says "close". -/
theorem host_and_close_fields_witness :
    (∀ key, GoMap.get [(bytes "Host", bytes "b.com"), (bytes "Connection", bytes "keep-alive")] key
        = GoMap.get (headerLines sampleUtil
            ⟨[], [bytes "GET / HTTP/1.1\r\nHost: a.com\r\nConnection: close\r\nhost: b.com\r\nConnection: keep-alive\r\n\r\n"], .EOF⟩).reverse key)
    ∧ bytes "b.com" = GoMap.getD [(bytes "Host", bytes "b.com"), (bytes "Connection", bytes "keep-alive")] (bytes "Host")
    ∧ (GoMap.getD [(bytes "Host", bytes "b.com"), (bytes "Connection", bytes "keep-alive")]
        (bytes "Connection") = bytes "close" → true = true)
    ∧ (true = true ↔ (bytes "Connection", bytes "close") ∈ headerLines sampleUtil
        ⟨[], [bytes "GET / HTTP/1.1\r\nHost: a.com\r\nConnection: close\r\nhost: b.com\r\nConnection: keep-alive\r\n\r\n"], .EOF⟩) :=
  host_and_close_fields sampleUtil
    ⟨[], [bytes "GET / HTTP/1.1\r\nHost: a.com\r\nConnection: close\r\nhost: b.com\r\nConnection: keep-alive\r\n\r\n"], .EOF⟩
    ⟨[], [], .EOF⟩
    ⟨bytes "GET", bytes "/", bytes "HTTP/1.1",
      [(bytes "Host", bytes "b.com"), (bytes "Connection", bytes "keep-alive")], bytes "b.com", true⟩
    (by decide)

/-! ## The line reader -/

theorem cutAfter_none {d : Nat} {s : Str} (h : d ∉ s) : cutAfter d s = none := by
  induction s with
  | nil => rfl
  | cons c t ih =>
    have hc : c ≠ d := fun e => h (by simp [e])
    have ht : d ∉ t := fun e => h (by simp [e])
    simp [cutAfter, hc, ih ht]

theorem cutAfter_append (d : Nat) (a t : Str) (h : d ∉ a) :
    cutAfter d (a ++ d :: t) = some (a ++ [d], t) := by
  induction a with
  | nil => simp [cutAfter]
  | cons c a ih =>
    have hc : c ≠ d := fun e => h (by simp [e])
    have ha : d ∉ a := fun e => h (by simp [e])
    simp [cutAfter, hc, ih ha]

/-- A string either lacks the byte `d` or splits at its first occurrence. -/
theorem first_occurrence (d : Nat) (s : Str) :
    d ∉ s ∨ ∃ a b, s = a ++ d :: b ∧ d ∉ a := by
  induction s with
  | nil => exact Or.inl (by simp)
  | cons c t ih =>
    by_cases hc : c = d
    · exact Or.inr ⟨[], t, by simp [hc], by simp⟩
    · rcases ih with h | ⟨a, b, h1, h2⟩
      · exact Or.inl (by simp only [List.mem_cons, not_or]; exact ⟨fun e => hc e.symm, h⟩)
      · refine Or.inr ⟨c :: a, b, by simp [h1], ?_⟩
        simp only [List.mem_cons, not_or]
        exact ⟨fun e => hc e.symm, h2⟩

/-- The first occurrence of a byte in a string is unique. -/
theorem first_occurrence_unique (d : Nat) (x y p q : Str) (hx : d ∉ x) (hy : d ∉ y)
    (e : x ++ d :: p = y ++ d :: q) : x = y ∧ p = q := by
  induction x generalizing y with
  | nil =>
    cases y with
    | nil => simpa using e
    | cons y0 y =>
      simp only [List.nil_append, List.cons_append, List.cons.injEq] at e
      exact absurd (by simp [e.1]) hy
  | cons x0 x ihx =>
    cases y with
    | nil =>
      simp only [List.nil_append, List.cons_append, List.cons.injEq] at e
      exact absurd (by simp [e.1]) hx
    | cons y0 y =>
      simp only [List.cons_append, List.cons.injEq] at e
      have hx1 : d ∉ x := fun m => hx (by simp [m])
      have hy1 : d ∉ y := fun m => hy (by simp [m])
      obtain ⟨e1, e2⟩ := ihx y hx1 hy1 e.2
      exact ⟨by rw [e.1, e1], e2⟩

/-- `ReadString` when the delimiter is pending: the result depends on the pending bytes only,
not on how they are cut into chunks, unless the reads stall (one of the coming reads
delivers nothing) and the call gives up with `io.ErrNoProgress`. -/
theorem readStringFrom_found (d : Nat) (err : GoError) (chunks : List Str) (tries : Nat)
    (buf a b : Str) (h : buf ++ chunks.flatten = a ++ d :: b) (ha : d ∉ a) :
    (∃ r1, readStringFrom d err tries buf chunks = ((a ++ [d], none), r1) ∧ r1.pending = b
      ∧ r1.err = err ∧ ∀ c ∈ r1.chunks, c ∈ chunks)
    ∨ (∃ s r1, readStringFrom d err tries buf chunks = ((s, some .noProgress), r1)
      ∧ r1.err = err ∧ r1.pending.length ≤ (buf ++ chunks.flatten).length ∧ [] ∈ chunks) := by
  induction chunks generalizing tries buf with
  | nil =>
    simp only [List.flatten_nil, List.append_nil] at h
    simp only [readStringFrom, h, cutAfter_append d a b ha]
    exact Or.inl ⟨_, rfl, by simp [Reader.pending], rfl, by simp⟩
  | cons c cs ih =>
    rcases first_occurrence d buf with hb | ⟨a1, b1, hb1, hb2⟩
    · simp only [readStringFrom, cutAfter_none hb]
      by_cases hc : c = []
      · subst hc
        simp only [if_true]
        by_cases ht : tries ≤ 1
        · simp only [ht, if_true]
          exact Or.inr ⟨buf, _, rfl, rfl, by simp [Reader.pending], by simp⟩
        · simp only [ht, if_false]
          rcases ih (tries - 1) buf (by simpa using h) with
            ⟨r1, h1, h2, h3, h4⟩ | ⟨s, r1, h1, h3, hl, _⟩
          · exact Or.inl ⟨r1, h1, h2, h3, fun x hx => List.mem_cons_of_mem _ (h4 x hx)⟩
          · exact Or.inr ⟨s, r1, h1, h3, by simpa using hl, by simp⟩
      · simp only [hc, if_false]
        rcases ih maxConsecutiveEmptyReads (buf ++ c) (by simpa using h) with
          ⟨r1, h1, h2, h3, h4⟩ | ⟨s, r1, h1, h3, hl, hmem⟩
        · exact Or.inl ⟨r1, h1, h2, h3, fun x hx => List.mem_cons_of_mem _ (h4 x hx)⟩
        · exact Or.inr ⟨s, r1, h1, h3, by simpa using hl, List.mem_cons_of_mem _ hmem⟩
    · have hfull : a1 ++ d :: (b1 ++ (c :: cs).flatten) = a ++ d :: b := by
        rw [← h, hb1]; simp
      have hsplit : a1 = a ∧ b1 ++ (c :: cs).flatten = b :=
        first_occurrence_unique d a1 a _ _ hb2 ha hfull
      simp only [readStringFrom, hb1, cutAfter_append d a1 b1 hb2]
      refine Or.inl ⟨_, by rw [hsplit.1], ?_, rfl, fun x hx => hx⟩
      simpa [Reader.pending] using hsplit.2

/-- `ReadString` when the delimiter is not pending: everything is read and the error of the
stream is returned, unless the reads stall and the call gives up with `io.ErrNoProgress`. -/
theorem readStringFrom_missing (d : Nat) (err : GoError) (chunks : List Str) (tries : Nat)
    (buf : Str) (h : d ∉ buf ++ chunks.flatten) :
    readStringFrom d err tries buf chunks = ((buf ++ chunks.flatten, some err), ⟨[], [], err⟩)
    ∨ (∃ s r1, readStringFrom d err tries buf chunks = ((s, some .noProgress), r1)
      ∧ r1.err = err ∧ r1.pending.length ≤ (buf ++ chunks.flatten).length ∧ [] ∈ chunks) := by
  induction chunks generalizing tries buf with
  | nil =>
    simp only [List.flatten_nil, List.append_nil] at h ⊢
    left
    simp only [readStringFrom, cutAfter_none h]
  | cons c cs ih =>
    have hb : d ∉ buf := fun m => h (by simp [m])
    simp only [readStringFrom, cutAfter_none hb]
    by_cases hc : c = []
    · subst hc
      simp only [if_true]
      by_cases ht : tries ≤ 1
      · simp only [ht, if_true]
        exact Or.inr ⟨buf, _, rfl, rfl, by simp [Reader.pending], by simp⟩
      · simp only [ht, if_false]
        rcases ih (tries - 1) buf (by simpa using h) with h1 | ⟨s, r1, h1, h3, hl, _⟩
        · exact Or.inl (by rw [h1]; simp)
        · exact Or.inr ⟨s, r1, h1, h3, by simpa using hl, by simp⟩
    · simp only [hc, if_false]
      rcases ih maxConsecutiveEmptyReads (buf ++ c) (by simpa using h) with
        h1 | ⟨s, r1, h1, h3, hl, hmem⟩
      · exact Or.inl (by rw [h1]; simp)
      · exact Or.inr ⟨s, r1, h1, h3, by simpa using hl, List.mem_cons_of_mem _ hmem⟩

theorem HasSuffix_CRLF (x : Str) : HasSuffix (x ++ CRLF) CRLF = true := by
  simp [HasSuffix, CRLF]

theorem take_strip_CRLF (x : Str) : (x ++ CRLF).take ((x ++ CRLF).length - 2) = x := by
  have h : (x ++ CRLF).length - 2 = x.length := by simp [CRLF]
  rw [h]
  exact List.take_left' rfl

/-- A line whose last byte is a line feed that no carriage return precedes does not end in
CRLF. -/
theorem HasSuffix_bare_LF (x : Str) (h : ∀ y, x ≠ y ++ [13]) :
    HasSuffix (x ++ [10]) CRLF = false := by
  rcases List.eq_nil_or_concat x with hx | ⟨y, c, hx⟩
  · subst hx; rfl
  · rw [List.concat_eq_append] at hx
    subst hx
    have hc : c ≠ 13 := fun e => h y (by rw [e])
    simp [HasSuffix, CRLF, hc]

/-- The loop of `ReadLine` when a CRLF is pending: the line is what was accumulated plus the
bytes before the first CRLF, unless the reads stall. -/
theorem readLineLoop_found (fuel : Nat) (r : Reader) (acc pre rest : Str)
    (hp : r.pending = pre ++ CRLF ++ rest) (hfirst : ¬ CRLF <:+: pre ++ [13])
    (hacc : ∀ y, acc ≠ y ++ [13]) (hfuel : r.pending.length < fuel) :
    (∃ r1, readLineLoop fuel r acc = .ret ((acc ++ pre, none), r1) ∧ r1.pending = rest
      ∧ r1.err = r.err ∧ ∀ c ∈ r1.chunks, c ∈ r.chunks)
    ∨ (∃ line r1, readLineLoop fuel r acc = .ret ((line, some .noProgress), r1)
      ∧ r1.err = r.err ∧ r1.pending.length ≤ r.pending.length ∧ [] ∈ r.chunks) := by
  induction fuel generalizing r acc pre with
  | zero => omega
  | succ fuel ih =>
    rcases first_occurrence 10 pre with hpre | ⟨p1, p2, hsplit, hp1⟩
    · -- the first line feed is the one of the CRLF
      have hmem : (10 : Nat) ∉ pre ++ [13] := by simpa using hpre
      rcases readStringFrom_found 10 r.err r.chunks maxConsecutiveEmptyReads r.buf
        (pre ++ [13]) rest (by rw [← Reader.pending, hp]; simp [CRLF]) hmem with
        ⟨r1, h1, h2, h3, h4⟩ | ⟨s, r1, h1, h3, hl, hstall⟩
      · refine Or.inl ⟨r1, ?_, h2, h3, h4⟩
        have hline : acc ++ (pre ++ [13] ++ [10]) = (acc ++ pre) ++ CRLF := by simp [CRLF]
        simp only [readLineLoop, ReadString, h1, hline, HasSuffix_CRLF, if_true,
          take_strip_CRLF]
      · exact Or.inr ⟨acc ++ s, r1, by simp only [readLineLoop, ReadString, h1], h3, hl, hstall⟩
    · -- a bare line feed comes first
      subst hsplit
      rcases readStringFrom_found 10 r.err r.chunks maxConsecutiveEmptyReads r.buf p1
        (p2 ++ CRLF ++ rest) (by rw [← Reader.pending, hp]; simp) hp1 with
        ⟨r1, h1, h2, h3, h4⟩ | ⟨s, r1, h1, h3, hl, hstall⟩
      · have hno : ∀ y, acc ++ p1 ≠ y ++ [13] := by
          intro y e
          rcases List.eq_nil_or_concat p1 with hnil | ⟨q, c, hq⟩
          · subst hnil
            exact hacc y (by simpa using e)
          · rw [List.concat_eq_append] at hq
            subst hq
            have hc : c = 13 := by
              have := congrArg List.getLast? e
              simpa [← List.append_assoc] using this
            apply hfirst
            subst hc
            exact ⟨q, p2 ++ [13], by simp [CRLF]⟩
        have hsuf : HasSuffix (acc ++ (p1 ++ [10])) CRLF = false := by
          rw [← List.append_assoc]
          exact HasSuffix_bare_LF _ hno
        have hfirst1 : ¬ CRLF <:+: p2 ++ [13] := by
          intro hin
          apply hfirst
          obtain ⟨s, t, e⟩ := hin
          exact ⟨p1 ++ 10 :: s, t, by simp [← e]⟩
        have hacc1 : ∀ y, acc ++ (p1 ++ [10]) ≠ y ++ [13] := by
          intro y e
          have := congrArg List.getLast? e
          simp [← List.append_assoc] at this
        have hlen0 : r1.pending.length < r.pending.length := by
          have := congrArg List.length hp
          simp only [List.length_append, List.length_cons] at this
          rw [h2]
          simp only [List.length_append]
          omega
        have hlen : r1.pending.length < fuel := by omega
        rcases ih r1 (acc ++ (p1 ++ [10])) p2 h2 hfirst1 hacc1 hlen with
          ⟨r2, g1, g2, g3, g4⟩ | ⟨line, r2, g1, g3, gl, gstall⟩
        · refine Or.inl ⟨r2, ?_, g2, g3.trans h3, fun x hx => h4 x (g4 x hx)⟩
          simp only [readLineLoop, ReadString, h1, hsuf]
          simpa using g1
        · refine Or.inr ⟨line, r2, ?_, g3.trans h3, by omega, h4 _ gstall⟩
          simp only [readLineLoop, ReadString, h1, hsuf]
          simpa using g1
      · exact Or.inr ⟨acc ++ s, r1, by simp only [readLineLoop, ReadString, h1], h3, hl, hstall⟩

/-- The loop of `ReadLine` when no CRLF is pending: everything is read and the error of the
stream is returned, unless the reads stall. -/
theorem readLineLoop_missing (fuel : Nat) (r : Reader) (acc : Str)
    (hno : ¬ CRLF <:+: r.pending) (hacc : ∀ y, acc ≠ y ++ [13])
    (hfuel : r.pending.length < fuel) :
    readLineLoop fuel r acc = .ret ((acc ++ r.pending, some r.err), ⟨[], [], r.err⟩)
    ∨ (∃ line r1, readLineLoop fuel r acc = .ret ((line, some .noProgress), r1)
      ∧ r1.err = r.err ∧ r1.pending.length ≤ r.pending.length ∧ [] ∈ r.chunks) := by
  induction fuel generalizing r acc with
  | zero => omega
  | succ fuel ih =>
    rcases first_occurrence 10 r.pending with hpre | ⟨p1, p2, hsplit, hp1⟩
    · rcases readStringFrom_missing 10 r.err r.chunks maxConsecutiveEmptyReads r.buf hpre with
        h1 | ⟨s, r1, h1, h3, hl, hstall⟩
      · left
        simp only [readLineLoop, ReadString, h1]
        rfl
      · exact Or.inr ⟨acc ++ s, r1, by simp only [readLineLoop, ReadString, h1], h3, hl, hstall⟩
    · rcases readStringFrom_found 10 r.err r.chunks maxConsecutiveEmptyReads r.buf p1 p2
        (by rw [← Reader.pending, hsplit]) hp1 with
        ⟨r1, h1, h2, h3, h4⟩ | ⟨s, r1, h1, h3, hl, hstall⟩
      · have hno1 : ∀ y, acc ++ p1 ≠ y ++ [13] := by
          intro y e
          rcases List.eq_nil_or_concat p1 with hnil | ⟨q, c, hq⟩
          · subst hnil
            exact hacc y (by simpa using e)
          · rw [List.concat_eq_append] at hq
            subst hq
            have hc : c = 13 := by
              have := congrArg List.getLast? e
              simpa [← List.append_assoc] using this
            apply hno
            subst hc
            exact ⟨q, p2, by rw [hsplit]; simp [CRLF]⟩
        have hsuf : HasSuffix (acc ++ (p1 ++ [10])) CRLF = false := by
          rw [← List.append_assoc]
          exact HasSuffix_bare_LF _ hno1
        have hnext : ¬ CRLF <:+: r1.pending := by
          intro hin
          apply hno
          obtain ⟨s, t, e⟩ := hin
          exact ⟨p1 ++ 10 :: s, t, by rw [hsplit, ← h2, ← e]; simp⟩
        have hacc1 : ∀ y, acc ++ (p1 ++ [10]) ≠ y ++ [13] := by
          intro y e
          have := congrArg List.getLast? e
          simp [← List.append_assoc] at this
        have hlen0 : r1.pending.length < r.pending.length := by
          have := congrArg List.length hsplit
          simp only [List.length_append, List.length_cons] at this
          rw [h2]
          omega
        have hlen : r1.pending.length < fuel := by omega
        rcases ih r1 (acc ++ (p1 ++ [10])) hnext hacc1 hlen with
          this | ⟨line, r2, g1, g3, gl, gstall⟩
        · left
          simp only [readLineLoop, ReadString, h1, hsuf]
          rw [this, h2, h3, hsplit]
          simp
        · refine Or.inr ⟨line, r2, ?_, g3.trans h3, by omega, h4 _ gstall⟩
          simp only [readLineLoop, ReadString, h1, hsuf]
          simpa using g1
      · exact Or.inr ⟨acc ++ s, r1, by simp only [readLineLoop, ReadString, h1], h3, hl, hstall⟩

/-- C7. `ReadLine` on a reader whose pending bytes arrive in arbitrary chunks, each read
delivering at least one byte. If a CRLF is pending, with `pre` the bytes before the first one
and `rest` the bytes after it, `ReadLine` returns `pre` without error, `pre` contains no
CRLF, and the reader is left with exactly `rest` pending. If no CRLF is pending (the stream
ends first, possibly after a bare line feed), `ReadLine` returns everything that was pending
together with the error that ended the stream, never a line without error. The second part
holds of every reader in this form: with no CRLF pending `ReadLine` returns an error, the
one that ended the stream or `io.ErrNoProgress`. -/
theorem ReadLine_spec (r : Reader) :
    ((∀ c ∈ r.chunks, c ≠ []) → ∀ pre rest : Str,
      r.pending = pre ++ CRLF ++ rest → ¬ CRLF <:+: pre ++ [13] →
      ∃ r1, ReadLine r = .ret ((pre, none), r1) ∧ r1.pending = rest ∧ r1.err = r.err
        ∧ ¬ CRLF <:+: pre)
    ∧ (¬ CRLF <:+: r.pending →
      (∃ line e r1, ReadLine r = .ret ((line, some e), r1) ∧ (e = r.err ∨ e = .noProgress))
      ∧ ((∀ c ∈ r.chunks, c ≠ []) →
        ReadLine r = .ret ((r.pending, some r.err), ⟨[], [], r.err⟩))) := by
  constructor
  · intro hne pre rest hp hfirst
    rcases readLineLoop_found (r.pending.length + 1) r [] pre rest hp hfirst
      (by intro y; simp) (by omega) with ⟨r1, h1, h2, h3, _⟩ | ⟨_, _, _, _, _, hstall⟩
    · refine ⟨r1, by simpa [ReadLine] using h1, h2, h3, ?_⟩
      intro hin
      apply hfirst
      obtain ⟨s, t, e⟩ := hin
      exact ⟨s, t ++ [13], by simp [← e]⟩
    · exact absurd rfl (hne _ hstall)
  · intro hno
    rcases readLineLoop_missing (r.pending.length + 1) r [] hno (by intro y; simp)
      (by omega) with h | ⟨line, r1, h, _, _, hstall⟩
    · have h1 : ReadLine r = .ret ((r.pending, some r.err), ⟨[], [], r.err⟩) := by
        simpa [ReadLine] using h
      exact ⟨⟨_, _, _, h1, Or.inl rfl⟩, fun _ => h1⟩
    · exact ⟨⟨line, _, r1, h, Or.inr rfl⟩, fun hne => absurd rfl (hne _ hstall)⟩

/-- C7 at concrete inputs: a line that arrives in three chunks with a bare line feed inside,
and a stream that ends after a bare line feed. -/
theorem ReadLine_spec_witness :
    (∃ r1, ReadLine ⟨bytes "a\n", [bytes "b\r", bytes "\nrest\r\n"], .EOF⟩
        = .ret ((bytes "a\nb", none), r1) ∧ r1.pending = bytes "rest\r\n" ∧ r1.err = .EOF
        ∧ ¬ CRLF <:+: bytes "a\nb")
    ∧ ReadLine ⟨bytes "ab", [bytes "c\n"], .timeout⟩
        = .ret ((bytes "abc\n", some .timeout), ⟨[], [], .timeout⟩) :=
  ⟨(ReadLine_spec ⟨bytes "a\n", [bytes "b\r", bytes "\nrest\r\n"], .EOF⟩).1 (by decide)
      (bytes "a\nb") (bytes "rest\r\n") (by decide) (by decide),
   ((ReadLine_spec ⟨bytes "ab", [bytes "c\n"], .timeout⟩).2 (by decide)).2 (by decide)⟩

/-- Reads that deliver nothing: after `maxConsecutiveEmptyReads` of them in a row `ReadLine`
gives up with `io.ErrNoProgress` although a line is still to come, and one read fewer without
data does no harm. -/
theorem ReadLine_no_progress :
    ReadLine ⟨[], List.replicate 100 [] ++ [bytes "a\r\n"], .EOF⟩
      = .ret (([], some .noProgress), ⟨[], [bytes "a\r\n"], .EOF⟩)
    ∧ ReadLine ⟨[], List.replicate 99 [] ++ [bytes "a\r\n"], .EOF⟩
      = .ret ((bytes "a", none), ⟨[], [], .EOF⟩) := by
  decide

/-! ## The fuel is enough -/

/-- A string has no CRLF, or splits at its first CRLF. -/
theorem first_CRLF (s : Str) :
    ¬ CRLF <:+: s ∨ ∃ pre rest, s = pre ++ CRLF ++ rest ∧ ¬ CRLF <:+: pre ++ [13] := by
  induction s with
  | nil => exact Or.inl (by decide)
  | cons c t ih =>
    by_cases hstart : CRLF <+: c :: t
    · obtain ⟨rest, hrest⟩ := hstart
      exact Or.inr ⟨[], rest, by simpa using hrest.symm, by decide⟩
    · rcases ih with hno | ⟨pre, rest, hsplit, hfirst⟩
      · refine Or.inl (fun hin => ?_)
        rcases List.infix_cons_iff.mp hin with h | h
        · exact hstart h
        · exact hno h
      · refine Or.inr ⟨c :: pre, rest, by simp [hsplit], fun hin => ?_⟩
        rcases List.infix_cons_iff.mp hin with h | h
        · apply hstart
          obtain ⟨x, hx⟩ := h
          cases pre with
          | nil => simp [CRLF] at hx
          | cons p0 pre =>
            simp only [CRLF, List.cons_append, List.nil_append, List.cons.injEq] at hx
            obtain ⟨hc, hx2⟩ := hx
            have hp0 : 10 = p0 := (List.cons.inj hx2).1
            exact ⟨pre ++ CRLF ++ rest, by simp [hsplit, CRLF, ← hc, ← hp0]⟩
        · exact hfirst h

/-- `ReadLine` always returns: a line and the reader behind its CRLF, or an error, which is
the error of the stream or `io.ErrNoProgress`. -/
theorem ReadLine_cases (r : Reader) :
    (∃ pre rest r1, r.pending = pre ++ CRLF ++ rest ∧ ReadLine r = .ret ((pre, none), r1)
        ∧ r1.pending = rest ∧ r1.err = r.err)
    ∨ (∃ line e r1, ReadLine r = .ret ((line, some e), r1) ∧ (e = r.err ∨ e = .noProgress)
        ∧ r1.pending.length ≤ r.pending.length) := by
  rcases first_CRLF r.pending with hno | ⟨pre, rest, hsplit, hfirst⟩
  · right
    rcases readLineLoop_missing (r.pending.length + 1) r [] hno (by intro y; simp)
      (by omega) with h | ⟨line, r1, h, _, hl, _⟩
    · have h1 : ReadLine r = .ret ((r.pending, some r.err), ⟨[], [], r.err⟩) := by
        simpa [ReadLine] using h
      exact ⟨_, _, _, h1, Or.inl rfl, by simp [Reader.pending]⟩
    · exact ⟨line, _, r1, h, Or.inr rfl, hl⟩
  · rcases readLineLoop_found (r.pending.length + 1) r [] pre rest hsplit
      hfirst (by intro y; simp) (by omega) with ⟨r1, h1, h2, h3, _⟩ | ⟨line, r1, h, _, hl, _⟩
    · left
      exact ⟨pre, rest, r1, hsplit, by simpa [ReadLine] using h1, h2, h3⟩
    · right
      exact ⟨line, _, r1, h, Or.inr rfl, hl⟩

/-- What `ReadLine` can return, and how much it leaves pending. -/
theorem ReadLine_ret (r : Reader) :
    ∃ line err r1, ReadLine r = .ret ((line, err), r1)
      ∧ (err = none → r1.pending.length + 2 ≤ r.pending.length)
      ∧ r1.pending.length ≤ r.pending.length := by
  rcases ReadLine_cases r with ⟨pre, rest, r1, hsplit, h, hp, _⟩ | ⟨line, e, r1, h, _, hl⟩
  · refine ⟨pre, none, r1, h, fun _ => ?_, ?_⟩ <;>
    · rw [hp, hsplit]
      simp only [List.length_append, CRLF, List.length_cons, List.length_nil]
      omega
  · exact ⟨line, some e, r1, h, (fun e => by cases e), hl⟩

/-- The header loop of `ReadRequest` returns or panics with the fuel it is given, and does not
add to what is pending. -/
theorem readHeaders_total (u : Util) (fuel : Nat) (r : Reader) (req : Request)
    (hfuel : r.pending.length < fuel) :
    readHeaders u fuel r req ≠ .fuel
      ∧ ∀ res r1, readHeaders u fuel r req = .ret (res, r1) →
          r1.pending.length ≤ r.pending.length := by
  induction fuel generalizing r req with
  | zero => omega
  | succ fuel ih =>
    obtain ⟨line, err, r2, hRL, hlen, hlen2⟩ := ReadLine_ret r
    unfold readHeaders
    simp only [hRL, Run.ret_bind]
    cases err with
    | some e =>
      refine ⟨by simp, ?_⟩
      intro res r1 h
      simp only [Run.pure_eq, Run.ret.injEq, Prod.mk.injEq] at h
      rw [← h.2]
      exact hlen2
    | none =>
      simp only
      by_cases hl : line = []
      · simp only [hl, if_true]
        refine ⟨by simp, ?_⟩
        intro res r1 h
        simp only [Run.pure_eq, Run.ret.injEq, Prod.mk.injEq] at h
        rw [← h.2]
        exact hlen2
      · simp only [hl, if_false]
        cases hP : ParseHeaderLine u line with
        | error e =>
          refine ⟨by simp, ?_⟩
          intro res r1 h
          simp only [Run.pure_eq, Run.ret.injEq, Prod.mk.injEq] at h
          rw [← h.2]
          exact hlen2
        | ok header =>
          obtain ⟨k, v, rfl⟩ := ParseHeaderLine_ok hP
          simp only [idx, List.getElem?_cons_zero, List.getElem?_cons_succ, Run.ret_bind]
          have h2 := hlen rfl
          obtain ⟨g1, g2⟩ := ih r2 (headerStep req k v) (by omega)
          refine ⟨g1, ?_⟩
          intro res r1 h
          have := g2 res r1 h
          omega

/-- `ReadRequest` returns or panics with the fuel it hands to its loops, and a request that
it returns has used up at least two pending bytes. -/
theorem ReadRequest_total (u : Util) (r : Reader) :
    ReadRequest u r ≠ .fuel
      ∧ ∀ request r1, ReadRequest u r = .ret (.ok request, r1) →
          r1.pending.length < r.pending.length := by
  obtain ⟨line, err, r2, hRL, hlen, hlen2⟩ := ReadLine_ret r
  cases err with
  | some e =>
    have h : ReadRequest u r = .ret (.error e, r2) := by simp [ReadRequest, hRL]
    rw [h]
    exact ⟨by simp, by intro request r1 h1; simp at h1⟩
  | none =>
    have h2 := hlen rfl
    rw [ReadRequest_of_line u r r2 line hRL]
    cases hP : ParseInitialRequestLine line with
    | error e => exact ⟨by simp, by intro request r1 h1; simp at h1⟩
    | ok initialRequest =>
      simp only
      cases h0 : idx initialRequest 0 with
      | panic p => exact ⟨by simp, by intro request r1 h1; simp at h1⟩
      | fuel => simp [idx] at h0; split at h0 <;> cases h0
      | ret method =>
        simp only [Run.ret_bind]
        by_cases hm : ValidateMethodField method = false
        · simp only [hm, if_true]
          exact ⟨by simp, by intro request r1 h1; simp at h1⟩
        · simp only [hm, if_false]
          cases h1 : idx initialRequest 1 with
          | panic p => exact ⟨by simp, by intro request r1 h1; simp at h1⟩
          | fuel => simp [idx] at h1; split at h1 <;> cases h1
          | ret url =>
            simp only [Run.ret_bind]
            cases hv : ValidateURL url with
            | panic p => exact ⟨by simp, by intro request r1 h1; simp at h1⟩
            | fuel => unfold ValidateURL at hv; split at hv <;> cases hv
            | ret ok =>
              simp only [Run.ret_bind]
              by_cases hok : ok = false
              · simp only [hok, if_true]
                exact ⟨by simp, by intro request r1 h1; simp at h1⟩
              · simp only [hok, if_false]
                cases h3 : idx initialRequest 2 with
                | panic p => exact ⟨by simp, by intro request r1 h1; simp at h1⟩
                | fuel => simp [idx] at h3; split at h3 <;> cases h3
                | ret proto =>
                  simp only [Run.ret_bind]
                  by_cases hp : ValidateProto proto = false
                  · simp only [hp, if_true]
                    exact ⟨by simp, by intro request r1 h1; simp at h1⟩
                  · simp only [hp, if_false]
                    obtain ⟨g1, g2⟩ := readHeaders_total u (r2.pending.length + 1) r2
                      ⟨method, url, RESPONSE_PROTO, [], [], false⟩ (by omega)
                    refine ⟨g1, ?_⟩
                    intro request r1 h
                    have := g2 _ r1 h
                    omega

/-! ## The serializer -/

theorem strLe_total (a b : Str) : strLe a b = true ∨ strLe b a = true := by
  induction a generalizing b with
  | nil => simp [strLe]
  | cons x s ih =>
    cases b with
    | nil => simp [strLe]
    | cons y t =>
      simp only [strLe, Bool.or_eq_true, decide_eq_true_eq, Bool.and_eq_true, beq_iff_eq]
      rcases Nat.lt_trichotomy x y with h | h | h
      · exact Or.inl (Or.inl h)
      · rcases ih t with h1 | h1
        · exact Or.inl (Or.inr ⟨h, h1⟩)
        · exact Or.inr (Or.inr ⟨h.symm, h1⟩)
      · exact Or.inr (Or.inl h)

theorem strLe_trans (a b c : Str) (h1 : strLe a b = true) (h2 : strLe b c = true) :
    strLe a c = true := by
  induction a generalizing b c with
  | nil => simp [strLe]
  | cons x s ih =>
    cases b with
    | nil => simp [strLe] at h1
    | cons y t =>
      cases c with
      | nil => simp [strLe] at h2
      | cons z v =>
        simp only [strLe, Bool.or_eq_true, decide_eq_true_eq, Bool.and_eq_true, beq_iff_eq]
          at h1 h2 ⊢
        rcases h1 with h1 | ⟨h1, h1'⟩ <;> rcases h2 with h2 | ⟨h2, h2'⟩
        · exact Or.inl (by omega)
        · exact Or.inl (by omega)
        · exact Or.inl (by omega)
        · exact Or.inr ⟨by omega, ih t v h1' h2'⟩

theorem strLe_antisymm (a b : Str) (h1 : strLe a b = true) (h2 : strLe b a = true) : a = b := by
  induction a generalizing b with
  | nil =>
    cases b with
    | nil => rfl
    | cons y t => simp [strLe] at h2
  | cons x s ih =>
    cases b with
    | nil => simp [strLe] at h1
    | cons y t =>
      simp only [strLe, Bool.or_eq_true, decide_eq_true_eq, Bool.and_eq_true, beq_iff_eq]
        at h1 h2
      rcases h1 with h1 | ⟨h1, h1'⟩ <;> rcases h2 with h2 | ⟨h2, h2'⟩
      · omega
      · omega
      · omega
      · rw [h1, ih t h1' h2']

/-- `sort.Strings` returns the strings it was given, in ascending order. -/
theorem sortStrings_spec (l : List Str) :
    (sortStrings l).Perm l ∧ (sortStrings l).Pairwise (fun a b => strLe a b = true) := by
  haveI : IsTotal Str (fun a b => strLe a b = true) := ⟨strLe_total⟩
  haveI : IsTrans Str (fun a b => strLe a b = true) := ⟨strLe_trans⟩
  exact ⟨List.perm_insertionSort _ l, List.sorted_insertionSort _ l⟩

/-- The sorted keys do not depend on the order in which the keys are handed over. -/
theorem sortStrings_perm (l1 l2 : List Str) (h : l1.Perm l2) : sortStrings l1 = sortStrings l2 := by
  haveI : IsAntisymm Str (fun a b => strLe a b = true) := ⟨strLe_antisymm⟩
  exact List.eq_of_perm_of_sorted
    (((sortStrings_spec l1).1.trans h).trans (sortStrings_spec l2).1.symm)
    (sortStrings_spec l1).2 (sortStrings_spec l2).2

theorem GoMap.mem_keys (m : GoMap) (key : Str) : key ∈ m.keys ↔ m.get key ≠ none := by
  induction m with
  | nil => simp [GoMap.keys, GoMap.get]
  | cons p m ih =>
    obtain ⟨k, v⟩ := p
    by_cases h : k = key
    · simp [GoMap.keys, GoMap.get, h]
    · have h' : ¬ key = k := fun e => h e.symm
      simp only [GoMap.keys, List.map_cons, List.mem_cons, h', false_or, GoMap.get, h, if_false]
      exact ih

theorem Sink.write_mk (written : Str) (err : GoError) (data : Str) :
    (⟨written, none, err⟩ : Sink).write data = (none, ⟨written ++ data, none, err⟩) := by
  by_cases hd : data = []
  · simp [Sink.write, hd]
  · simp [Sink.write, hd]

/-- Two maps with the same entries, in whatever order, have the same lookups. -/
theorem GoMap.get_perm (m1 m2 : GoMap) (h : m1.Perm m2) (hn : m1.keys.Nodup) (key : Str) :
    m1.get key = m2.get key := by
  induction h with
  | nil => rfl
  | cons p _ ih =>
    obtain ⟨k, v⟩ := p
    simp only [GoMap.keys, List.map_cons, List.nodup_cons] at hn
    simp only [GoMap.get, ih hn.2]
  | swap p q l =>
    obtain ⟨k1, v1⟩ := p
    obtain ⟨k2, v2⟩ := q
    simp only [GoMap.keys, List.map_cons, List.nodup_cons, List.mem_cons, not_or] at hn
    simp only [GoMap.get]
    by_cases h1 : k1 = key
    · by_cases h2 : k2 = key
      · exact absurd (h2.trans h1.symm) hn.1.1
      · simp [h1, h2]
    · by_cases h2 : k2 = key <;> simp [h1, h2]
  | trans h12 _ ih1 ih2 =>
    have hn2 := (h12.map Prod.fst).nodup_iff.mp hn
    rw [ih1 hn, ih2 hn2]

/-- A write to a sink that never fails appends the bytes. -/
theorem Sink.write_ok (w : Sink) (data : Str) (hw : w.budget = none) :
    w.write data = (none, ⟨w.written ++ data, none, w.err⟩) := by
  obtain ⟨written, budget, err⟩ := w
  simp only at hw
  subst hw
  exact Sink.write_mk written err data

theorem writeHeaders_ok (headers : GoMap) (keys : List Str) (w : Sink) (hw : w.budget = none) :
    writeHeaders headers keys w
      = (none, ⟨w.written
          ++ (keys.map (fun key => key ++ bytes ": " ++ headers.getD key ++ CRLF)).flatten,
          none, w.err⟩) := by
  induction keys generalizing w with
  | nil =>
    obtain ⟨written, budget, err⟩ := w
    simp only at hw
    subst hw
    simp [writeHeaders]
  | cons key keys ih =>
    simp only [writeHeaders, Sink.write_ok w _ hw]
    rw [ih _ rfl]
    simp

/-- `WriteToResponse` on a sink that never fails. -/
theorem WriteToResponse_ok (response : Response) (fs : FS) (w : Sink) (hw : w.budget = none) :
    WriteToResponse response fs w
      = ((if response.StatusCode = 200 then
            (match fs.readFile response.FilePath with
              | .ok _ => none
              | .error e => some e)
          else none),
         ⟨w.written
          ++ (response.Proto ++ bytes " " ++ fmtInt response.StatusCode ++ bytes " "
              ++ response.StatusText ++ CRLF)
          ++ ((sortStrings response.Headers.keys).map
              (fun key => key ++ bytes ": " ++ response.Headers.getD key ++ CRLF)).flatten
          ++ CRLF
          ++ (if response.StatusCode = 200 then
                (match fs.readFile response.FilePath with
                  | .ok body => body
                  | .error _ => [])
              else []),
          none, w.err⟩) := by
  simp only [WriteToResponse, Sink.write_ok w _ hw]
  rw [writeHeaders_ok _ _ _ rfl]
  simp only [Sink.write_mk]
  by_cases hc : response.StatusCode = 200
  · simp only [hc, if_true]
    cases fs.readFile response.FilePath with
    | error e => simp
    | ok body => simp [Sink.write_mk]
  · simp [hc]

/-- C8. For every response with a well-formed header mapping and every sink that never
fails, `WriteToResponse` appends to the sink exactly: the status line, one line
`key: value` + CRLF for each key of the mapping in strictly ascending order of the keys, the
blank line, and then the contents of the file when the status code is 200 (and the file can
be read; otherwise the read error is returned), nothing when the code is not 200. The result
is the same for every response with the same fields and the same header mapping, whatever
the order in which the mapping was filled. -/
theorem WriteToResponse_format (response : Response) (fs : FS) (w : Sink)
    (hw : w.budget = none) (hmap : response.Headers.keys.Nodup) :
    (∃ keys : List Str,
      keys.Perm response.Headers.keys
      ∧ keys.Pairwise (fun a b => strLe a b = true ∧ a ≠ b)
      ∧ (WriteToResponse response fs w).2.written
        = w.written
          ++ (response.Proto ++ bytes " " ++ fmtInt response.StatusCode ++ bytes " "
              ++ response.StatusText ++ CRLF)
          ++ (keys.map (fun key => key ++ bytes ": " ++ response.Headers.getD key ++ CRLF)).flatten
          ++ CRLF
          ++ (if response.StatusCode = 200 then
                (match fs.readFile response.FilePath with
                  | .ok body => body
                  | .error _ => [])
              else []))
    ∧ ((WriteToResponse response fs w).1
        = if response.StatusCode = 200 then
            (match fs.readFile response.FilePath with
              | .ok _ => none
              | .error e => some e)
          else none)
    ∧ (∀ other : Response, other.Headers.keys.Nodup →
        (∀ key, other.Headers.get key = response.Headers.get key) →
        other.Proto = response.Proto → other.StatusCode = response.StatusCode →
        other.StatusText = response.StatusText → other.FilePath = response.FilePath →
        WriteToResponse other fs w = WriteToResponse response fs w) := by
  refine ⟨⟨sortStrings response.Headers.keys, (sortStrings_spec _).1, ?_, ?_⟩, ?_, ?_⟩
  · have hnodup : (sortStrings response.Headers.keys).Nodup :=
      (sortStrings_spec _).1.nodup_iff.mpr hmap
    exact (sortStrings_spec _).2.and hnodup
  · rw [WriteToResponse_ok response fs w hw]
  · rw [WriteToResponse_ok response fs w hw]
  · intro other hother hget hproto hcode htext hpath
    have hperm : other.Headers.keys.Perm response.Headers.keys := by
      rw [List.perm_ext_iff_of_nodup hother hmap]
      intro key
      rw [GoMap.mem_keys, GoMap.mem_keys, hget]
    have hgetD : ∀ key, other.Headers.getD key = response.Headers.getD key := by
      intro key
      simp only [GoMap.getD, hget]
    rw [WriteToResponse_ok response fs w hw, WriteToResponse_ok other fs w hw,
      sortStrings_perm _ _ hperm, hproto, hcode, htext, hpath]
    simp only [hgetD]

/-- C8 at concrete inputs: a 200 response whose headers were filled in the order Date,
Content-Length, Connection, and the same response filled in the opposite order. -/
theorem WriteToResponse_format_witness :
    (WriteToResponse ⟨bytes "HTTP/1.1", 200, bytes "OK",
        [(bytes "Date", bytes "0 s"), (bytes "Content-Length", bytes "3"),
          (bytes "Connection", bytes "close")], none, bytes "/srv/a/sub/index.html"⟩
        sampleFS freshSink).2.written
      = bytes "HTTP/1.1 200 OK\r\nConnection: close\r\nContent-Length: 3\r\nDate: 0 s\r\n\r\nsub"
    ∧ WriteToResponse ⟨bytes "HTTP/1.1", 200, bytes "OK",
        [(bytes "Connection", bytes "close"), (bytes "Content-Length", bytes "3"),
          (bytes "Date", bytes "0 s")], none, bytes "/srv/a/sub/index.html"⟩ sampleFS freshSink
      = WriteToResponse ⟨bytes "HTTP/1.1", 200, bytes "OK",
        [(bytes "Date", bytes "0 s"), (bytes "Content-Length", bytes "3"),
          (bytes "Connection", bytes "close")], none, bytes "/srv/a/sub/index.html"⟩
        sampleFS freshSink :=
  have h := WriteToResponse_format ⟨bytes "HTTP/1.1", 200, bytes "OK",
        [(bytes "Date", bytes "0 s"), (bytes "Content-Length", bytes "3"),
          (bytes "Connection", bytes "close")], none, bytes "/srv/a/sub/index.html"⟩
        sampleFS freshSink rfl (by decide)
  ⟨by decide,
   h.2.2 ⟨bytes "HTTP/1.1", 200, bytes "OK",
        [(bytes "Connection", bytes "close"), (bytes "Content-Length", bytes "3"),
          (bytes "Date", bytes "0 s")], none, bytes "/srv/a/sub/index.html"⟩
      (by decide)
      (GoMap.get_perm _ _ (by decide) (by decide)) rfl rfl rfl rfl⟩

/-! ## `path.Clean` on rooted paths -/

theorem backtrackRev_mid (x y : Str) (hx : 47 ∉ x) (hy : y ≠ []) :
    backtrackRev 1 (x ++ 47 :: y) = y := by
  induction x with
  | nil =>
    show backtrackRev 1 (47 :: y) = y
    rw [backtrackRev]
    simp
  | cons c x ih =>
    have hc : c ≠ 47 := fun e => hx (by simp [e])
    have hx1 : 47 ∉ x := fun m => hx (by simp [m])
    have hlen : 1 < (x ++ 47 :: y).length := by
      cases y with
      | nil => exact absurd rfl hy
      | cons y0 y =>
        simp only [List.length_append, List.length_cons]
        omega
    show backtrackRev 1 (c :: (x ++ 47 :: y)) = y
    rw [backtrackRev, if_pos ⟨hlen, hc⟩]
    exact ih hx1

theorem backtrackRev_first (x : Str) (hx : 47 ∉ x) (hne : x ≠ []) :
    backtrackRev 1 (x ++ [47]) = [47] := by
  induction x with
  | nil => exact absurd rfl hne
  | cons c x ih =>
    have hc : c ≠ 47 := fun e => hx (by simp [e])
    have hx1 : 47 ∉ x := fun m => hx (by simp [m])
    show backtrackRev 1 (c :: (x ++ [47])) = [47]
    rw [backtrackRev]
    cases x with
    | nil => simp
    | cons d x =>
      have hlen : 1 < (d :: x ++ [47]).length := by
        simp only [List.length_append, List.length_cons, List.length_singleton]
        omega
      rw [if_pos ⟨hlen, hc⟩]
      exact ih hx1 (by simp)

theorem render_nil : render [] = [47] := rfl

theorem render_cons (s : Str) (segs : List Str) :
    render (s :: segs) = ((s :: segs).map (fun e => 47 :: e)).flatten := by
  simp [render]

theorem render_concat (segs : List Str) (e : Str) :
    render (segs ++ [e]) = (segs.map (fun s => 47 :: s)).flatten ++ 47 :: e := by
  simp [render]

theorem render_length (segs : List Str) (h : ∀ s ∈ segs, s ≠ []) :
    (render segs).length = 1 ↔ segs = [] := by
  cases segs with
  | nil => simp [render]
  | cons s segs =>
    have hs : s ≠ [] := h s (by simp)
    cases s with
    | nil => exact absurd rfl hs
    | cons c s =>
      rw [render_cons]
      simp only [List.map_cons, List.flatten_cons, List.length_append, List.length_cons]
      constructor
      · intro e; omega
      · intro e; cases e

/-- Writing a real element: a slash is added unless the buffer is the root alone. -/
theorem render_push (segs : List Str) (e : Str) (h : ∀ s ∈ segs, s ≠ []) :
    (if (true = true ∧ (render segs).length ≠ 1) ∨ (true = false ∧ (render segs).length ≠ 0)
      then render segs ++ [47] else render segs) ++ e = render (segs ++ [e]) := by
  cases segs with
  | nil => simp [render]
  | cons s segs =>
    have hl : (render (s :: segs)).length ≠ 1 := fun e =>
      List.cons_ne_nil _ _ ((render_length (s :: segs) h).mp e)
    rw [if_pos (Or.inl ⟨rfl, hl⟩), render_concat, render_cons]
    simp

/-- The `..` case: the last element goes, the root stays. -/
theorem render_pop (segs : List Str) (h : ∀ s ∈ segs, s ≠ [] ∧ 47 ∉ s) :
    (if 1 < (render segs).length then backtrack 1 (render segs) else render segs)
      = render segs.dropLast := by
  rcases List.eq_nil_or_concat segs with hs | ⟨init, e, hs⟩
  · subst hs
    simp [render]
  · rw [List.concat_eq_append] at hs
    subst hs
    have he : e ≠ [] ∧ 47 ∉ e := h e (by simp)
    have hlen : 1 < (render (init ++ [e])).length := by
      rw [render_concat]
      cases e with
      | nil => exact absurd rfl he.1
      | cons c e =>
        simp only [List.length_append, List.length_cons]
        omega
    rw [if_pos hlen, List.dropLast_concat]
    unfold backtrack
    rw [render_concat, List.reverse_append, List.reverse_cons, List.append_assoc,
      List.singleton_append]
    cases init with
    | nil =>
      simp only [List.map_nil, List.flatten_nil, List.reverse_nil]
      rw [backtrackRev_first _ (by simpa using he.2) (by simpa using he.1)]
      rfl
    | cons s init =>
      have hy : (List.map (fun s => 47 :: s) (s :: init)).flatten.reverse ≠ [] := by
        simp
      rw [backtrackRev_mid _ _ (by simpa using he.2) hy, List.reverse_reverse, render_cons]

theorem takeWhile_notSlash (c : Nat) (s : Str) (hc : c ≠ 47) :
    (c :: s).takeWhile (fun c => c ≠ 47) = c :: s.takeWhile (fun c => c ≠ 47) := by
  simp [List.takeWhile_cons, hc]

theorem dropWhile_notSlash (c : Nat) (s : Str) (hc : c ≠ 47) :
    (c :: s).dropWhile (fun c => c ≠ 47) = s.dropWhile (fun c => c ≠ 47) := by
  simp [List.dropWhile_cons, hc]

/-- A string splits into its first element and the rest, which is empty or begins with a
slash. -/
theorem span_slash (s : Str) :
    47 ∉ s.takeWhile (fun c => c ≠ 47)
    ∧ s = s.takeWhile (fun c => c ≠ 47) ++ s.dropWhile (fun c => c ≠ 47)
    ∧ (s.dropWhile (fun c => c ≠ 47) = []
        ∨ ∃ t, s.dropWhile (fun c => c ≠ 47) = 47 :: t) := by
  induction s with
  | nil => simp
  | cons c s ih =>
    by_cases hc : c = 47
    · subst hc
      simp
    · obtain ⟨h1, h2, h3⟩ := ih
      have hc' : (47 : Nat) ≠ c := fun e => hc e.symm
      rw [takeWhile_notSlash c s hc, dropWhile_notSlash c s hc]
      refine ⟨?_, ?_, h3⟩
      · simp only [List.mem_cons, not_or]
        exact ⟨hc', h1⟩
      · rw [List.cons_append, ← h2]

theorem splitOn_slash (t : Str) : (47 :: t).splitOn 47 = [] :: t.splitOn 47 := by
  simp [List.splitOn]

theorem splitOn_append (a b : Str) :
    (a ++ 47 :: b).splitOn 47 = a.splitOn 47 ++ b.splitOn 47 := by
  induction a with
  | nil => simp [List.splitOn]
  | cons c a ih =>
    simp only [List.splitOn] at ih ⊢
    simp only [List.cons_append, List.splitOnP_cons, ih]
    by_cases hc : (c == 47) = true
    · simp [hc]
    · simp only [hc, Bool.false_eq_true, if_false]
      cases hsp : List.splitOnP (fun x => x == 47) a with
      | nil => exact absurd hsp (List.splitOnP_ne_nil _ _)
      | cons h t => simp [List.modifyHead]

theorem splitOn_single (e : Str) (h : 47 ∉ e) : e.splitOn 47 = [e] := by
  simp only [List.splitOn]
  apply List.splitOnP_eq_single
  intro x hx hx47
  have : x = 47 := by simpa using hx47
  exact h (this ▸ hx)

theorem elems_nil : elems [] = [] := by
  simp [elems]

theorem elems_slash (t : Str) : elems (47 :: t) = elems t := by
  simp [elems, splitOn_slash]

theorem elems_append (a b : Str) : elems (a ++ 47 :: b) = elems a ++ elems b := by
  simp [elems, splitOn_append]

theorem elems_single (e : Str) (h : 47 ∉ e) (hne : e ≠ []) : elems e = [e] := by
  simp [elems, splitOn_single e h, hne]

/-- The elements of a string that does not begin with a slash: its first element, then the
elements of the rest. -/
theorem elems_cons (c : Nat) (t : Str) (hc : c ≠ 47) :
    elems (c :: t) = (c :: t).takeWhile (fun c => c ≠ 47)
      :: elems ((c :: t).dropWhile (fun c => c ≠ 47)) := by
  obtain ⟨h1, h2, h3⟩ := span_slash (c :: t)
  have hne : (c :: t).takeWhile (fun c => c ≠ 47) ≠ [] := by
    rw [takeWhile_notSlash c t hc]
    exact List.cons_ne_nil _ _
  rcases h3 with h3 | ⟨t2, h3⟩
  · rw [h3, List.append_nil] at h2
    rw [h3, elems_nil]
    conv_lhs => rw [h2]
    exact elems_single _ h1 hne
  · rw [h3] at h2
    rw [h3, elems_slash]
    conv_lhs => rw [h2]
    rw [elems_append, elems_single _ h1 hne]
    rfl

theorem cleanLoop_nil (fuel : Nat) (out : Str) (dotdot : Nat) (rooted : Bool) :
    cleanLoop rooted fuel [] out dotdot = out := by
  cases fuel <;> simp [cleanLoop]

theorem cleanLoop_slash (fuel : Nat) (t out : Str) :
    cleanLoop true (fuel + 1) (47 :: t) out 1 = cleanLoop true fuel t out 1 := by
  simp [cleanLoop]

/-- One iteration of the loop of `path.Clean` on a rooted path, at the start of an element:
the element is consumed whole, and the buffer changes according to its kind. -/
theorem cleanLoop_elem (fuel c : Nat) (t out : Str) (hc : c ≠ 47) :
    cleanLoop true (fuel + 1) (c :: t) out 1
      = cleanLoop true fuel ((c :: t).dropWhile (fun c => c ≠ 47))
          (if (c :: t).takeWhile (fun c => c ≠ 47) = [46] then out
           else if (c :: t).takeWhile (fun c => c ≠ 47) = [46, 46] then
             (if 1 < out.length then backtrack 1 out else out)
           else
             (if (true = true ∧ out.length ≠ 1) ∨ (true = false ∧ out.length ≠ 0)
               then out ++ [47] else out) ++ (c :: t).takeWhile (fun c => c ≠ 47)) 1 := by
  rw [takeWhile_notSlash c t hc, dropWhile_notSlash c t hc]
  by_cases h46 : c = 46
  · subst h46
    cases t with
    | nil => simp [cleanLoop]
    | cons d t2 =>
      by_cases hd47 : d = 47
      · subst hd47
        simp [cleanLoop]
      · rw [takeWhile_notSlash d t2 hd47, dropWhile_notSlash d t2 hd47]
        by_cases hd46 : d = 46
        · subst hd46
          cases t2 with
          | nil => simp [cleanLoop]; split_ifs <;> rfl
          | cons f t3 =>
            by_cases hf : f = 47
            · subst hf
              simp [cleanLoop]; split_ifs <;> rfl
            · rw [takeWhile_notSlash f t3 hf, dropWhile_notSlash f t3 hf]
              simp [cleanLoop, hf, takeWhile_notSlash f t3 hf, dropWhile_notSlash f t3 hf]
        · simp [cleanLoop, hd47, hd46, takeWhile_notSlash d t2 hd47,
            dropWhile_notSlash d t2 hd47]
  · simp [cleanLoop, hc, h46, takeWhile_notSlash c t hc, dropWhile_notSlash c t hc]

theorem length_dropWhile_le (s : Str) : (s.dropWhile (fun c => c ≠ 47)).length ≤ s.length := by
  induction s with
  | nil => simp
  | cons c s ih =>
    by_cases hc : c = 47
    · subst hc
      simp
    · rw [dropWhile_notSlash c s hc]
      simp only [List.length_cons]
      omega

theorem RealElem_takeWhile (c : Nat) (t : Str) (hc : c ≠ 47)
    (h1 : (c :: t).takeWhile (fun c => c ≠ 47) ≠ [46])
    (h2 : (c :: t).takeWhile (fun c => c ≠ 47) ≠ [46, 46]) :
    RealElem ((c :: t).takeWhile (fun c => c ≠ 47)) := by
  refine ⟨?_, (span_slash (c :: t)).1, h1, h2⟩
  rw [takeWhile_notSlash c t hc]
  exact List.cons_ne_nil _ _

theorem segStep_dot (segs : List Str) : segStep segs [46] = segs := by
  simp [segStep]

theorem segStep_dotdot (segs : List Str) : segStep segs [46, 46] = segs.dropLast := by
  simp [segStep]

theorem segStep_real (segs : List Str) (e : Str) (h1 : e ≠ [46]) (h2 : e ≠ [46, 46]) :
    segStep segs e = segs ++ [e] := by
  simp [segStep, h1, h2]

theorem RealElem_segStep (segs : List Str) (e : Str) (h : ∀ s ∈ segs, RealElem s)
    (he : e = [46] ∨ e = [46, 46] ∨ RealElem e) : ∀ s ∈ segStep segs e, RealElem s := by
  unfold segStep
  by_cases h1 : e = [46]
  · simpa [h1] using h
  · by_cases h2 : e = [46, 46]
    · simp only [h2, if_true]
      intro s hs
      have : [46, 46] ≠ [46] := by decide
      simp only [this, if_false] at hs
      exact h s (List.mem_of_mem_dropLast hs)
    · simp only [h1, h2, if_false]
      intro s hs
      rcases List.mem_append.mp hs with hs | hs
      · exact h s hs
      · rcases he with he | he | he
        · exact absurd he h1
        · exact absurd he h2
        · simp only [List.mem_singleton] at hs
          rw [hs]
          exact he

/-- The loop of `path.Clean` on a rooted path, started with the buffer `render segs`: it
ends with the buffer `render` of the elements after all steps, and these are real
elements. -/
theorem cleanLoop_rooted (fuel : Nat) (rest : Str) (segs : List Str)
    (hfuel : rest.length ≤ fuel) (hsegs : ∀ s ∈ segs, RealElem s) :
    cleanLoop true fuel rest (render segs) 1 = render ((elems rest).foldl segStep segs)
      ∧ ∀ s ∈ (elems rest).foldl segStep segs, RealElem s := by
  induction fuel generalizing rest segs with
  | zero =>
    have : rest = [] := List.length_eq_zero.mp (by omega)
    subst this
    simpa [cleanLoop, elems_nil] using hsegs
  | succ fuel ih =>
    cases rest with
    | nil => simpa [cleanLoop, elems_nil] using hsegs
    | cons c t =>
      by_cases hc : c = 47
      · subst hc
        rw [cleanLoop_slash, elems_slash]
        exact ih t segs (by simpa using hfuel) hsegs
      · rw [cleanLoop_elem fuel c t (render segs) hc, elems_cons c t hc, List.foldl_cons]
        have hlen : ((c :: t).dropWhile (fun c => c ≠ 47)).length ≤ fuel := by
          rw [dropWhile_notSlash c t hc]
          have := length_dropWhile_le t
          simp only [List.length_cons] at hfuel
          omega
        have hne : ∀ s ∈ segs, s ≠ [] := fun s hs => (hsegs s hs).1
        have hns : ∀ s ∈ segs, s ≠ [] ∧ 47 ∉ s := fun s hs => ⟨(hsegs s hs).1, (hsegs s hs).2.1⟩
        by_cases h1 : (c :: t).takeWhile (fun c => c ≠ 47) = [46]
        · have hstep : segStep segs ((c :: t).takeWhile (fun c => c ≠ 47)) = segs := by
            rw [h1]
            exact segStep_dot segs
          rw [if_pos h1, hstep]
          exact ih _ segs hlen hsegs
        · by_cases h2 : (c :: t).takeWhile (fun c => c ≠ 47) = [46, 46]
          · have hstep : segStep segs ((c :: t).takeWhile (fun c => c ≠ 47)) = segs.dropLast := by
              rw [h2]
              exact segStep_dotdot segs
            rw [if_neg h1, if_pos h2, hstep, render_pop segs hns]
            exact ih _ segs.dropLast hlen (fun s hs => hsegs s (List.mem_of_mem_dropLast hs))
          · have hstep : segStep segs ((c :: t).takeWhile (fun c => c ≠ 47))
                = segs ++ [(c :: t).takeWhile (fun c => c ≠ 47)] :=
              segStep_real segs _ h1 h2
            rw [if_neg h1, if_neg h2, hstep, render_push segs _ hne]
            refine ih _ _ hlen ?_
            intro s hs
            rcases List.mem_append.mp hs with hs | hs
            · exact hsegs s hs
            · simp only [List.mem_singleton] at hs
              rw [hs]
              exact RealElem_takeWhile c t hc h1 h2

/-- `path.Clean` on a rooted path: the root followed by the elements that remain after `.`
elements are dropped and every `..` element has removed the element before it. -/
theorem Clean_rooted (b : Str) :
    Clean (47 :: b) = render ((elems b).foldl segStep [])
      ∧ ∀ s ∈ (elems b).foldl segStep [], RealElem s := by
  obtain ⟨h1, h2⟩ := cleanLoop_rooted (47 :: b).length b [] (by simp) (by simp)
  refine ⟨?_, h2⟩
  have hne : (render ((elems b).foldl segStep [])).length ≠ 0 := by
    unfold render
    split
    · simp
    · rename_i hs
      cases hl : (elems b).foldl segStep [] with
      | nil => exact absurd hl hs
      | cons s l => simp
  simp only [Clean, List.cons_ne_nil, if_false, List.getElem?_cons_zero, decide_True, if_true,
    List.drop_succ_cons, List.drop_zero]
  rw [render_nil] at h1
  rw [h1]
  simp only [hne, if_false]

theorem render_head (segs : List Str) : ∃ body, render segs = 47 :: body := by
  cases segs with
  | nil => exact ⟨[], rfl⟩
  | cons s segs => exact ⟨_, by rw [render_cons]; rfl⟩

theorem splitOn_join (s : Str) (segs : List Str) (hs : 47 ∉ s) (h : ∀ e ∈ segs, 47 ∉ e) :
    (s ++ (segs.map (fun e => 47 :: e)).flatten).splitOn 47 = s :: segs := by
  induction segs generalizing s with
  | nil => simpa using splitOn_single s hs
  | cons e segs ih =>
    have he : 47 ∉ e := h e (by simp)
    have h' : ∀ x ∈ segs, 47 ∉ x := fun x hx => h x (by simp [hx])
    simp only [List.map_cons, List.flatten_cons, List.cons_append]
    rw [splitOn_append, splitOn_single s hs, ih e he h']
    rfl

/-- The pieces between the slashes of a rendered path: an empty piece for the root, then the
elements (or one more empty piece when there is no element). -/
theorem splitOn_render (segs : List Str) (h : ∀ e ∈ segs, 47 ∉ e) :
    (render segs).splitOn 47 = if segs = [] then [[], []] else [] :: segs := by
  cases segs with
  | nil => rfl
  | cons s segs =>
    have hs : 47 ∉ s := h s (by simp)
    have h' : ∀ x ∈ segs, 47 ∉ x := fun x hx => h x (by simp [hx])
    rw [render_cons]
    simp only [List.map_cons, List.flatten_cons, List.cons_append, List.cons_ne_nil, if_false]
    rw [splitOn_slash, splitOn_join s segs hs h']

theorem elems_render (segs : List Str) (h : ∀ e ∈ segs, RealElem e) :
    elems (render segs) = segs := by
  have h47 : ∀ e ∈ segs, 47 ∉ e := fun e he => (h e he).2.1
  unfold elems
  rw [splitOn_render segs h47]
  cases segs with
  | nil => simp
  | cons s segs =>
    simp only [List.cons_ne_nil, if_false]
    rw [List.filter_cons_of_neg (by simp)]
    apply List.filter_eq_self.mpr
    intro e he
    simpa using (h e he).1

theorem foldl_segStep_real (l pre : List Str) (h : ∀ e ∈ l, RealElem e) :
    l.foldl segStep pre = pre ++ l := by
  induction l generalizing pre with
  | nil => simp
  | cons e l ih =>
    have he := h e (by simp)
    rw [List.foldl_cons, segStep_real pre e he.2.2.1 he.2.2.2,
      ih _ (fun x hx => h x (by simp [hx]))]
    simp

/-- The shape of a cleaned rooted path. -/
theorem Clean_rooted_shape (p : Str) (hp : p[0]? = some 47) :
    ∃ segs : List Str, (∀ e ∈ segs, RealElem e) ∧ Clean p = render segs := by
  cases p with
  | nil => simp at hp
  | cons c b =>
    simp only [List.getElem?_cons_zero, Option.some.injEq] at hp
    subst hp
    exact ⟨_, (Clean_rooted b).2, (Clean_rooted b).1⟩

/-- `path.Clean` leaves a rendered path of real elements as it is. -/
theorem Clean_render (segs : List Str) (h : ∀ e ∈ segs, RealElem e) :
    Clean (render segs) = render segs := by
  obtain ⟨body, hb⟩ := render_head segs
  have he : elems body = segs := by
    rw [← elems_slash, ← hb]
    exact elems_render segs h
  rw [hb, (Clean_rooted body).1, he, foldl_segStep_real segs [] h]
  simp [hb]

/-- A cleaned rooted path begins with a slash. -/
theorem Clean_rooted_head (p : Str) (hp : p[0]? = some 47) : (Clean p)[0]? = some 47 := by
  obtain ⟨segs, _, h⟩ := Clean_rooted_shape p hp
  obtain ⟨body, hb⟩ := render_head segs
  rw [h, hb]
  simp

/-- `path.Clean` is idempotent on rooted paths. -/
theorem Clean_idem (p : Str) (hp : p[0]? = some 47) : Clean (Clean p) = Clean p := by
  obtain ⟨segs, hs, h⟩ := Clean_rooted_shape p hp
  rw [h]
  exact Clean_render segs hs

/-- No piece between the slashes of a cleaned rooted path is `..`. -/
theorem Clean_no_dotdot (p : Str) (hp : p[0]? = some 47) : [46, 46] ∉ (Clean p).splitOn 47 := by
  obtain ⟨segs, hs, h⟩ := Clean_rooted_shape p hp
  rw [h, splitOn_render segs (fun e he => (hs e he).2.1)]
  by_cases hnil : segs = []
  · simp [hnil]
  · simp only [hnil, if_false, List.mem_cons, not_or]
    exact ⟨by decide, fun hm => (hs _ hm).2.2.2 rfl⟩

/-- Cleaning the first part of a rooted path before a further part is appended does not
change the cleaned whole. -/
theorem Clean_append (x y : Str) (hx : x[0]? = some 47) :
    Clean (Clean x ++ 47 :: y) = Clean (x ++ 47 :: y) := by
  cases x with
  | nil => simp at hx
  | cons c bx =>
    simp only [List.getElem?_cons_zero, Option.some.injEq] at hx
    subst hx
    obtain ⟨h1, h2⟩ := Clean_rooted bx
    obtain ⟨body, hb⟩ := render_head ((elems bx).foldl segStep [])
    have he : elems body = (elems bx).foldl segStep [] := by
      rw [← elems_slash, ← hb]
      exact elems_render _ h2
    rw [h1, hb, List.cons_append, List.cons_append, (Clean_rooted _).1, (Clean_rooted _).1,
      elems_append, elems_append, List.foldl_append, List.foldl_append, he,
      foldl_segStep_real _ [] h2]
    simp

/-! ## `HandleGoodRequest` -/

theorem idx_SplitN_two (s : Str) (sep : Nat) :
    ∃ h, idx (SplitN s sep 2) 0 = .ret h := by
  simp only [SplitN]
  cases cut sep s with
  | none => exact ⟨s, rfl⟩
  | some p => exact ⟨p.1, rfl⟩

/-- The not-found exit returns a 404 response with the given file path. -/
theorem notFoundExit_ret (u : Util) (now : Nat) (response : Response) (filePath : Str)
    (request : Request) :
    notFoundExit u now response filePath request
      = .ret ⟨RESPONSE_PROTO, STATUS_NOT_FOUND, statusText STATUS_NOT_FOUND,
          (if request.Close then response.Headers.set (bytes "Connection") (bytes "close")
            else response.Headers).set (bytes "Date") (u.FormatTime now),
          some request, filePath⟩ := by
  unfold notFoundExit HandleNotFound
  by_cases h : request.Close = true <;> simp [h]

/-- The success exit, when the file information is there, returns a 200 response with the
given file path. -/
theorem okExit_ret (u : Util) (now : Nat) (response : Response) (absoluteURL : Str)
    (request : Request) (info : FileInfo) :
    ∃ contentType, idx (SplitN (u.MIMETypeByExtension (Ext absoluteURL)) 59 2) 0 = .ret contentType
      ∧ okExit u now response absoluteURL request (some info)
        = .ret ⟨RESPONSE_PROTO, STATUS_OK, statusText STATUS_OK,
            (if request.Close then
                (((response.Headers.set (bytes "Last-Modified") (u.FormatTime info.modTime)).set
                  (bytes "Content-Length") (Itoa info.size)).set (bytes "Content-Type")
                  contentType).set (bytes "Connection") (bytes "close")
              else
                ((response.Headers.set (bytes "Last-Modified") (u.FormatTime info.modTime)).set
                  (bytes "Content-Length") (Itoa info.size)).set (bytes "Content-Type")
                  contentType).set (bytes "Date") (u.FormatTime now),
            some request, absoluteURL⟩ := by
  obtain ⟨ct, hct⟩ := idx_SplitN_two (u.MIMETypeByExtension (Ext absoluteURL)) 59
  refine ⟨ct, hct, ?_⟩
  unfold okExit HandleOk
  simp only [hct, Run.ret_bind]
  by_cases h : request.Close = true <;> simp [h]

theorem rooted_append (x y : Str) (hx : x[0]? = some 47) : (x ++ y)[0]? = some 47 := by
  cases x with
  | nil => simp at hx
  | cons c x => simpa using hx

/-- The paths that `HandleGoodRequest` hands to `os.Stat` or stores as `FilePath`, for a
known host with root `R`: the root followed by `path.Clean` of a rooted path. -/
theorem HandleGoodRequest_paths (s : Server) (u : Util) (fs : FS) (now : Nat)
    (request : Request) (R : Str) (hhost : s.VirtualHosts.get request.Host = some R)
    (hurl : request.URL[0]? = some 47) (p : Str)
    (hp : p ∈ (HandleGoodRequest s u fs now request).1
      ∨ ∃ response, (HandleGoodRequest s u fs now request).2 = .ret response
          ∧ response.FilePath = p) :
    ∃ z : Str, z[0]? = some 47 ∧ p = R ++ Clean z := by
  have hR : s.VirtualHosts.getD request.Host = R := by simp [GoMap.getD, hhost]
  obtain ⟨last, hlast⟩ : ∃ last, request.URL.getLast? = some last := by
    cases hU : request.URL with
    | nil => simp [hU] at hurl
    | cons c b => exact ⟨(c :: b).getLast (by simp), List.getLast?_eq_getLast _ _⟩
  -- the target after step 1
  obtain ⟨url1, hurl1, hurl1'⟩ : ∃ url1 : Str, url1[0]? = some 47
      ∧ url1 = (if last = 47 then Clean (request.URL ++ bytes "index.html") else request.URL) := by
    refine ⟨_, ?_, rfl⟩
    split_ifs
    · exact Clean_rooted_head _ (rooted_append _ _ hurl)
    · exact hurl
  have hz2 : (Clean (url1 ++ bytes "/index.html"))[0]? = some 47 :=
    Clean_rooted_head _ (rooted_append _ _ hurl1)
  have key : p = R ++ Clean url1 ∨ p = R ++ Clean (Clean (url1 ++ bytes "/index.html")) := by
    unfold HandleGoodRequest statAndServe at hp
    simp only [hhost, hlast, hR] at hp
    have hreq : (if last = 47 then
          { request with URL := Clean (request.URL ++ bytes "index.html") } else request).URL
        = url1 := by
      rw [hurl1']
      split_ifs <;> rfl
    generalize (if last = 47 then
      { request with URL := Clean (request.URL ++ bytes "index.html") } else request) = req1
      at hp hreq
    rw [hreq] at hp
    cases hst : fs.stat (R ++ Clean url1) with
    | error e =>
      rw [hst] at hp
      cases e <;> simp only [notFoundExit_ret] at hp <;>
        rcases hp with hp | ⟨r, hr, hrp⟩
      all_goals first
        | (cases hr <;> exact Or.inl hrp.symm)
        | (simp only [List.mem_singleton] at hp; exact Or.inl hp)
    | ok info =>
      rw [hst] at hp
      simp only at hp
      by_cases hd : info.isDir = true
      · simp only [hd, if_true] at hp
        cases hst2 : fs.stat (R ++ Clean (Clean (url1 ++ bytes "/index.html"))) with
        | error e =>
          rw [hst2] at hp
          cases e <;> simp only [notFoundExit_ret, okExit] at hp <;>
            rcases hp with hp | ⟨r, hr, hrp⟩
          all_goals first
            | (cases hr <;> exact Or.inr hrp.symm)
            | (simp only [List.mem_cons, List.mem_singleton, List.not_mem_nil, or_false] at hp
               exact hp)
        | ok info2 =>
          rw [hst2] at hp
          obtain ⟨ct, _, hok⟩ := okExit_ret u now ⟨[], 0, [], [], none, []⟩
            (R ++ Clean (Clean (url1 ++ bytes "/index.html")))
            { req1 with URL := Clean (url1 ++ bytes "/index.html") } info2
          simp only [hok] at hp
          rcases hp with hp | ⟨r, hr, hrp⟩
          · simp only [List.mem_cons, List.mem_singleton, List.not_mem_nil, or_false] at hp
            exact hp
          · cases hr
            exact Or.inr hrp.symm
      · obtain ⟨ct, _, hok⟩ := okExit_ret u now ⟨[], 0, [], [], none, []⟩
          (R ++ Clean url1) req1 info
        have hd1 : info.isDir = false := by simpa using hd
        simp only [hd1, Bool.false_eq_true, if_false, hok] at hp
        rcases hp with hp | ⟨r, hr, hrp⟩
        · simp only [List.mem_singleton] at hp
          exact Or.inl hp
        · cases hr
          exact Or.inl hrp.symm
  rcases key with h | h
  · exact ⟨url1, hurl1, h⟩
  · exact ⟨url1 ++ bytes "/index.html", rooted_append _ _ hurl1, by
      rw [Clean_idem _ (rooted_append _ _ hurl1)] at h
      exact h⟩

/-! ## Path-traversal containment -/

/-- C9. For every known host with document root `R` and every target that begins with a
slash, every path that `HandleGoodRequest` hands to `os.Stat` or stores as `FilePath` is `R`
followed by a cleaned path `q` (`path.Clean` leaves it as it is) that begins with a slash and
none of whose pieces between slashes is `..`. -/
theorem traversal_contained (s : Server) (u : Util) (fs : FS) (now : Nat)
    (request : Request) (R : Str) (hhost : s.VirtualHosts.get request.Host = some R)
    (hurl : request.URL[0]? = some 47) (p : Str)
    (hp : p ∈ (HandleGoodRequest s u fs now request).1
      ∨ ∃ response, (HandleGoodRequest s u fs now request).2 = .ret response
          ∧ response.FilePath = p) :
    ∃ q : Str, p = R ++ q ∧ Clean q = q ∧ q[0]? = some 47 ∧ [46, 46] ∉ q.splitOn 47 := by
  obtain ⟨z, hz, hpz⟩ := HandleGoodRequest_paths s u fs now request R hhost hurl p hp
  exact ⟨Clean z, hpz, Clean_idem z hz, Clean_rooted_head z hz, Clean_no_dotdot z hz⟩

/-- C9 at a concrete input: the target `/../../srv/b/../a/secret/` of host `a.com`; the
second path handed to `os.Stat` stays below the root `/srv/a`. -/
theorem traversal_contained_witness :
    ∃ q : Str, bytes "/srv/a/srv/a/secret/index.html" = bytes "/srv/a" ++ q ∧ Clean q = q
      ∧ q[0]? = some 47 ∧ [46, 46] ∉ q.splitOn 47 :=
  traversal_contained sampleServer sampleUtil sampleFS 0
    ⟨bytes "GET", bytes "/../../srv/b/../a/secret/", bytes "HTTP/1.1",
      [(bytes "Host", bytes "a.com")], bytes "a.com", false⟩
    (bytes "/srv/a") (by decide) (by decide) (bytes "/srv/a/srv/a/secret/index.html")
    (Or.inl (by decide))

/-! ## Targets with a trailing slash -/

@[simp] theorem Run.map_ret {α β : Type} (f : α → β) (a : α) : (Run.ret a).map f = .ret (f a) :=
  rfl

@[simp] theorem Run.map_panic {α β : Type} (f : α → β) (p : Panic) :
    (Run.panic p : Run α).map f = .panic p := rfl

/-- Steps 2, 2a and 2b use the request only through the cleaned target, the cleaned target of
its index file, and the `Close` flag. -/
theorem statAndServe_congr (s : Server) (u : Util) (fs : FS) (now : Nat) (response : Response)
    (host : Str) (requestA requestB : Request)
    (h1 : Clean requestA.URL = Clean requestB.URL)
    (h2 : Clean (Clean (requestA.URL ++ bytes "/index.html"))
      = Clean (Clean (requestB.URL ++ bytes "/index.html")))
    (hclose : requestA.Close = requestB.Close) :
    (statAndServe s u fs now response host requestA).1
        = (statAndServe s u fs now response host requestB).1
    ∧ (statAndServe s u fs now response host requestA).2.map Response.sent
        = (statAndServe s u fs now response host requestB).2.map Response.sent := by
  unfold statAndServe
  simp only [h1, h2]
  cases hst : fs.stat (s.VirtualHosts.getD host ++ Clean requestB.URL) with
  | error e =>
    cases e <;> simp [notFoundExit_ret, Response.sent, hclose]
  | ok info =>
    simp only
    by_cases hd : info.isDir = true
    · simp only [hd, if_true]
      cases hst2 : fs.stat (s.VirtualHosts.getD host
          ++ Clean (Clean (requestB.URL ++ bytes "/index.html"))) with
      | error e =>
        cases e <;> simp [notFoundExit_ret, okExit, Response.sent, hclose]
      | ok info2 =>
        obtain ⟨ct, hct, hokA⟩ := okExit_ret u now response
          (s.VirtualHosts.getD host ++ Clean (Clean (requestB.URL ++ bytes "/index.html")))
          { requestA with URL := Clean (requestA.URL ++ bytes "/index.html") } info2
        obtain ⟨ct2, hct2, hokB⟩ := okExit_ret u now response
          (s.VirtualHosts.getD host ++ Clean (Clean (requestB.URL ++ bytes "/index.html")))
          { requestB with URL := Clean (requestB.URL ++ bytes "/index.html") } info2
        have hcc : ct = ct2 := by
          rw [hct] at hct2
          injection hct2
        subst hcc
        simp only [] at hokA hokB ⊢
        rw [hokA, hokB]
        simp only [Run.map_ret, Response.sent, hclose, true_and]
    · have hd1 : info.isDir = false := by simpa using hd
      obtain ⟨ct, hct, hokA⟩ := okExit_ret u now response
        (s.VirtualHosts.getD host ++ Clean requestB.URL) requestA info
      obtain ⟨ct2, hct2, hokB⟩ := okExit_ret u now response
        (s.VirtualHosts.getD host ++ Clean requestB.URL) requestB info
      have hcc : ct = ct2 := by
        rw [hct] at hct2
        injection hct2
      subst hcc
      simp only [hd1, Bool.false_eq_true, if_false]
      rw [hokA, hokB]
      simp only [Run.map_ret, Response.sent, hclose, true_and]

/-- C10, counterexample. For a host that is not in the table the response stores the raw
target as `FilePath`: `/` for the target `/` and `/index.html` for the target
`/index.html`. -/
theorem unknown_host_keeps_raw_target :
    (HandleGoodRequest sampleServer sampleUtil sampleFS 0
        ⟨bytes "GET", bytes "/", bytes "HTTP/1.1", [(bytes "Host", bytes "b.com")],
          bytes "b.com", false⟩).2.map Response.sent
      = .ret (bytes "HTTP/1.1", 404, bytes "Not Found", [(bytes "Date", bytes "0 s")], bytes "/")
    ∧ (HandleGoodRequest sampleServer sampleUtil sampleFS 0
        ⟨bytes "GET", bytes "/" ++ bytes "index.html", bytes "HTTP/1.1",
          [(bytes "Host", bytes "b.com")], bytes "b.com", false⟩).2.map Response.sent
      = .ret (bytes "HTTP/1.1", 404, bytes "Not Found", [(bytes "Date", bytes "0 s")],
          bytes "/index.html") :=
  ⟨rfl, rfl⟩

/-- C10, amended. For every host table, file system, host that is in the table, and target
`t` that begins and ends with a slash, `HandleGoodRequest` on the target `t` and on the target
`t ++ "index.html"` (same host, same `Close` flag, same time) hands the same paths to
`os.Stat` and has the same outcome: the same panic, or responses with the same protocol,
status code, status text, headers and `FilePath`. -/
theorem trailing_slash_as_index (s : Server) (u : Util) (fs : FS) (now : Nat)
    (requestA requestB : Request) (R t : Str)
    (hhost : s.VirtualHosts.get requestA.Host = some R)
    (hsame : requestB.Host = requestA.Host) (hclose : requestB.Close = requestA.Close)
    (hroot : t[0]? = some 47) (hslash : t.getLast? = some 47)
    (hA : requestA.URL = t) (hB : requestB.URL = t ++ bytes "index.html") :
    (HandleGoodRequest s u fs now requestA).1 = (HandleGoodRequest s u fs now requestB).1
    ∧ (HandleGoodRequest s u fs now requestA).2.map Response.sent
        = (HandleGoodRequest s u fs now requestB).2.map Response.sent := by
  have hlastB : requestB.URL.getLast? = some 108 := by
    rw [hB]
    simp [bytes, List.getLast?_append]
  have hrt : (t ++ bytes "index.html")[0]? = some 47 := rooted_append _ _ hroot
  unfold HandleGoodRequest
  simp only [hsame, hhost, hA, hslash, hlastB, if_true]
  have h108 : ¬ (108 : Nat) = 47 := by decide
  simp only [h108, if_false]
  apply statAndServe_congr
  · simp only [hB]
    exact Clean_idem _ hrt
  · have hb : bytes "/index.html" = 47 :: bytes "index.html" := by decide
    simp only [hB, hb]
    rw [Clean_append _ _ hrt]
  · simp only [hclose]

/-- C10, the amended statement at a concrete input: the directory target `/sub/` of host
`a.com` against `/sub/index.html`. -/
theorem trailing_slash_as_index_witness :
    (HandleGoodRequest sampleServer sampleUtil sampleFS 0
        ⟨bytes "GET", bytes "/sub/", bytes "HTTP/1.1", [], bytes "a.com", true⟩).1
      = (HandleGoodRequest sampleServer sampleUtil sampleFS 0
        ⟨bytes "GET", bytes "/sub/index.html", bytes "HTTP/1.1", [], bytes "a.com", true⟩).1
    ∧ (HandleGoodRequest sampleServer sampleUtil sampleFS 0
        ⟨bytes "GET", bytes "/sub/", bytes "HTTP/1.1", [], bytes "a.com", true⟩).2.map
          Response.sent
      = (HandleGoodRequest sampleServer sampleUtil sampleFS 0
        ⟨bytes "GET", bytes "/sub/index.html", bytes "HTTP/1.1", [], bytes "a.com", true⟩).2.map
          Response.sent :=
  trailing_slash_as_index sampleServer sampleUtil sampleFS 0
    ⟨bytes "GET", bytes "/sub/", bytes "HTTP/1.1", [], bytes "a.com", true⟩
    ⟨bytes "GET", bytes "/sub/index.html", bytes "HTTP/1.1", [], bytes "a.com", true⟩
    (bytes "/srv/a") (bytes "/sub/") (by decide) rfl rfl (by decide) (by decide) rfl
    (by decide)

/-! ## `HandleConnection` returns -/

theorem statAndServe_no_fuel (s : Server) (u : Util) (fs : FS) (now : Nat) (response : Response)
    (host : Str) (request : Request) :
    (statAndServe s u fs now response host request).2 ≠ .fuel := by
  unfold statAndServe
  simp only
  cases fs.stat (s.VirtualHosts.getD host ++ Clean request.URL) with
  | error e => cases e <;> simp [notFoundExit_ret]
  | ok info =>
    simp only
    split_ifs
    · cases fs.stat (s.VirtualHosts.getD host
          ++ Clean (Clean (request.URL ++ bytes "/index.html"))) with
      | error e => cases e <;> simp [notFoundExit_ret, okExit]
      | ok info2 =>
        obtain ⟨ct, _, hok⟩ := okExit_ret u now response
          (s.VirtualHosts.getD host ++ Clean (Clean (request.URL ++ bytes "/index.html")))
          { request with URL := Clean (request.URL ++ bytes "/index.html") } info2
        simp only [] at hok ⊢
        rw [hok]
        simp
    · obtain ⟨ct, _, hok⟩ := okExit_ret u now response
        (s.VirtualHosts.getD host ++ Clean request.URL) request info
      simp only [] at hok ⊢
      rw [hok]
      simp

/-- `HandleGoodRequest` has no loop: its outcome is a response or a panic. -/
theorem HandleGoodRequest_no_fuel (s : Server) (u : Util) (fs : FS) (now : Nat)
    (request : Request) : (HandleGoodRequest s u fs now request).2 ≠ .fuel := by
  unfold HandleGoodRequest
  simp only
  cases s.VirtualHosts.get request.Host with
  | none => simp [notFoundExit_ret]
  | some R =>
    simp only
    cases request.URL.getLast? with
    | none => simp
    | some last => exact statAndServe_no_fuel _ _ _ _ _ _ _

/-- The loop of `HandleConnection` returns or panics with fuel above the number of pending
bytes: every request that is served uses up pending bytes. -/
theorem handleLoop_total (s : Server) (u : Util) (fs : FS) (clock : Nat → Nat) (fuel k : Nat)
    (conn : Conn) (hfuel : conn.reader.pending.length < fuel) :
    handleLoop s u fs clock fuel k conn ≠ .fuel := by
  induction fuel generalizing k conn with
  | zero => omega
  | succ fuel ih =>
    unfold handleLoop
    simp only
    split_ifs
    · simp
    · obtain ⟨g1, g2⟩ := ReadRequest_total u conn.reader
      cases hRR : ReadRequest u conn.reader with
      | fuel => exact absurd hRR g1
      | panic p => simp
      | ret x =>
        obtain ⟨result, bufferR⟩ := x
        simp only
        cases result with
        | error e => cases e <;> simp
        | ok request =>
          simp only
          have hlt := g2 request bufferR hRR
          cases hG : (HandleGoodRequest s u fs (clock k) request).2 with
          | fuel => exact absurd hG (HandleGoodRequest_no_fuel s u fs (clock k) request)
          | panic p => simp
          | ret response =>
            simp only
            exact ih (k + 1) _ (by simp only; omega)

/-- `HandleConnection` returns or panics: the fuel it hands to its loop is enough. -/
theorem HandleConnection_total (s : Server) (u : Util) (fs : FS) (clock : Nat → Nat)
    (conn : Conn) : HandleConnection s u fs clock conn ≠ .fuel :=
  handleLoop_total s u fs clock _ 0 conn (by omega)

/-! ## Write errors in `HandleConnection` -/

/-- C11, evaluation at the failing inputs. (1) The index file can be inspected but not opened:
`WriteToResponse` sends status line and headers of the 200 response, fails with the error of
`os.Open`, and `HandleConnection` goes on to read and answer the second request on the same
connection. (2) The outbound side fails after two writes: `WriteToResponse` returns the write
error for the first response, and `HandleConnection` again goes on to read the second request
and to call `WriteToResponse` for it. In both runs the connection is closed only when the peer
has gone. -/
theorem write_error_keeps_connection_open :
    (HandleConnection sampleServer sampleUtil lockedFS (fun k => k)
        (connOf [bytes "GET / HTTP/1.1\r\nHost: a.com\r\n\r\nGET /sub/ HTTP/1.1\r\nHost: a.com\r\n\r\n"])).map
      (fun conn => (conn.log.map (fun e => (e.step, e.failure)), conn.sink.written))
    = .ret ([(.armed, none), (.read (bytes "/") false, none), (.wrote 200 none, some (.io 13)),
        (.armed, none), (.read (bytes "/sub/") false, none), (.wrote 200 none, none),
        (.armed, none), (.readFailed .EOF, some .EOF), (.closed, none)],
        bytes "HTTP/1.1 200 OK\r\nContent-Length: 12\r\nContent-Type: text/html\r\nDate: 0 s\r\nLast-Modified: 1000 s\r\n\r\nHTTP/1.1 200 OK\r\nContent-Length: 3\r\nContent-Type: text/html\r\nDate: 1 s\r\nLast-Modified: 1001 s\r\n\r\nsub")
    ∧ (HandleConnection sampleServer sampleUtil sampleFS (fun k => k)
        (failingConn [bytes "GET / HTTP/1.1\r\nHost: a.com\r\n\r\nGET /sub/ HTTP/1.1\r\nHost: a.com\r\n\r\n"] 2)).map
      (fun conn => (conn.log.map (fun e => (e.step, e.failure)), conn.sink.written))
    = .ret ([(.armed, none), (.read (bytes "/") false, none), (.wrote 200 none, some (.io 32)),
        (.armed, none), (.read (bytes "/sub/") false, none), (.wrote 200 none, some (.io 32)),
        (.armed, none), (.readFailed .EOF, some .EOF), (.closed, none)],
        bytes "HTTP/1.1 200 OK\r\nContent-Length: 12\r\n") :=
  ⟨rfl, rfl⟩

/-! ## Requests that cannot be read -/

/-- The response that `HandleBadRequest` builds from an empty response. -/
theorem HandleBadRequest_eq (u : Util) (now : Nat) :
    HandleBadRequest u now ⟨[], 0, [], [], none, []⟩
      = ⟨bytes "HTTP/1.1", 400, bytes "Bad Request",
          [(bytes "Connection", bytes "close"), (bytes "Date", u.FormatTime now)], none, []⟩ :=
  rfl

/-- C12. Whenever an iteration of the loop of `HandleConnection` reads a request and the read
fails with an error that is neither end-of-stream nor a timeout, the iteration writes exactly
one response and returns with the connection closed, without a further read: the response has
status 400, text "Bad Request", the headers `Connection: close` and `Date` and no others, no
request and no file path; on a sink that never fails its bytes are the status line, the two
header lines and the blank line, with no body. -/
theorem bad_request_answer (s : Server) (u : Util) (fs : FS) (clock : Nat → Nat)
    (fuel k : Nat) (conn : Conn) (e : GoError) (r1 : Reader)
    (hdeadline : conn.deadlineErr ≠ some .EOF)
    (hread : ReadRequest u conn.reader = .ret (.error e, r1))
    (heof : e ≠ .EOF) (htimeout : e ≠ .timeout) :
    handleLoop s u fs clock (fuel + 1) k conn
      = .ret ⟨r1,
          (WriteToResponse ⟨bytes "HTTP/1.1", 400, bytes "Bad Request",
            [(bytes "Connection", bytes "close"), (bytes "Date", u.FormatTime (clock k))],
            none, []⟩ fs conn.sink).2,
          conn.deadlineErr,
          conn.log ++ [.setReadDeadline, .readRequest (.error e),
            .writeResponse ⟨bytes "HTTP/1.1", 400, bytes "Bad Request",
                [(bytes "Connection", bytes "close"), (bytes "Date", u.FormatTime (clock k))],
                none, []⟩
              (WriteToResponse ⟨bytes "HTTP/1.1", 400, bytes "Bad Request",
                [(bytes "Connection", bytes "close"), (bytes "Date", u.FormatTime (clock k))],
                none, []⟩ fs conn.sink).1,
            .close]⟩
    ∧ (conn.sink.budget = none →
        WriteToResponse ⟨bytes "HTTP/1.1", 400, bytes "Bad Request",
            [(bytes "Connection", bytes "close"), (bytes "Date", u.FormatTime (clock k))],
            none, []⟩ fs conn.sink
          = (none, ⟨conn.sink.written ++ bytes "HTTP/1.1 400 Bad Request\r\n"
              ++ bytes "Connection: close\r\n" ++ bytes "Date: " ++ u.FormatTime (clock k)
              ++ CRLF ++ CRLF, none, conn.sink.err⟩)) := by
  constructor
  · unfold handleLoop
    simp only [hdeadline, if_false, hread, HandleBadRequest_eq]
    cases e <;> first | exact absurd rfl heof | exact absurd rfl htimeout | simp
  · intro hw
    rw [WriteToResponse_ok _ fs conn.sink hw]
    have hkeys : sortStrings (GoMap.keys [(bytes "Connection", bytes "close"),
        (bytes "Date", u.FormatTime (clock k))]) = [bytes "Connection", bytes "Date"] := by
      show sortStrings [bytes "Connection", bytes "Date"] = [bytes "Connection", bytes "Date"]
      decide
    have h400 : ¬ ((400 : Int) = 200) := by decide
    simp only [hkeys, h400, if_false]
    have hc : GoMap.getD [(bytes "Connection", bytes "close"),
        (bytes "Date", u.FormatTime (clock k))] (bytes "Connection") = bytes "close" := rfl
    have hd : GoMap.getD [(bytes "Connection", bytes "close"),
        (bytes "Date", u.FormatTime (clock k))] (bytes "Date") = u.FormatTime (clock k) := rfl
    simp only [List.map_cons, List.map_nil, hc, hd, List.flatten_cons, List.flatten_nil]
    have hline : bytes "HTTP/1.1" ++ bytes " " ++ fmtInt 400 ++ bytes " " ++ bytes "Bad Request"
        ++ CRLF = bytes "HTTP/1.1 400 Bad Request\r\n" := by decide
    have hconn : bytes "Connection" ++ bytes ": " ++ bytes "close" ++ CRLF
        = bytes "Connection: close\r\n" := by decide
    have hdate : bytes "Date" ++ bytes ": " = bytes "Date: " := by decide
    rw [hline, hconn, hdate]
    simp [List.append_assoc]

/-- C12 at a concrete input: the request `POST / HTTP/1.1` of scenario 3 of the
specification. -/
theorem bad_request_answer_witness :
    (HandleConnection sampleServer sampleUtil sampleFS (fun t => t)
        (connOf [bytes "POST / HTTP/1.1\r\nHost: a.com\r\n\r\n"])).map
      (fun conn => (conn.log.map Event.step, conn.sink.written))
    = .ret ([.armed, .readFailed (.invalidMethod (bytes "POST")),
        .wrote 400 (some (bytes "close")), .closed],
        bytes "HTTP/1.1 400 Bad Request\r\nConnection: close\r\nDate: 0 s\r\n\r\n") := by
  have h := bad_request_answer sampleServer sampleUtil sampleFS (fun t => t)
    (bytes "POST / HTTP/1.1\r\nHost: a.com\r\n\r\n").length 0
    (connOf [bytes "POST / HTTP/1.1\r\nHost: a.com\r\n\r\n"])
    (.invalidMethod (bytes "POST")) ⟨bytes "Host: a.com\r\n\r\n", [], .EOF⟩
    (by decide) (by decide) (by decide) (by decide)
  have h1 : HandleConnection sampleServer sampleUtil sampleFS (fun t => t)
      (connOf [bytes "POST / HTTP/1.1\r\nHost: a.com\r\n\r\n"]) = _ := h.1
  rw [h1]
  rfl

/-- C13. Whenever an iteration of the loop of `HandleConnection` reads a request and the read
ends with end-of-stream or with a timeout, the loop returns with the connection closed and
nothing written: the sink is as it was and the events added are the deadline, the read (if
the deadline could be set) and the close. That is what happens when nothing or only part of
a line is pending at the end of the stream: `ReadRequest` then returns the error that ended
the stream. -/
theorem silent_close (s : Server) (u : Util) (fs : FS) (clock : Nat → Nat)
    (fuel k : Nat) (conn : Conn) (e : GoError) (r1 : Reader)
    (hread : ReadRequest u conn.reader = .ret (.error e, r1))
    (he : e = .EOF ∨ e = .timeout) :
    (∃ conn1, handleLoop s u fs clock (fuel + 1) k conn = .ret conn1
      ∧ conn1.sink = conn.sink
      ∧ (conn1.log = conn.log ++ [.setReadDeadline, .readRequest (.error e), .close]
          ∨ conn1.log = conn.log ++ [.setReadDeadline, .close]))
    ∧ (¬ CRLF <:+: conn.reader.pending → e = conn.reader.err) := by
  constructor
  · unfold handleLoop
    by_cases hd : conn.deadlineErr = some .EOF
    · simp only [hd, if_true]
      exact ⟨_, rfl, rfl, Or.inr (by simp)⟩
    · simp only [hd, if_false, hread]
      rcases he with he | he <;> subst he <;> exact ⟨_, rfl, rfl, Or.inl (by simp)⟩
  · intro hno
    rcases readLineLoop_missing (conn.reader.pending.length + 1) conn.reader [] hno
      (by intro y; simp) (by omega) with hline | ⟨line, r2, hline, _⟩
    · have hline1 : ReadLine conn.reader
          = .ret ((conn.reader.pending, some conn.reader.err), ⟨[], [], conn.reader.err⟩) := by
        simpa [ReadLine] using hline
      simp only [ReadRequest, hline1, Run.ret_bind, Run.pure_eq, Run.ret.injEq, Prod.mk.injEq,
        Except.error.injEq] at hread
      exact hread.1.symm
    · have hline1 : ReadLine conn.reader = .ret ((line, some .noProgress), r2) := hline
      simp only [ReadRequest, hline1, Run.ret_bind, Run.pure_eq, Run.ret.injEq, Prod.mk.injEq,
        Except.error.injEq] at hread
      rcases he with he | he <;> rw [he] at hread <;> exact absurd hread.1 (by decide)

/-- C13 at concrete inputs: a timeout after part of the request line, and the end of the
stream after the request line and one header line. -/
theorem silent_close_witness :
    (∃ conn1, handleLoop sampleServer sampleUtil sampleFS (fun t => t) 1 0
        ⟨⟨[], [bytes "GET /ind"], .timeout⟩, freshSink, none, []⟩ = .ret conn1
      ∧ conn1.sink = freshSink
      ∧ (conn1.log = [] ++ [.setReadDeadline, .readRequest (.error .timeout), .close]
          ∨ conn1.log = [] ++ [.setReadDeadline, .close]))
    ∧ (∃ conn1, handleLoop sampleServer sampleUtil sampleFS (fun t => t) 1 0
        (connOf [bytes "GET / HTTP/1.1\r\nHost: a.com\r\n"]) = .ret conn1
      ∧ conn1.sink = freshSink
      ∧ (conn1.log = [] ++ [.setReadDeadline, .readRequest (.error .EOF), .close]
          ∨ conn1.log = [] ++ [.setReadDeadline, .close])) :=
  ⟨(silent_close sampleServer sampleUtil sampleFS (fun t => t) 0 0
      ⟨⟨[], [bytes "GET /ind"], .timeout⟩, freshSink, none, []⟩ .timeout ⟨[], [], .timeout⟩
      (by decide) (Or.inr rfl)).1,
   (silent_close sampleServer sampleUtil sampleFS (fun t => t) 0 0
      (connOf [bytes "GET / HTTP/1.1\r\nHost: a.com\r\n"]) .EOF ⟨[], [], .EOF⟩
      (by decide) (Or.inl rfl)).1⟩

/-! ## The responses of `HandleGoodRequest` -/

/-- A response that steps 2, 2a and 2b return comes from one of the two exits: the not-found
exit for a path that does not exist, or the success exit for a path on which `os.Stat`
succeeded. The request stored is the request given when its path is not a directory, and the
request with the index file of the directory as its target when it is. -/
theorem statAndServe_ret (s : Server) (u : Util) (fs : FS) (now : Nat) (response0 : Response)
    (host : Str) (request : Request) (response : Response)
    (h : (statAndServe s u fs now response0 host request).2 = .ret response) :
    ∃ request1 : Request,
      ((request1 = request
          ∧ ∀ info, fs.stat (s.VirtualHosts.getD host ++ Clean request.URL) = .ok info →
              info.isDir = false)
        ∨ ((∃ info, fs.stat (s.VirtualHosts.getD host ++ Clean request.URL) = .ok info
              ∧ info.isDir = true)
            ∧ request1 = { request with URL := Clean (request.URL ++ bytes "/index.html") }))
      ∧ ((fs.stat (s.VirtualHosts.getD host ++ Clean request1.URL) = .error .notExist
            ∧ notFoundExit u now response0 (s.VirtualHosts.getD host ++ Clean request1.URL)
                request1 = .ret response)
          ∨ (∃ info, fs.stat (s.VirtualHosts.getD host ++ Clean request1.URL) = .ok info
              ∧ okExit u now response0 (s.VirtualHosts.getD host ++ Clean request1.URL)
                  request1 (some info) = .ret response)) := by
  unfold statAndServe at h
  simp only at h
  cases hst : fs.stat (s.VirtualHosts.getD host ++ Clean request.URL) with
  | error e =>
    rw [hst] at h
    cases e <;> simp only at h <;> first
      | exact ⟨request, Or.inl ⟨rfl, fun info hi => by cases hi⟩, Or.inl ⟨hst, h⟩⟩
      | cases h
  | ok info =>
    rw [hst] at h
    simp only at h
    by_cases hd : info.isDir = true
    · simp only [hd, if_true] at h
      cases hst2 : fs.stat (s.VirtualHosts.getD host
          ++ Clean (Clean (request.URL ++ bytes "/index.html"))) with
      | error e =>
        rw [hst2] at h
        cases e <;> simp only [okExit] at h <;> first
          | exact ⟨{ request with URL := Clean (request.URL ++ bytes "/index.html") },
              Or.inr ⟨⟨info, rfl, hd⟩, rfl⟩, Or.inl ⟨hst2, h⟩⟩
          | cases h
      | ok info2 =>
        rw [hst2] at h
        simp only at h
        exact ⟨{ request with URL := Clean (request.URL ++ bytes "/index.html") },
          Or.inr ⟨⟨info, rfl, hd⟩, rfl⟩, Or.inr ⟨info2, hst2, h⟩⟩
    · have hd1 : info.isDir = false := by simpa using hd
      simp only [hd1, Bool.false_eq_true, if_false] at h
      refine ⟨request, Or.inl ⟨rfl, fun info' hi => ?_⟩, Or.inr ⟨info, hst, h⟩⟩
      injection hi with hi
      rw [← hi]
      exact hd1

/-- A response that `HandleGoodRequest` returns comes from the not-found exit or from the
success exit, the latter for a path on which `os.Stat` succeeded. The request stored differs
from the request given in its target at most. -/
theorem HandleGoodRequest_ret (s : Server) (u : Util) (fs : FS) (now : Nat)
    (request : Request) (response : Response)
    (h : (HandleGoodRequest s u fs now request).2 = .ret response) :
    ∃ (request1 : Request) (filePath : Str),
      request1.Method = request.Method ∧ request1.Proto = request.Proto
      ∧ request1.Headers = request.Headers ∧ request1.Host = request.Host
      ∧ request1.Close = request.Close
      ∧ (notFoundExit u now ⟨[], 0, [], [], none, []⟩ filePath request1 = .ret response
          ∨ (∃ info, fs.stat filePath = .ok info
              ∧ okExit u now ⟨[], 0, [], [], none, []⟩ filePath request1 (some info)
                  = .ret response)) := by
  unfold HandleGoodRequest at h
  simp only at h
  cases hhost : s.VirtualHosts.get request.Host with
  | none =>
    rw [hhost] at h
    exact ⟨request, request.URL, rfl, rfl, rfl, rfl, rfl, Or.inl h⟩
  | some R =>
    rw [hhost] at h
    simp only at h
    cases hlast : request.URL.getLast? with
    | none =>
      rw [hlast] at h
      cases h
    | some last =>
      rw [hlast] at h
      simp only at h
      obtain ⟨request1, hreq, hexit⟩ := statAndServe_ret s u fs now _ _ _ response h
      have hfields : request1.Method = request.Method ∧ request1.Proto = request.Proto
          ∧ request1.Headers = request.Headers ∧ request1.Host = request.Host
          ∧ request1.Close = request.Close := by
        rcases hreq with ⟨hreq, _⟩ | ⟨_, hreq⟩ <;> rw [hreq] <;> split_ifs <;>
          exact ⟨rfl, rfl, rfl, rfl, rfl⟩
      obtain ⟨f1, f2, f3, f4, f5⟩ := hfields
      refine ⟨request1, s.VirtualHosts.getD request.Host ++ Clean request1.URL,
        f1, f2, f3, f4, f5, ?_⟩
      rcases hexit with ⟨_, hnf⟩ | ⟨info, hst, hok⟩
      · exact Or.inl hnf
      · exact Or.inr ⟨info, hst, hok⟩

/-! ## The Connection header of a response -/

theorem header_keys_differ :
    bytes "Date" ≠ bytes "Connection" ∧ bytes "Content-Type" ≠ bytes "Connection"
    ∧ bytes "Content-Length" ≠ bytes "Connection" ∧ bytes "Last-Modified" ≠ bytes "Connection"
    ∧ bytes "Date" ≠ bytes "Content-Length" ∧ bytes "Connection" ≠ bytes "Content-Length"
    ∧ bytes "Content-Type" ≠ bytes "Content-Length" := by
  decide

/-- C14. Every response that `HandleGoodRequest` returns has status 200 or 404, and it has a
Connection header if and only if the `Close` flag of the request is true, in which case the
value is "close". -/
theorem connection_header_iff_close (s : Server) (u : Util) (fs : FS) (now : Nat)
    (request : Request) (response : Response)
    (h : (HandleGoodRequest s u fs now request).2 = .ret response) :
    (response.StatusCode = 200 ∨ response.StatusCode = 404)
    ∧ response.Headers.get (bytes "Connection")
        = (if request.Close = true then some (bytes "close") else none) := by
  obtain ⟨h1, h2, h3, h4, _, _, _⟩ := header_keys_differ
  obtain ⟨request1, filePath, _, _, _, _, hclose, hexit⟩ :=
    HandleGoodRequest_ret s u fs now request response h
  rcases hexit with hnf | ⟨info, _, hok⟩
  · rw [notFoundExit_ret] at hnf
    injection hnf with hnf
    subst hnf
    refine ⟨Or.inr rfl, ?_⟩
    simp only [hclose]
    by_cases hc : request.Close = true <;>
      simp [hc, GoMap.get_set, GoMap.get, h1]
  · obtain ⟨ct, _, hok2⟩ := okExit_ret u now ⟨[], 0, [], [], none, []⟩ filePath request1 info
    rw [hok2] at hok
    injection hok with hok
    subst hok
    refine ⟨Or.inl rfl, ?_⟩
    simp only [hclose]
    by_cases hc : request.Close = true <;>
      simp [hc, GoMap.get_set, GoMap.get, h1, h2, h3, h4]

/-- C14 at concrete inputs: scenario 2 of the specification, a 404 for a request without
`Connection: close`, and a 200 for a request with it. -/
theorem connection_header_iff_close_witness :
    ((404 : Int) = 200 ∨ (404 : Int) = 404)
    ∧ GoMap.get [(bytes "Date", bytes "7 s")] (bytes "Connection")
        = (if false = true then some (bytes "close") else none) :=
  connection_header_iff_close sampleServer sampleUtil sampleFS 7
    ⟨bytes "GET", bytes "/missing.html", bytes "HTTP/1.1", [(bytes "Host", bytes "a.com")],
      bytes "a.com", false⟩
    ⟨bytes "HTTP/1.1", 404, bytes "Not Found", [(bytes "Date", bytes "7 s")],
      some ⟨bytes "GET", bytes "/missing.html", bytes "HTTP/1.1",
        [(bytes "Host", bytes "a.com")], bytes "a.com", false⟩,
      bytes "/srv/a/missing.html"⟩
    rfl

/-! ## Unknown hosts -/

/-- C15. For every request whose Host is not a key of the host table (the empty Host
included), whatever its target and whatever the file system, `HandleGoodRequest` calls
`os.Stat` on no path and returns a response with status 404 and text "Not Found"; it does not
panic. -/
theorem unknown_host_not_found (s : Server) (u : Util) (fs : FS) (now : Nat)
    (request : Request) (hhost : s.VirtualHosts.get request.Host = none) :
    HandleGoodRequest s u fs now request
      = ([], .ret ⟨bytes "HTTP/1.1", 404, bytes "Not Found",
          (if request.Close = true then
            [(bytes "Connection", bytes "close"), (bytes "Date", u.FormatTime now)]
           else [(bytes "Date", u.FormatTime now)]),
          some request, request.URL⟩) := by
  unfold HandleGoodRequest
  simp only [hhost, notFoundExit_ret]
  by_cases hc : request.Close = true
  · simp only [hc, if_true]
    rfl
  · simp only [hc, if_false]
    rfl

/-- C15 at a concrete input: a request without Host header (empty Host) and with an empty
target. -/
theorem unknown_host_not_found_witness :
    HandleGoodRequest sampleServer sampleUtil sampleFS 3
        ⟨bytes "GET", [], bytes "HTTP/1.1", [], [], false⟩
      = ([], .ret ⟨bytes "HTTP/1.1", 404, bytes "Not Found",
          (if false = true then
            [(bytes "Connection", bytes "close"), (bytes "Date", sampleUtil.FormatTime 3)]
           else [(bytes "Date", sampleUtil.FormatTime 3)]),
          some ⟨bytes "GET", [], bytes "HTTP/1.1", [], [], false⟩, []⟩) :=
  unknown_host_not_found sampleServer sampleUtil sampleFS 3
    ⟨bytes "GET", [], bytes "HTTP/1.1", [], [], false⟩ (by decide)

/-! ## Method and version of the request line -/

/-- `ReadRequest` on a reader whose first line has the three pieces `a`, `b`, `c`. -/
theorem ReadRequest_three (u : Util) (r r1 : Reader) (a b c : Str)
    (h : ReadLine r = .ret ((a ++ 32 :: (b ++ 32 :: c), none), r1))
    (ha : 32 ∉ a) (hb : 32 ∉ b) :
    ReadRequest u r =
      (if ValidateMethodField (TrimSpace a) = false then
        .ret (.error (.invalidMethod (TrimSpace a)), r1)
      else (ValidateURL (TrimSpace b)).bind (fun ok =>
        if ok = false then .ret (.error (.invalidURL (TrimSpace b)), r1)
        else if ValidateProto (TrimSpace c) = false then
          .ret (.error (.invalidProto (TrimSpace c)), r1)
        else readHeaders u (r1.pending.length + 1) r1
          ⟨TrimSpace a, TrimSpace b, RESPONSE_PROTO, [], [], false⟩)) := by
  rw [ReadRequest_of_line u r r1 _ h]
  have hp : ParseInitialRequestLine (a ++ 32 :: (b ++ 32 :: c))
      = .ok [TrimSpace a, TrimSpace b, TrimSpace c] := by
    unfold ParseInitialRequestLine
    rw [SplitN_three 32 a b c ha hb]
  rw [hp]
  simp only [idx, List.getElem?_cons_zero, List.getElem?_cons_succ, Run.ret_bind]
  by_cases hm : ValidateMethodField (TrimSpace a) = false
  · simp only [hm, if_true]
    rfl
  · simp only [hm, if_false]
    cases ValidateURL (TrimSpace b) <;> rfl

/-- A request that `ReadRequest` returns is the request with method "GET", a target that
begins with a slash and protocol "HTTP/1.1", after the header steps of the header lines. -/
theorem ReadRequest_ok_line (u : Util) (r r1 : Reader) (request : Request)
    (h : ReadRequest u r = .ret (.ok request, r1)) :
    ∃ url : Str, url[0]? = some 47
      ∧ request = (headerLines u r).foldl (fun q p => headerStep q p.1 p.2)
          ⟨bytes "GET", url, bytes "HTTP/1.1", [], [], false⟩ := by
  cases hRL : ReadLine r with
  | panic p => simp [ReadRequest, hRL] at h
  | fuel => simp [ReadRequest, hRL] at h
  | ret x =>
    obtain ⟨⟨line, err⟩, r2⟩ := x
    cases err with
    | some e => simp [ReadRequest, hRL] at h
    | none =>
      rw [ReadRequest_of_line u r r2 line hRL] at h
      simp only [headerLines, hRL]
      cases hP : ParseInitialRequestLine line with
      | error e => simp [hP] at h
      | ok initialRequest =>
        simp only [hP] at h
        cases h0 : idx initialRequest 0 with
        | panic p => simp [h0] at h
        | fuel => simp [h0] at h
        | ret method =>
          simp only [h0, Run.ret_bind] at h
          by_cases hm : ValidateMethodField method = false
          · simp [hm] at h
          · simp only [hm, if_false] at h
            cases h1 : idx initialRequest 1 with
            | panic p => simp [h1] at h
            | fuel => simp [h1] at h
            | ret url =>
              simp only [h1, Run.ret_bind] at h
              cases hv : ValidateURL url with
              | panic p => simp [hv] at h
              | fuel => simp [hv] at h
              | ret ok =>
                simp only [hv, Run.ret_bind] at h
                by_cases hok : ok = false
                · simp [hok] at h
                · simp only [hok, if_false] at h
                  cases h2 : idx initialRequest 2 with
                  | panic p => simp [h2] at h
                  | fuel => simp [h2] at h
                  | ret proto =>
                    simp only [h2, Run.ret_bind] at h
                    by_cases hp : ValidateProto proto = false
                    · simp [hp] at h
                    · simp only [hp, if_false] at h
                      have hmethod : method = bytes "GET" := by
                        unfold ValidateMethodField at hm
                        simpa using hm
                      have hurl : url[0]? = some 47 := by
                        unfold ValidateURL at hv
                        split at hv
                        · cases hv
                        · injection hv with hv
                          subst hv
                          cases url with
                          | nil =>
                            rename_i hlen
                            simp at hlen
                          | cons x xs =>
                            have : x = 47 := by simpa [bytes] using hok
                            simp [this]
                      subst hmethod
                      exact ⟨url, hurl, readHeaders_fold u _ r2 _ request r1 h⟩

/-- C16, counterexample. The method token of the line "GET\t / HTTP/1.1" is "GET" followed
by a tab, which is not "GET", and the version token of "GET / HTTP/1.1\t" is not "HTTP/1.1";
`ReadRequest` returns a Request for both lines. -/
theorem tab_after_method_accepted :
    bytes "GET\t" ≠ bytes "GET"
    ∧ ReadRequest sampleUtil ⟨[], [bytes "GET\t / HTTP/1.1\r\n\r\n"], .EOF⟩
      = .ret (.ok ⟨bytes "GET", bytes "/", bytes "HTTP/1.1", [], [], false⟩, ⟨[], [], .EOF⟩)
    ∧ bytes "HTTP/1.1\t" ≠ bytes "HTTP/1.1"
    ∧ ReadRequest sampleUtil ⟨[], [bytes "GET / HTTP/1.1\t\r\n\r\n"], .EOF⟩
      = .ret (.ok ⟨bytes "GET", bytes "/", bytes "HTTP/1.1", [], [], false⟩, ⟨[], [], .EOF⟩) := by
  decide

/-- C16, amended. With the tokens of the request line compared after `strings.TrimSpace`:
`ReadRequest` returns an error for every line that has no space, for every line whose method
token (the text before the first space) is not "GET" once trimmed, and for every line
`a b c` whose target `b` is not empty once trimmed and whose version `c` (the text after the
second space) is not "HTTP/1.1" once trimmed; and every Request that `ReadRequest` returns has
the method "GET" and the protocol "HTTP/1.1". -/
theorem method_and_version_checked (u : Util) (r r1 : Reader) (line : Str)
    (h : ReadLine r = .ret ((line, none), r1)) :
    (32 ∉ line → ∃ e, ReadRequest u r = .ret (.error e, r1))
    ∧ (∀ a rest : Str, line = a ++ 32 :: rest → 32 ∉ a → TrimSpace a ≠ bytes "GET" →
        ∃ e, ReadRequest u r = .ret (.error e, r1))
    ∧ (∀ a b c : Str, line = a ++ 32 :: (b ++ 32 :: c) → 32 ∉ a → 32 ∉ b →
        TrimSpace b ≠ [] → TrimSpace c ≠ bytes "HTTP/1.1" →
        ∃ e, ReadRequest u r = .ret (.error e, r1))
    ∧ (∀ request r2, ReadRequest u r = .ret (.ok request, r2) →
        request.Method = bytes "GET" ∧ request.Proto = bytes "HTTP/1.1") := by
  have hshort : ∀ pieces : List Str, SplitN line 32 3 = pieces → pieces.length ≠ 3 →
      ∃ e, ReadRequest u r = .ret (.error e, r1) := by
    intro pieces hs hlen
    rw [ReadRequest_of_line u r r1 line h]
    have hp : ParseInitialRequestLine line = .error (.parseRequestLine pieces) := by
      unfold ParseInitialRequestLine
      split
      · rename_i x y z heq
        rw [hs] at heq
        rw [heq] at hlen
        exact absurd rfl hlen
      · rw [hs]
    rw [hp]
    exact ⟨_, rfl⟩
  refine ⟨?_, ?_, ?_, ?_⟩
  · intro hno
    apply hshort [line]
    · have hcut : cut 32 line = none := by
        cases hc : cut 32 line with
        | none => rfl
        | some p =>
          obtain ⟨x, y⟩ := p
          obtain ⟨e1, _⟩ := cut_some hc
          exact absurd (by rw [e1]; simp) hno
      simp only [SplitN, hcut]
    · simp
  · intro a rest hline ha hnot
    rcases first_occurrence 32 rest with hrest | ⟨b, c, hsplit, hb⟩
    · apply hshort [a, rest]
      · have hcut : cut 32 rest = none := by
          cases hc : cut 32 rest with
          | none => rfl
          | some p =>
            obtain ⟨x, y⟩ := p
            obtain ⟨e1, _⟩ := cut_some hc
            exact absurd (by rw [e1]; simp) hrest
        rw [hline]
        simp only [SplitN, cut_append 32 a rest ha, hcut]
      · simp
    · subst hsplit
      subst hline
      rw [ReadRequest_three u r r1 a b c h ha hb]
      have hm : ValidateMethodField (TrimSpace a) = false := by
        unfold ValidateMethodField
        simpa using hnot
      rw [if_pos hm]
      exact ⟨_, rfl⟩
  · intro a b c hline ha hb hb1 hc1
    subst hline
    rw [ReadRequest_three u r r1 a b c h ha hb]
    by_cases hm : ValidateMethodField (TrimSpace a) = false
    · rw [if_pos hm]
      exact ⟨_, rfl⟩
    · have hu : ValidateURL (TrimSpace b) = .ret ((TrimSpace b).take 1 == bytes "/") := by
        unfold ValidateURL
        have : ¬ (TrimSpace b).length < 1 := by
          cases hb2 : TrimSpace b with
          | nil => exact absurd hb2 hb1
          | cons x xs => simp
        simp [this]
      have hp : ValidateProto (TrimSpace c) = false := by
        unfold ValidateProto RESPONSE_PROTO
        simpa using hc1
      rw [if_neg hm, hu]
      simp only [Run.bind, hp, if_true]
      by_cases hv : ((TrimSpace b).take 1 == bytes "/") = false
      · rw [if_pos hv]
        exact ⟨_, rfl⟩
      · rw [if_neg hv]
        exact ⟨_, rfl⟩
  · intro request r2 hok
    obtain ⟨url, _, hreq⟩ := ReadRequest_ok_line u r r2 request hok
    have hf := headerStep_fold (headerLines u r) ⟨bytes "GET", url, bytes "HTTP/1.1", [], [], false⟩ []
    rw [← hreq] at hf
    exact ⟨hf.2.2.2.1, hf.2.2.2.2.2⟩

/-- C16, the amended statement at concrete inputs: the lines "POST / HTTP/1.1" and
"get / HTTP/1.1" (method), "GET / HTTP/1.0" (version), and a request that is returned. -/
theorem method_and_version_checked_witness :
    (∃ e, ReadRequest sampleUtil ⟨[], [bytes "POST / HTTP/1.1\r\n\r\n"], .EOF⟩
        = .ret (.error e, ⟨bytes "\r\n", [], .EOF⟩))
    ∧ (∃ e, ReadRequest sampleUtil ⟨[], [bytes "get / HTTP/1.1\r\n\r\n"], .EOF⟩
        = .ret (.error e, ⟨bytes "\r\n", [], .EOF⟩))
    ∧ (∃ e, ReadRequest sampleUtil ⟨[], [bytes "GET / HTTP/1.0\r\n\r\n"], .EOF⟩
        = .ret (.error e, ⟨bytes "\r\n", [], .EOF⟩))
    ∧ (bytes "GET" = bytes "GET" ∧ bytes "HTTP/1.1" = bytes "HTTP/1.1") :=
  ⟨(method_and_version_checked sampleUtil ⟨[], [bytes "POST / HTTP/1.1\r\n\r\n"], .EOF⟩
      ⟨bytes "\r\n", [], .EOF⟩ (bytes "POST / HTTP/1.1") (by decide)).2.1
      (bytes "POST") (bytes "/ HTTP/1.1") (by decide) (by decide) (by decide),
   (method_and_version_checked sampleUtil ⟨[], [bytes "get / HTTP/1.1\r\n\r\n"], .EOF⟩
      ⟨bytes "\r\n", [], .EOF⟩ (bytes "get / HTTP/1.1") (by decide)).2.1
      (bytes "get") (bytes "/ HTTP/1.1") (by decide) (by decide) (by decide),
   (method_and_version_checked sampleUtil ⟨[], [bytes "GET / HTTP/1.0\r\n\r\n"], .EOF⟩
      ⟨bytes "\r\n", [], .EOF⟩ (bytes "GET / HTTP/1.0") (by decide)).2.2.1
      (bytes "GET") (bytes "/") (bytes "HTTP/1.0") (by decide) (by decide) (by decide)
      (by decide) (by decide),
   (method_and_version_checked sampleUtil
      ⟨[], [bytes "GET /a HTTP/1.1\r\nHost: a.com\r\n\r\n"], .EOF⟩
      ⟨bytes "Host: a.com\r\n\r\n", [], .EOF⟩ (bytes "GET /a HTTP/1.1") (by decide)).2.2.2
      ⟨bytes "GET", bytes "/a", bytes "HTTP/1.1", [(bytes "Host", bytes "a.com")],
        bytes "a.com", false⟩ ⟨[], [], .EOF⟩ (by decide)⟩

/-! ## Decimal numerals -/

theorem decimal_foldl (s : Str) (a : Nat) :
    s.foldl (fun acc c => 10 * acc + (c - 48)) a
      = a * 10 ^ s.length + s.foldl (fun acc c => 10 * acc + (c - 48)) 0 := by
  induction s generalizing a with
  | nil => simp
  | cons c s ih =>
    simp only [List.foldl_cons, List.length_cons]
    rw [ih (10 * a + (c - 48)), ih (10 * 0 + (c - 48))]
    ring

theorem digits_value (fuel n : Nat) (acc : Str) (h : n < fuel) :
    decimalValue (digits fuel n acc) = n * 10 ^ acc.length + decimalValue acc := by
  induction fuel generalizing n acc with
  | zero => omega
  | succ fuel ih =>
    unfold digits
    by_cases hn : n < 10
    · simp only [hn, if_true]
      unfold decimalValue
      rw [List.foldl_cons, decimal_foldl]
      have : 48 + n - 48 = n := by omega
      simp [this]
    · simp only [hn, if_false]
      rw [ih (n / 10) _ (by omega)]
      unfold decimalValue
      rw [List.foldl_cons, decimal_foldl acc]
      have h48 : 48 + n % 10 - 48 = n % 10 := by omega
      simp only [List.length_cons, h48, Nat.mul_zero, Nat.zero_add]
      have hdiv : n = 10 * (n / 10) + n % 10 := (Nat.div_add_mod n 10).symm
      have hpow : 10 ^ (acc.length + 1) = 10 * 10 ^ acc.length := by ring
      rw [hpow]
      nth_rewrite 3 [hdiv]
      ring

theorem digits_are_digits (fuel n : Nat) (acc : Str) (hacc : ∀ c ∈ acc, 48 ≤ c ∧ c ≤ 57) :
    ∀ c ∈ digits fuel n acc, 48 ≤ c ∧ c ≤ 57 := by
  induction fuel generalizing n acc with
  | zero => simpa [digits] using hacc
  | succ fuel ih =>
    unfold digits
    by_cases hn : n < 10
    · simp only [hn, if_true]
      intro c hc
      rcases List.mem_cons.mp hc with hc | hc
      · omega
      · exact hacc c hc
    · simp only [hn, if_false]
      apply ih
      intro c hc
      rcases List.mem_cons.mp hc with hc | hc
      · have := Nat.mod_lt n (by decide : 10 > 0)
        omega
      · exact hacc c hc

/-- `strconv.Itoa` writes decimal digits, and the digits denote the number. -/
theorem Itoa_decimal (n : Nat) :
    decimalValue (Itoa n) = n ∧ ∀ c ∈ Itoa n, 48 ≤ c ∧ c ≤ 57 := by
  constructor
  · have := digits_value (n + 1) n [] (by omega)
    simpa [Itoa, decimalValue] using this
  · exact digits_are_digits (n + 1) n [] (by simp)

/-! ## The body of a success response -/

/-- C17. For every 200 response that `HandleGoodRequest` returns, when the file at its
`FilePath` reads as `contents` and `os.Stat` reports the size of `contents` for it (the file
is the same at both calls), and for every sink that never fails: `WriteToResponse` returns no
error and appends the status line, the header lines, the blank line and then exactly
`contents`; and the Content-Length header is `strconv.Itoa` of the number of bytes of
`contents`, a string of decimal digits that denotes that number. -/
theorem body_round_trip (s : Server) (u : Util) (fs : FS) (now : Nat) (request : Request)
    (response : Response) (w : Sink) (info : FileInfo) (contents : Str)
    (h : (HandleGoodRequest s u fs now request).2 = .ret response)
    (h200 : response.StatusCode = 200) (hw : w.budget = none)
    (hstat : fs.stat response.FilePath = .ok info)
    (hread : fs.readFile response.FilePath = .ok contents)
    (hsize : info.size = contents.length) :
    WriteToResponse response fs w
      = (none, ⟨w.written
          ++ (response.Proto ++ bytes " " ++ fmtInt response.StatusCode ++ bytes " "
              ++ response.StatusText ++ CRLF)
          ++ ((sortStrings response.Headers.keys).map
              (fun key => key ++ bytes ": " ++ response.Headers.getD key ++ CRLF)).flatten
          ++ CRLF ++ contents, none, w.err⟩)
    ∧ response.Headers.get (bytes "Content-Length") = some (Itoa contents.length)
    ∧ decimalValue (Itoa contents.length) = contents.length
    ∧ ∀ c ∈ Itoa contents.length, 48 ≤ c ∧ c ≤ 57 := by
  refine ⟨?_, ?_, (Itoa_decimal _).1, (Itoa_decimal _).2⟩
  · rw [WriteToResponse_ok response fs w hw]
    simp only [h200, if_true, hread]
  · obtain ⟨_, _, _, _, h5, h6, h7⟩ := header_keys_differ
    obtain ⟨request1, filePath, _, _, _, _, _, hexit⟩ :=
      HandleGoodRequest_ret s u fs now request response h
    rcases hexit with hnf | ⟨info1, hst1, hok⟩
    · rw [notFoundExit_ret] at hnf
      injection hnf with hnf
      subst hnf
      exact absurd h200 (show ¬ (STATUS_NOT_FOUND = 200) by decide)
    · obtain ⟨ct, _, hok2⟩ := okExit_ret u now ⟨[], 0, [], [], none, []⟩ filePath request1 info1
      rw [hok2] at hok
      injection hok with hok
      subst hok
      simp only at hstat
      rw [hst1] at hstat
      injection hstat with hinfo
      subst hinfo
      rw [← hsize]
      have h8 : bytes "Last-Modified" ≠ bytes "Content-Length" := by decide
      by_cases hc : request1.Close = true <;>
        simp [hc, GoMap.get_set, GoMap.get, h5, h6, h7, h8]

/-- C17 at a concrete input: the file `/srv/a/sub/index.html` with the three bytes "sub". -/
theorem body_round_trip_witness :
    WriteToResponse ⟨bytes "HTTP/1.1", 200, bytes "OK",
        [(bytes "Last-Modified", bytes "1001 s"), (bytes "Content-Length", bytes "3"),
          (bytes "Content-Type", bytes "text/html"), (bytes "Date", bytes "9 s")],
        some ⟨bytes "GET", bytes "/sub/index.html", bytes "HTTP/1.1", [], bytes "a.com", false⟩,
        bytes "/srv/a/sub/index.html"⟩ sampleFS freshSink
      = (none, ⟨bytes "HTTP/1.1 200 OK\r\nContent-Length: 3\r\nContent-Type: text/html\r\nDate: 9 s\r\nLast-Modified: 1001 s\r\n\r\nsub",
          none, .io 32⟩)
    ∧ GoMap.get [(bytes "Last-Modified", bytes "1001 s"), (bytes "Content-Length", bytes "3"),
          (bytes "Content-Type", bytes "text/html"), (bytes "Date", bytes "9 s")]
        (bytes "Content-Length") = some (bytes "3")
    ∧ decimalValue (bytes "3") = 3 := by
  have h := body_round_trip sampleServer sampleUtil sampleFS 9
    ⟨bytes "GET", bytes "/sub/index.html", bytes "HTTP/1.1", [], bytes "a.com", false⟩
    ⟨bytes "HTTP/1.1", 200, bytes "OK",
        [(bytes "Last-Modified", bytes "1001 s"), (bytes "Content-Length", bytes "3"),
          (bytes "Content-Type", bytes "text/html"), (bytes "Date", bytes "9 s")],
        some ⟨bytes "GET", bytes "/sub/index.html", bytes "HTTP/1.1", [], bytes "a.com", false⟩,
        bytes "/srv/a/sub/index.html"⟩
    freshSink ⟨false, 3, 1001⟩ (bytes "sub") rfl rfl rfl rfl rfl rfl
  exact ⟨h.1.trans (by decide), h.2.1, h.2.2.1⟩

/-! ## Splitting a header line -/

/-- C18. For every header line with a colon and a non-empty text `k` before the first colon,
`ParseHeaderLine` returns the canonical form of the trimmed `k` as the key and the trimmed
text `v` after the first colon as the value; colons in `v` stay where they are. -/
theorem header_split_at_first_colon (u : Util) (k v : Str) (hk : 58 ∉ k) (hne : k ≠ []) :
    ParseHeaderLine u (k ++ 58 :: v) = .ok [u.CanonicalHeaderKey (TrimSpace k), TrimSpace v] := by
  unfold ParseHeaderLine
  have hs : SplitN (k ++ 58 :: v) 58 2 = [k, v] := by
    simp only [SplitN, cut_append 58 k v hk]
  rw [hs]
  simp only [hne, if_false]

/-- C18 at concrete inputs: the lines "Host: a.com:8080" and "Key:". -/
theorem header_split_at_first_colon_witness :
    (ParseHeaderLine sampleUtil (bytes "Host" ++ 58 :: bytes " a.com:8080")
        = .ok [sampleUtil.CanonicalHeaderKey (TrimSpace (bytes "Host")),
            TrimSpace (bytes " a.com:8080")]
      ∧ TrimSpace (bytes " a.com:8080") = bytes "a.com:8080")
    ∧ (ParseHeaderLine sampleUtil (bytes "Key" ++ 58 :: [])
        = .ok [sampleUtil.CanonicalHeaderKey (TrimSpace (bytes "Key")), TrimSpace []]
      ∧ TrimSpace [] = []) :=
  ⟨⟨header_split_at_first_colon sampleUtil (bytes "Host") (bytes " a.com:8080") (by decide)
      (by decide), by decide⟩,
   ⟨header_split_at_first_colon sampleUtil (bytes "Key") [] (by decide) (by decide),
    by decide⟩⟩

/-! ## The two-stage directory rule -/

/-- C19. For every known host with root `R` and every target `t` that begins with a slash
and does not end in one: when `R ++ Clean t` is a directory, `HandleGoodRequest` returns 200
with `FilePath` `R ++ Clean (t ++ "/index.html")` if that path exists and 404 if it does not
exist; when `R ++ Clean t` exists and is not a directory it returns 200 with `FilePath`
`R ++ Clean t`; when `R ++ Clean t` does not exist it returns 404. -/
theorem two_stage_directory_rule (s : Server) (u : Util) (fs : FS) (now : Nat)
    (request : Request) (R : Str) (last : Nat)
    (hhost : s.VirtualHosts.get request.Host = some R)
    (hroot : request.URL[0]? = some 47)
    (hlast : request.URL.getLast? = some last) (hnoslash : last ≠ 47) :
    (∀ info, fs.stat (R ++ Clean request.URL) = .ok info → info.isDir = true →
      (∀ info2, fs.stat (R ++ Clean (request.URL ++ bytes "/index.html")) = .ok info2 →
        ∃ response, (HandleGoodRequest s u fs now request).2 = .ret response
          ∧ response.StatusCode = 200
          ∧ response.FilePath = R ++ Clean (request.URL ++ bytes "/index.html"))
      ∧ (fs.stat (R ++ Clean (request.URL ++ bytes "/index.html")) = .error .notExist →
        ∃ response, (HandleGoodRequest s u fs now request).2 = .ret response
          ∧ response.StatusCode = 404))
    ∧ (∀ info, fs.stat (R ++ Clean request.URL) = .ok info → info.isDir = false →
        ∃ response, (HandleGoodRequest s u fs now request).2 = .ret response
          ∧ response.StatusCode = 200 ∧ response.FilePath = R ++ Clean request.URL)
    ∧ (fs.stat (R ++ Clean request.URL) = .error .notExist →
        ∃ response, (HandleGoodRequest s u fs now request).2 = .ret response
          ∧ response.StatusCode = 404) := by
  have hR : s.VirtualHosts.getD request.Host = R := by simp [GoMap.getD, hhost]
  have hidem : Clean (Clean (request.URL ++ bytes "/index.html"))
      = Clean (request.URL ++ bytes "/index.html") := Clean_idem _ (rooted_append _ _ hroot)
  have hunfold : HandleGoodRequest s u fs now request
      = statAndServe s u fs now ⟨[], 0, [], [], none, []⟩ request.Host request := by
    unfold HandleGoodRequest
    simp only [hhost, hlast, hnoslash, if_false]
  rw [hunfold]
  unfold statAndServe
  simp only [hR, hidem]
  refine ⟨fun info hst hd => ⟨fun info2 hst2 => ?_, fun hst2 => ?_⟩, fun info hst hd => ?_,
    fun hst => ?_⟩
  · obtain ⟨ct, _, hok⟩ := okExit_ret u now ⟨[], 0, [], [], none, []⟩
      (R ++ Clean (request.URL ++ bytes "/index.html"))
      { request with URL := Clean (request.URL ++ bytes "/index.html") } info2
    simp only [hst, hd, if_true, hst2]
    exact ⟨_, hok, rfl, rfl⟩
  · simp only [hst, hd, if_true, hst2, notFoundExit_ret]
    exact ⟨_, rfl, rfl⟩
  · obtain ⟨ct, _, hok⟩ := okExit_ret u now ⟨[], 0, [], [], none, []⟩
      (R ++ Clean request.URL) request info
    simp only [hst, hd, Bool.false_eq_true, if_false]
    exact ⟨_, hok, rfl, rfl⟩
  · simp only [hst, notFoundExit_ret]
    exact ⟨_, rfl, rfl⟩

/-- C19 at concrete inputs: the directory `/sub` with an index file, the directory `/docs`
without one, the file `/index.html`, and the missing path `/missing`. -/
theorem two_stage_directory_rule_witness :
    (∃ response, (HandleGoodRequest sampleServer sampleUtil sampleFS 0
        ⟨bytes "GET", bytes "/sub", bytes "HTTP/1.1", [], bytes "a.com", false⟩).2 = .ret response
      ∧ response.StatusCode = 200
      ∧ response.FilePath = bytes "/srv/a" ++ Clean (bytes "/sub" ++ bytes "/index.html"))
    ∧ (∃ response, (HandleGoodRequest sampleServer sampleUtil sampleFS 0
        ⟨bytes "GET", bytes "/docs", bytes "HTTP/1.1", [], bytes "a.com", false⟩).2 = .ret response
      ∧ response.StatusCode = 404)
    ∧ (∃ response, (HandleGoodRequest sampleServer sampleUtil sampleFS 0
        ⟨bytes "GET", bytes "/index.html", bytes "HTTP/1.1", [], bytes "a.com", false⟩).2
          = .ret response
      ∧ response.StatusCode = 200
      ∧ response.FilePath = bytes "/srv/a" ++ Clean (bytes "/index.html"))
    ∧ (∃ response, (HandleGoodRequest sampleServer sampleUtil sampleFS 0
        ⟨bytes "GET", bytes "/missing", bytes "HTTP/1.1", [], bytes "a.com", false⟩).2
          = .ret response
      ∧ response.StatusCode = 404) :=
  ⟨((two_stage_directory_rule sampleServer sampleUtil sampleFS 0
        ⟨bytes "GET", bytes "/sub", bytes "HTTP/1.1", [], bytes "a.com", false⟩
        (bytes "/srv/a") 98 (by decide) (by decide) (by decide) (by decide)).1
      ⟨true, 4096, 900⟩ (by decide) rfl).1 ⟨false, 3, 1001⟩ (by decide),
   ((two_stage_directory_rule sampleServer sampleUtil sampleFS 0
        ⟨bytes "GET", bytes "/docs", bytes "HTTP/1.1", [], bytes "a.com", false⟩
        (bytes "/srv/a") 115 (by decide) (by decide) (by decide) (by decide)).1
      ⟨true, 4096, 900⟩ (by decide) rfl).2 (by decide),
   (two_stage_directory_rule sampleServer sampleUtil sampleFS 0
        ⟨bytes "GET", bytes "/index.html", bytes "HTTP/1.1", [], bytes "a.com", false⟩
        (bytes "/srv/a") 108 (by decide) (by decide) (by decide) (by decide)).2.1
      ⟨false, 12, 1000⟩ (by decide) rfl,
   (two_stage_directory_rule sampleServer sampleUtil sampleFS 0
        ⟨bytes "GET", bytes "/missing", bytes "HTTP/1.1", [], bytes "a.com", false⟩
        (bytes "/srv/a") 103 (by decide) (by decide) (by decide) (by decide)).2.2
      (by decide)⟩

/-! ## What `HandleGoodRequest` does to the request -/

/-- The request that a response of `HandleGoodRequest` carries: the request given, for an
unknown host; for a known host the request after the index rule for a trailing slash, and
after the index rule for a directory when the path is one. -/
theorem HandleGoodRequest_request (s : Server) (u : Util) (fs : FS) (now : Nat)
    (request : Request) (response : Response)
    (h : (HandleGoodRequest s u fs now request).2 = .ret response) :
    ∃ request1 : Request, response.Request = some request1
      ∧ ((s.VirtualHosts.get request.Host = none ∧ request1 = request)
        ∨ ∃ (R : Str) (last : Nat) (request0 : Request),
            s.VirtualHosts.get request.Host = some R
            ∧ request.URL.getLast? = some last
            ∧ request0 = (if last = 47 then
                { request with URL := Clean (request.URL ++ bytes "index.html") } else request)
            ∧ ((request1 = request0
                  ∧ ∀ info, fs.stat (R ++ Clean request0.URL) = .ok info → info.isDir = false)
              ∨ ((∃ info, fs.stat (R ++ Clean request0.URL) = .ok info ∧ info.isDir = true)
                  ∧ request1
                    = { request0 with URL := Clean (request0.URL ++ bytes "/index.html") }))) := by
  have hreq : ∀ (filePath : Str) (request1 : Request),
      (notFoundExit u now ⟨[], 0, [], [], none, []⟩ filePath request1 = .ret response
        ∨ ∃ info, okExit u now ⟨[], 0, [], [], none, []⟩ filePath request1 (some info)
            = .ret response) → response.Request = some request1 := by
    intro filePath request1 hexit
    rcases hexit with hnf | ⟨info, hok⟩
    · rw [notFoundExit_ret] at hnf
      injection hnf with hnf
      rw [← hnf]
    · obtain ⟨ct, _, hok2⟩ := okExit_ret u now ⟨[], 0, [], [], none, []⟩ filePath request1 info
      rw [hok2] at hok
      injection hok with hok
      rw [← hok]
  unfold HandleGoodRequest at h
  simp only at h
  cases hhost : s.VirtualHosts.get request.Host with
  | none =>
    rw [hhost] at h
    exact ⟨request, hreq _ _ (Or.inl h), Or.inl ⟨rfl, rfl⟩⟩
  | some R =>
    rw [hhost] at h
    simp only at h
    have hR : s.VirtualHosts.getD request.Host = R := by simp [GoMap.getD, hhost]
    cases hlast : request.URL.getLast? with
    | none =>
      rw [hlast] at h
      cases h
    | some last =>
      rw [hlast] at h
      simp only at h
      obtain ⟨request1, hcase, hexit⟩ := statAndServe_ret s u fs now _ _ _ response h
      rw [hR] at hcase
      refine ⟨request1, ?_, Or.inr ⟨R, last, _, rfl, rfl, rfl, hcase⟩⟩
      rcases hexit with ⟨_, hnf⟩ | ⟨info, _, hok⟩
      · exact hreq _ _ (Or.inl hnf)
      · exact hreq _ _ (Or.inr ⟨info, hok⟩)

/-- C20, counterexample. For the target `/` of a known host, the Request that the response of
`HandleGoodRequest` refers to has the target `/index.html`, not the target `/` that
`ReadRequest` returned. -/
theorem request_target_rewritten :
    ReadRequest sampleUtil ⟨[], [bytes "GET / HTTP/1.1\r\nHost: a.com\r\n\r\n"], .EOF⟩
      = .ret (.ok ⟨bytes "GET", bytes "/", bytes "HTTP/1.1", [(bytes "Host", bytes "a.com")],
          bytes "a.com", false⟩, ⟨[], [], .EOF⟩)
    ∧ (HandleGoodRequest sampleServer sampleUtil sampleFS 0
        ⟨bytes "GET", bytes "/", bytes "HTTP/1.1", [(bytes "Host", bytes "a.com")],
          bytes "a.com", false⟩).2.map (fun response => response.Request)
      = .ret (some ⟨bytes "GET", bytes "/index.html", bytes "HTTP/1.1",
          [(bytes "Host", bytes "a.com")], bytes "a.com", false⟩)
    ∧ bytes "/index.html" ≠ bytes "/" := by
  decide

/-- A rendered path of real elements ends in a slash only when it is the root. -/
theorem render_last (segs : List Str) (h : ∀ e ∈ segs, RealElem e)
    (hl : (render segs).getLast? = some 47) : segs = [] := by
  rcases List.eq_nil_or_concat segs with hnil | ⟨init, e, he⟩
  · exact hnil
  · rw [List.concat_eq_append] at he
    subst he
    have hreal := h e (by simp)
    obtain ⟨hne, h47, _, _⟩ := hreal
    rw [render_concat] at hl
    have hlast : ((List.map (fun s => 47 :: s) init).flatten ++ 47 :: e).getLast?
        = some (e.getLast hne) := by
      rw [show (List.map (fun s => 47 :: s) init).flatten ++ 47 :: e
        = ((List.map (fun s => 47 :: s) init).flatten ++ [47]) ++ e by simp]
      rw [List.getLast?_append_of_ne_nil _ hne, List.getLast?_eq_getLast _ hne]
    rw [hlast] at hl
    injection hl with hl
    exact absurd (hl ▸ List.getLast_mem hne) h47

/-- Appending `/index.html` to a rooted path and cleaning never gives the path back. -/
theorem Clean_index_ne (p : Str) (hp : p[0]? = some 47) :
    Clean (p ++ bytes "/index.html") ≠ p := by
  cases p with
  | nil => simp at hp
  | cons c b =>
    simp only [List.getElem?_cons_zero, Option.some.injEq] at hp
    subst hp
    intro heq
    obtain ⟨h1, h2⟩ := Clean_rooted b
    obtain ⟨g1, g2⟩ := Clean_rooted (b ++ bytes "/index.html")
    have hidx : bytes "/index.html" = 47 :: bytes "index.html" := rfl
    have hi : elems (bytes "index.html") = [bytes "index.html"] :=
      elems_single _ (by decide) (by decide)
    have hel : elems (b ++ bytes "/index.html") = elems b ++ [bytes "index.html"] := by
      rw [hidx, elems_append, hi]
    have hfold : (elems (b ++ bytes "/index.html")).foldl segStep []
        = (elems b).foldl segStep [] ++ [bytes "index.html"] := by
      rw [hel, List.foldl_append, List.foldl_cons, List.foldl_nil,
        segStep_real _ _ (by decide) (by decide)]
    rw [hfold] at g1 g2
    have hc : Clean (47 :: b ++ bytes "/index.html")
        = render ((elems b).foldl segStep [] ++ [bytes "index.html"]) := g1
    have hclean : Clean (47 :: b)
        = render ((elems b).foldl segStep [] ++ [bytes "index.html"]) := by
      have hcc : Clean (47 :: b)
          = Clean (render ((elems b).foldl segStep [] ++ [bytes "index.html"])) := by
        rw [← hc, heq]
      rw [hcc, Clean_render _ g2]
    rw [h1] at hclean
    have := congrArg elems hclean
    rw [elems_render _ h2, elems_render _ g2] at this
    simp at this

/-- C20, amended. The Request that a response of `HandleGoodRequest` refers to has the
Method, Proto, Headers, Host and Close that the request had. Its target is the one the
request had when the host is unknown. For a known host with root `R` the target is rewritten
in two steps: a target that ends in a slash becomes `path.Clean` of it with `index.html`
appended; then, when `R` followed by the cleaned target is a directory, the target becomes
`path.Clean` of it with `/index.html` appended, and stays as it is otherwise. For a known
host and a target that begins with a slash, the request referred to has the target the
request had exactly when the target does not end in a slash and its path is not a
directory. -/
theorem request_fields_kept (s : Server) (u : Util) (fs : FS) (now : Nat)
    (request : Request) (response : Response)
    (h : (HandleGoodRequest s u fs now request).2 = .ret response) :
    ∃ request1 : Request, response.Request = some request1
      ∧ request1.Method = request.Method ∧ request1.Proto = request.Proto
      ∧ request1.Headers = request.Headers ∧ request1.Host = request.Host
      ∧ request1.Close = request.Close
      ∧ (s.VirtualHosts.get request.Host = none → request1.URL = request.URL)
      ∧ (∀ R last, s.VirtualHosts.get request.Host = some R →
          request.URL.getLast? = some last →
          ((∀ info, fs.stat (R ++ Clean (if last = 47 then
                Clean (request.URL ++ bytes "index.html") else request.URL)) = .ok info →
              info.isDir = false) →
            request1.URL = (if last = 47 then
                Clean (request.URL ++ bytes "index.html") else request.URL))
          ∧ ((∃ info, fs.stat (R ++ Clean (if last = 47 then
                Clean (request.URL ++ bytes "index.html") else request.URL)) = .ok info
              ∧ info.isDir = true) →
            request1.URL = Clean ((if last = 47 then
                Clean (request.URL ++ bytes "index.html") else request.URL)
              ++ bytes "/index.html"))
          ∧ (request.URL[0]? = some 47 →
            (request1.URL = request.URL ↔
              last ≠ 47 ∧ ∀ info, fs.stat (R ++ Clean request.URL) = .ok info →
                info.isDir = false))) := by
  obtain ⟨request1, hresp, hcase⟩ := HandleGoodRequest_request s u fs now request response h
  refine ⟨request1, hresp, ?_⟩
  rcases hcase with ⟨hnone, hreq⟩ | ⟨R, last, request0, hR, hlast, h0, hcase⟩
  · subst hreq
    refine ⟨rfl, rfl, rfl, rfl, rfl, fun _ => rfl, ?_⟩
    intro R last hR
    rw [hnone] at hR
    cases hR
  · have hfields : request0.Method = request.Method ∧ request0.Proto = request.Proto
        ∧ request0.Headers = request.Headers ∧ request0.Host = request.Host
        ∧ request0.Close = request.Close
        ∧ request0.URL = (if last = 47 then
            Clean (request.URL ++ bytes "index.html") else request.URL) := by
      rw [h0]
      by_cases hl : last = 47
      · simp [hl]
      · simp [hl]
    obtain ⟨f1, f2, f3, f4, f5, f6⟩ := hfields
    have h1 : request1.Method = request.Method ∧ request1.Proto = request.Proto
        ∧ request1.Headers = request.Headers ∧ request1.Host = request.Host
        ∧ request1.Close = request.Close := by
      rcases hcase with ⟨hreq, _⟩ | ⟨_, hreq⟩
      · rw [hreq]
        exact ⟨f1, f2, f3, f4, f5⟩
      · rw [hreq]
        exact ⟨f1, f2, f3, f4, f5⟩
    obtain ⟨m1, m2, m3, m4, m5⟩ := h1
    refine ⟨m1, m2, m3, m4, m5, ?_, ?_⟩
    · intro hnone
      rw [hnone] at hR
      cases hR
    · intro R2 last2 hR2 hlast2
      rw [hR] at hR2
      injection hR2 with hR2
      subst hR2
      rw [hlast] at hlast2
      injection hlast2 with hlast2
      subst hlast2
      rw [f6] at hcase
      -- the two steps
      have hfile : (∀ info, fs.stat (R ++ Clean (if last = 47 then
              Clean (request.URL ++ bytes "index.html") else request.URL)) = .ok info →
            info.isDir = false) →
          request1.URL = (if last = 47 then
              Clean (request.URL ++ bytes "index.html") else request.URL) := by
        intro hnodir
        rcases hcase with ⟨hreq, _⟩ | ⟨⟨info, hst, hd⟩, _⟩
        · rw [hreq, f6]
        · have := hnodir info hst
          rw [hd] at this
          cases this
      have hdir : (∃ info, fs.stat (R ++ Clean (if last = 47 then
              Clean (request.URL ++ bytes "index.html") else request.URL)) = .ok info
            ∧ info.isDir = true) →
          request1.URL = Clean ((if last = 47 then
              Clean (request.URL ++ bytes "index.html") else request.URL)
            ++ bytes "/index.html") := by
        intro ⟨info, hst, hd⟩
        rcases hcase with ⟨_, hnodir⟩ | ⟨_, hreq⟩
        · have := hnodir info hst
          rw [hd] at this
          cases this
        · rw [hreq]
      refine ⟨hfile, hdir, ?_⟩
      intro hroot
      constructor
      · intro hsame
        by_cases hl : last = 47
        · -- a target with a trailing slash is always rewritten
          exfalso
          simp only [hl, if_true] at hcase
          subst hl
          have hr0 : (request.URL ++ bytes "index.html")[0]? = some 47 :=
            rooted_append _ _ hroot
          have hr1 : (Clean (request.URL ++ bytes "index.html") ++ bytes "/index.html")[0]?
              = some 47 := rooted_append _ _ (Clean_rooted_head _ hr0)
          have hclean : ∃ z : Str, z[0]? = some 47 ∧ request.URL = Clean z := by
            rcases hcase with ⟨hreq, _⟩ | ⟨_, hreq⟩
            · exact ⟨request.URL ++ bytes "index.html", hr0,
                hsame.symm.trans (by rw [hreq, f6]; simp)⟩
            · exact ⟨Clean (request.URL ++ bytes "index.html") ++ bytes "/index.html", hr1,
                hsame.symm.trans (by rw [hreq])⟩
          obtain ⟨z, hz, hUz⟩ := hclean
          obtain ⟨segs, hsegs, hrender⟩ := Clean_rooted_shape z hz
          have hnil : segs = [] := render_last segs hsegs (by rw [← hrender, ← hUz]; exact hlast)
          have hU : request.URL = [47] := by rw [hUz, hrender, hnil]; rfl
          rcases hcase with ⟨hreq, _⟩ | ⟨_, hreq⟩
          · have := hsame
            rw [hreq, f6] at this
            simp only [if_true] at this
            rw [hU] at this
            exact absurd this (by decide)
          · have := hsame
            rw [hreq] at this
            simp only at this
            rw [hU] at this
            exact absurd this (by decide)
        · refine ⟨hl, ?_⟩
          simp only [hl, if_false] at hcase
          rcases hcase with ⟨_, hnodir⟩ | ⟨_, hreq⟩
          · exact hnodir
          · exfalso
            have := hsame
            rw [hreq] at this
            exact Clean_index_ne _ hroot this
      · intro ⟨hl, hnodir⟩
        have := hfile (by simpa only [hl, if_false] using hnodir)
        simpa only [hl, if_false] using this

/-- C20, the amended statement at a concrete input: the target `/sub` of host `a.com`, a
directory, for which the response carries the request with the target `/sub/index.html`. -/
theorem request_fields_kept_witness :
    ∃ request1 : Request,
      some (⟨bytes "GET", bytes "/sub/index.html", bytes "HTTP/1.1",
        [(bytes "Host", bytes "a.com")], bytes "a.com", true⟩ : Request) = some request1
      ∧ request1.Method = bytes "GET" ∧ request1.Proto = bytes "HTTP/1.1"
      ∧ request1.Headers = [(bytes "Host", bytes "a.com")] ∧ request1.Host = bytes "a.com"
      ∧ request1.Close = true
      ∧ (sampleServer.VirtualHosts.get (bytes "a.com") = none → request1.URL = bytes "/sub")
      ∧ (∀ R last, sampleServer.VirtualHosts.get (bytes "a.com") = some R →
          (bytes "/sub").getLast? = some last →
          ((∀ info, sampleFS.stat (R ++ Clean (if last = 47 then
                Clean (bytes "/sub" ++ bytes "index.html") else bytes "/sub")) = .ok info →
              info.isDir = false) →
            request1.URL = (if last = 47 then
                Clean (bytes "/sub" ++ bytes "index.html") else bytes "/sub"))
          ∧ ((∃ info, sampleFS.stat (R ++ Clean (if last = 47 then
                Clean (bytes "/sub" ++ bytes "index.html") else bytes "/sub")) = .ok info
              ∧ info.isDir = true) →
            request1.URL = Clean ((if last = 47 then
                Clean (bytes "/sub" ++ bytes "index.html") else bytes "/sub")
              ++ bytes "/index.html"))
          ∧ ((bytes "/sub")[0]? = some 47 →
            (request1.URL = bytes "/sub" ↔
              last ≠ 47 ∧ ∀ info, sampleFS.stat (R ++ Clean (bytes "/sub")) = .ok info →
                info.isDir = false))) :=
  request_fields_kept sampleServer sampleUtil sampleFS 0
    ⟨bytes "GET", bytes "/sub", bytes "HTTP/1.1", [(bytes "Host", bytes "a.com")],
      bytes "a.com", true⟩
    ⟨bytes "HTTP/1.1", 200, bytes "OK",
      [(bytes "Last-Modified", bytes "1001 s"), (bytes "Content-Length", bytes "3"),
        (bytes "Content-Type", bytes "text/html"), (bytes "Connection", bytes "close"),
        (bytes "Date", bytes "0 s")],
      some ⟨bytes "GET", bytes "/sub/index.html", bytes "HTTP/1.1",
        [(bytes "Host", bytes "a.com")], bytes "a.com", true⟩,
      bytes "/srv/a/sub/index.html"⟩
    rfl

end TritonHTTP
